import Mathlib

/-!
# Ralink raw-NAND controller driver (`drivers/nand_flash.c`)

A shallow embedding of the driver and the properties claimed about it.

* Machine integers are `Nat`/`Int`; wrap-around is written out (`u32`, `i32`).
* A `char *` is the function from byte offsets to bytes seen from the pointer (`Mem`).
* The controller is reached only through `ra_inl`/`ra_outl`/`udelay`; its behaviour is the
  parameter `Dev σ`, with `σ` the hardware state.  Every driver function is a state
  transformer `M σ α` on that state.
* Loops and the recursion `nfc_read_status → nfc_all_reset → nfc_chip_reset →
  nfc_wait_ready → nfc_read_status` are driven by a fuel argument; `none` means the fuel ran out.
* Constants and compile-time switches of the header `ralink_nand.h` are the fields of `Cfg`.
* The host is little-endian (`le32_to_cpu` is the identity) and plain `char` is signed, as on
  the MIPS target named by `configs/rt2880.h`.
* `printf` has no effect on the controller and is left out.
-/

namespace NandFlash

/-! ## Machine integers and memory -/

/-- Value of an expression converted to C `unsigned int`. -/
def u32 (x : Int) : Nat := (x % 4294967296).toNat

/-- Value of an expression converted to C `int` (two's complement, 32 bits). -/
def i32 (x : Int) : Int := (x + 2147483648) % 4294967296 - 2147483648

/-- A `char` object promoted to `int`. -/
def sext8 (b : Nat) : Int :=
  if b % 256 < 128 then ((b % 256 : Nat) : Int) else ((b % 256 : Nat) : Int) - 256

/-- A `char` object promoted to `int`, as a 32-bit pattern. -/
def charInt (b : Nat) : Nat := u32 (sext8 b)

/-- Bitwise complement of a 32-bit value. -/
def bnot32 (x : Nat) : Nat := 4294967295 - x % 4294967296

/-- A `char *`: the byte found at each offset from the pointer. -/
abbrev Mem := Nat → Nat

/-- The effect of `memset(dst, c, n)` on the bytes seen from `dst`. -/
def memset (dst : Mem) (c n : Nat) : Mem := fun i => if i < n then c else dst i

/-- The effect of `memcpy(dst + d, src + s, n)` on the bytes seen from `dst`. -/
def memcpy (dst : Mem) (d : Nat) (src : Mem) (s n : Nat) : Mem :=
  fun i => if d ≤ i ∧ i < d + n then src (s + (i - d)) else dst i

/-- The effect of `*(p + d) = c` on the bytes seen from `p`. -/
def poke (p : Mem) (d c : Nat) : Mem := fun i => if i = d then c else p i

/-- The first `n` bytes seen from a pointer, as a list. -/
def window (m : Mem) (n : Nat) : List Nat := (List.range n).map m

/-! ## Configuration: the header `ralink_nand.h` -/

/-- Constants and compile-time switches the source takes from `ralink_nand.h`
(a switch is `true` when the macro is defined). -/
structure Cfg where
  CONFIG_PAGE_SIZE_BIT : Nat
  CONFIG_NUMPAGE_PER_BLOCK_BIT : Nat
  CONFIG_OOBSIZE_PER_PAGE_BIT : Nat
  CFG_PAGESIZE : Nat
  CFG_PAGE_OOBSIZE : Nat
  CFG_BLOCKSIZE : Nat
  CFG_CHIPSIZE : Nat
  CFG_ADDR_CYCLE : Nat
  CFG_ROW_ADDR_CYCLE : Nat
  CFG_COLUMN_ADDR_CYCLE : Nat
  CFG_BOOTLOADER_SIZE : Nat
  CFG_CONFIG_SIZE : Nat
  CFG_FACTORY_SIZE : Nat
  CONFIG_BAD_BLOCK_POS : Nat
  CONFIG_ECC_BYTES : Nat
  CONFIG_ECC_OFFSET : Nat
  INT_ST_ND_DONE : Nat
  INT_ST_TX_BUF_RDY : Nat
  INT_ST_RX_BUF_RDY : Nat
  NAND_STATUS_FAIL : Nat
  NAND_STATUS_READY : Nat
  NAND_STATUS_WP : Nat
  RW_DATA_BY_BYTE : Bool
  CONFIG_NOT_SUPPORT_WP : Bool
  CONFIG_NOT_SUPPORT_RB : Bool
  WORKAROUND_RX_BUF_OV : Bool
  CONFIG_BADBLOCK_CHECK : Bool
  RALINK_NAND_UPGRADE_CHECK : Bool

/-- The geometry invariants of the specification: page, OOB and block sizes are the powers
of two named by their bit counts, the chip size is a power-of-two multiple of the block
size that fits a positive C `int`, and the bad-block marker lies inside the OOB area. -/
structure Cfg.WF (cfg : Cfg) : Prop where
  pagesize : cfg.CFG_PAGESIZE = 2 ^ cfg.CONFIG_PAGE_SIZE_BIT
  oobsize : cfg.CFG_PAGE_OOBSIZE = 2 ^ cfg.CONFIG_OOBSIZE_PER_PAGE_BIT
  blocksize :
    cfg.CFG_BLOCKSIZE = 2 ^ (cfg.CONFIG_PAGE_SIZE_BIT + cfg.CONFIG_NUMPAGE_PER_BLOCK_BIT)
  chipsize : ∃ k, cfg.CFG_CHIPSIZE = 2 ^ k * cfg.CFG_BLOCKSIZE
  chipmax : cfg.CFG_CHIPSIZE ≤ 1073741824
  badpos : cfg.CONFIG_BAD_BLOCK_POS < cfg.CFG_PAGE_OOBSIZE

/-- The `mode` argument of `nfc_ecc_verify`. -/
inductive FlMode where
  | FL_READING
  | FL_WRITING
  | other
  deriving DecidableEq

/-! ## Register interface -/

/-- The memory-mapped registers the driver touches. -/
inductive Reg where
  | NFC_CTRL
  | NFC_CONF
  | NFC_CMD1
  | NFC_CMD2
  | NFC_CMD3
  | NFC_ADDR
  | NFC_DATA
  | NFC_ECC
  | NFC_STATUS
  | NFC_INT_ST
  | PIO_DIR
  deriving DecidableEq

/-- The hardware behind the register window: what a read returns and how reads, writes
and delays change the hardware state. -/
structure Dev (σ : Type) where
  inl : Reg → σ → Nat × σ
  outl : Reg → Nat → σ → σ
  udelay : Int → σ → σ

/-- Driver computations: a function of the hardware state that runs out of fuel (`none`)
or yields a value and the next state. -/
def M (σ α : Type) : Type := σ → Option (α × σ)

instance instMonadM (σ : Type) : Monad (M σ) where
  pure a := fun s => some (a, s)
  bind m f := fun s =>
    match m s with
    | none => none
    | some (a, s1) => f a s1

/-- One recorded access to the hardware. -/
inductive Access where
  | rd (r : Reg) (v : Nat)
  | wr (r : Reg) (v : Nat)
  | delay (us : Int)
  deriving DecidableEq

/-- The device `d` with every access appended to a log. -/
def logDev {σ : Type} (d : Dev σ) : Dev (σ × List Access) where
  inl r s :=
    match s, d.inl r s.1 with
    | (_, tr), (v, s1) => (v, (s1, tr ++ [Access.rd r (v % 4294967296)]))
  outl r v s :=
    match s with
    | (s0, tr) => (d.outl r v s0, tr ++ [Access.wr r v])
  udelay us s :=
    match s with
    | (s0, tr) => (d.udelay us s0, tr ++ [Access.delay us])

section Registers

variable {σ : Type}

def ra_inl (dev : Dev σ) (r : Reg) : M σ Nat :=
  fun s =>
    match dev.inl r s with
    | (v, s1) => some (v % 4294967296, s1)

def ra_outl (dev : Dev σ) (r : Reg) (v : Nat) : M σ Unit :=
  fun s => some ((), dev.outl r (v % 4294967296) s)

def udelay (dev : Dev σ) (us : Int) : M σ Unit :=
  fun s => some ((), dev.udelay us s)

def ra_or (dev : Dev σ) (r : Reg) (v : Nat) : M σ Unit := do
  let x ← ra_inl dev r
  ra_outl dev r (x ||| v)

def READ_STATUS_RETRY : Int := 1000

def CLEAR_INT_STATUS (dev : Dev σ) : M σ Unit := do
  let x ← ra_inl dev Reg.NFC_INT_ST
  ra_outl dev Reg.NFC_INT_ST x

def NFC_TRANS_DONE (cfg : Cfg) (dev : Dev σ) : M σ Nat := do
  let x ← ra_inl dev Reg.NFC_INT_ST
  pure (x &&& cfg.INT_ST_ND_DONE)

/-- The loop shape `while (cond && retry--) body;`: yields the last value of `cond` and the
value `retry` is left with. -/
def pollWhile (cond : M σ Bool) (body : M σ Unit) : Nat → Int → M σ (Bool × Int)
  | 0, _ => fun _ => none
  | fuel + 1, retry => do
    let c ← cond
    if c then
      if retry ≠ 0 then do
        body
        pollWhile cond body fuel (i32 (retry - 1))
      else pure (c, i32 (retry - 1))
    else pure (c, retry)

/-- The `do { ... } while (!(int_st & INT_ST_RX_BUF_RDY) && retry--)` loop of
`nfc_read_status`: yields the last `int_st`. -/
def read_status_poll (cfg : Cfg) (dev : Dev σ) : Nat → Int → M σ Nat
  | 0, _ => fun _ => none
  | fuel + 1, retry => do
    let _nfc_st ← ra_inl dev Reg.NFC_STATUS
    let int_st ← ra_inl dev Reg.NFC_INT_ST
    udelay dev 1
    if int_st &&& cfg.INT_ST_RX_BUF_RDY = 0 ∧ retry ≠ 0 then
      read_status_poll cfg dev fuel (i32 (retry - 1))
    else pure int_st

/-- The loop `while (retry--) { nfc_read_status(&status); if (status & NAND_STATUS_READY)
break; udelay(1); }` of `nfc_wait_ready` (no ready/busy line): yields `retry` and `status`. -/
def wait_status_loop (cfg : Cfg) (dev : Dev σ) (read_status : M σ (Int × Nat)) :
    Nat → Int → Nat → M σ (Int × Nat)
  | 0, _, _ => fun _ => none
  | fuel + 1, retry, status =>
    if retry ≠ 0 then do
      let r ← read_status
      if charInt r.2 &&& cfg.NAND_STATUS_READY ≠ 0 then pure (i32 (retry - 1), r.2)
      else do
        udelay dev 1
        wait_status_loop cfg dev read_status fuel (i32 (retry - 1)) r.2
    else pure (i32 (retry - 1), status)

/-- The function `nfc_device_ready`. -/
def nfc_device_ready (dev : Dev σ) : M σ Nat := do
  let x ← ra_inl dev Reg.NFC_STATUS
  pure (if x &&& 0x04 ≠ 0 then 1 else 0)

mutual

/-- The function `nfc_chip_reset`. -/
def nfc_chip_reset (cfg : Cfg) (dev : Dev σ) : Nat → M σ Int
  | 0 => fun _ => none
  | fuel + 1 => do
    ra_outl dev Reg.NFC_CMD1 0xff
    ra_outl dev Reg.NFC_ADDR 0xfffffff
    ra_outl dev Reg.NFC_CONF (0x0141 ||| (cfg.CFG_ADDR_CYCLE <<< 16))
    let status ← nfc_wait_ready cfg dev fuel 0
    if status &&& cfg.NAND_STATUS_FAIL ≠ 0 then pure (-1) else pure 0

/-- The function `nfc_all_reset`. -/
def nfc_all_reset (cfg : Cfg) (dev : Dev σ) : Nat → M σ Int
  | 0 => fun _ => none
  | fuel + 1 => do
    let c ← ra_inl dev Reg.NFC_CTRL
    ra_outl dev Reg.NFC_CTRL (c ||| 0x02)
    let c ← ra_inl dev Reg.NFC_CTRL
    ra_outl dev Reg.NFC_CTRL (c &&& bnot32 0x02)
    CLEAR_INT_STATUS dev
    let r1 ← pollWhile
      (do let x ← ra_inl dev Reg.NFC_INT_ST; pure (decide (x &&& 0x02 ≠ 0x02)))
      (pure ()) fuel READ_STATUS_RETRY
    if r1.2 ≤ 0 then pure (-1)
    else do
      let r2 ← pollWhile
        (do let x ← ra_inl dev Reg.NFC_STATUS; pure (decide (x &&& 0x1 ≠ 0x0)))
        (udelay dev 1) fuel READ_STATUS_RETRY
      if r2.2 ≤ 0 then pure (-1)
      else nfc_chip_reset cfg dev fuel

/-- The function `nfc_read_status`: the return code and the byte stored to `*status`. -/
def nfc_read_status (cfg : Cfg) (dev : Dev σ) : Nat → M σ (Int × Nat)
  | 0 => fun _ => none
  | fuel + 1 => do
    CLEAR_INT_STATUS dev
    ra_outl dev Reg.NFC_CMD1 0x70
    ra_outl dev Reg.NFC_CONF (0x000101 ||| (1 <<< 20))
    let int_st ← read_status_poll cfg dev fuel READ_STATUS_RETRY
    if int_st &&& cfg.INT_ST_RX_BUF_RDY = 0 then do
      let _ ← nfc_all_reset cfg dev fuel
      pure (-1, cfg.NAND_STATUS_FAIL % 256)
    else do
      let d ← ra_inl dev Reg.NFC_DATA
      pure (0, (d &&& 0x0ff) % 256)

/-- The function `nfc_wait_ready`: the `int` it returns, as a 32-bit pattern. -/
def nfc_wait_ready (cfg : Cfg) (dev : Dev σ) : Nat → Int → M σ Nat
  | 0, _ => fun _ => none
  | fuel + 1, snooze_ms => do
    udelay dev (1000 * snooze_ms)
    let snooze := if snooze_ms = 0 then 1 else snooze_ms
    let r ← pollWhile
      (do let x ← NFC_TRANS_DONE cfg dev; pure (decide (x = 0)))
      (udelay dev 1) fuel (i32 (snooze * 1000))
    let done ← NFC_TRANS_DONE cfg dev
    if done = 0 then pure cfg.NAND_STATUS_FAIL
    else if cfg.CONFIG_NOT_SUPPORT_RB then do
      let w ← wait_status_loop cfg dev (nfc_read_status cfg dev fuel) fuel r.2 0
      if w.1 < 0 then pure cfg.NAND_STATUS_FAIL else pure (charInt w.2)
    else do
      let q ← pollWhile
        (do let x ← nfc_device_ready dev; pure (decide (x = 0)))
        (udelay dev 1) fuel r.2
      if q.1 then pure cfg.NAND_STATUS_FAIL
      else do
        let st ← nfc_read_status cfg dev fuel
        pure (charInt st.2)

end

/-- The function `nfc_check_wp`. -/
def nfc_check_wp (cfg : Cfg) (dev : Dev σ) (fuel : Nat) : M σ Int :=
  if cfg.CONFIG_NOT_SUPPORT_WP then do
    let r ← nfc_read_status cfg dev fuel
    pure (if charInt r.2 &&& cfg.NAND_STATUS_WP ≠ 0 then 0 else 1)
  else do
    let x ← ra_inl dev Reg.NFC_CTRL
    pure (if x &&& 0x01 ≠ 0 then 1 else 0)

/-! ## Data transfer engine -/

/-- The byte loop `while (ret_size-- > 0) { *p++ = ret_data & 0x0ff; ret_data >>= 8; }`. -/
def store_bytes (buf : Mem) (p : Nat) (data : Nat) : Nat → Mem
  | 0 => buf
  | n + 1 => store_bytes (poke buf p (data &&& 0x0ff)) (p + 1) (data >>> 8) n

/-- The store `*p++ = ret_data` through a `__u32 *` (little-endian host). -/
def store_word (buf : Mem) (p : Nat) (data : Nat) : Mem :=
  poke (poke (poke (poke buf p (data % 256)) (p + 1) (data / 256 % 256))
    (p + 2) (data / 65536 % 256)) (p + 3) (data / 16777216 % 256)

/-- The load `*p` through a `__u32 *` (little-endian host). -/
def load_word (buf : Mem) (p : Nat) : Nat :=
  buf p % 256 + 256 * (buf (p + 1) % 256) + 65536 * (buf (p + 2) % 256)
    + 16777216 * (buf (p + 3) % 256)

/-- The loop of `_ra_nand_pull_data`: yields the final offset of `p` from `buf` and the
buffer contents. -/
def pull_loop (cfg : Cfg) (dev : Dev σ) : Nat → Mem → Nat → Int → Int → M σ (Int × Mem)
  | 0, _, _, _, _ => fun _ => none
  | fuel + 1, buf, p, len, retry =>
    if len > 0 then do
      let int_st ← ra_inl dev Reg.NFC_INT_ST
      if int_st &&& cfg.INT_ST_RX_BUF_RDY ≠ 0 then do
        let ret_data ← ra_inl dev Reg.NFC_DATA
        ra_outl dev Reg.NFC_INT_ST cfg.INT_ST_RX_BUF_RDY
        if cfg.RW_DATA_BY_BYTE then
          let ret_size := min 4 len
          pull_loop cfg dev fuel (store_bytes buf p ret_data ret_size.toNat)
            (p + ret_size.toNat) (len - ret_size) retry
        else
          let ret_size := min len 4
          if ret_size = 4 then
            pull_loop cfg dev fuel (store_word buf p ret_data) (p + 4) (len - ret_size) retry
          else
            pull_loop cfg dev fuel (store_bytes buf p ret_data ret_size.toNat)
              (p + ret_size.toNat) (len - ret_size) retry
      else if int_st &&& cfg.INT_ST_ND_DONE ≠ 0 then pure ((p : Int), buf)
      else do
        udelay dev 1
        if retry < 0 then pure ((p : Int), buf)
        else pull_loop cfg dev fuel buf p len (i32 (retry - 1))
    else pure ((p : Int), buf)

/-- The function `_ra_nand_pull_data`: the returned length and the buffer contents. -/
def _ra_nand_pull_data (cfg : Cfg) (dev : Dev σ) (fuel : Nat) (buf : Mem) (len : Int) :
    M σ (Int × Mem) :=
  pull_loop cfg dev fuel buf 0 len READ_STATUS_RETRY

/-- The loop `for (iter = 0; iter < tx_size; iter++) tx_data |= (*p++ << (8*iter));` with
`char *p` (RW_DATA_BY_BYTE): `acc` is `tx_data`, `k` the iterations left. -/
def gather_bytes (buf : Mem) : Nat → Nat → Nat → Nat → Nat
  | 0, _, _, acc => acc
  | k + 1, p, iter, acc =>
    gather_bytes buf k (p + 1) (iter + 1) (acc ||| u32 (sext8 (buf p) * 2 ^ (8 * iter)))

/-- The same loop with `__u32 *p`: every `*p++` loads a word and advances four bytes. -/
def gather_words (buf : Mem) : Nat → Nat → Nat → Nat → Nat
  | 0, _, _, acc => acc
  | k + 1, p, iter, acc =>
    gather_words buf k (p + 4) (iter + 1)
      (acc ||| (load_word buf p * 2 ^ (8 * iter)) % 4294967296)

/-- The loop of `_ra_nand_push_data`: `p` is the offset of the transfer pointer from
`buf`, `tx_data` is the local of that name (it is initialised once, before the loop). -/
def push_loop (cfg : Cfg) (dev : Dev σ) (buf : Mem) : Nat → Int → Nat → Int → Int → M σ Int
  | 0, _, _, _, _ => fun _ => none
  | fuel + 1, p, tx_data, len, retry =>
    if len > 0 then do
      let int_st ← ra_inl dev Reg.NFC_INT_ST
      if int_st &&& cfg.INT_ST_TX_BUF_RDY ≠ 0 then do
        let tx_size := min len 4
        let r : Int × Nat :=
          if cfg.RW_DATA_BY_BYTE then
            (p + tx_size, gather_bytes buf tx_size.toNat p.toNat 0 tx_data)
          else if tx_size = 4 then (p + 4, load_word buf p.toNat)
          else
            (p + 4 * tx_size - (4 - tx_size),
              gather_words buf tx_size.toNat p.toNat 0 tx_data)
        ra_outl dev Reg.NFC_INT_ST cfg.INT_ST_TX_BUF_RDY
        ra_outl dev Reg.NFC_DATA r.2
        push_loop cfg dev buf fuel r.1 r.2 (len - tx_size) retry
      else if int_st &&& cfg.INT_ST_ND_DONE ≠ 0 then pure p
      else do
        udelay dev 1
        if retry < 0 then pure p
        else push_loop cfg dev buf fuel p tx_data len (i32 (retry - 1))
    else pure p

/-- The function `_ra_nand_push_data`: the returned length. -/
def _ra_nand_push_data (cfg : Cfg) (dev : Dev σ) (fuel : Nat) (buf : Mem) (len : Int) :
    M σ Int :=
  push_loop cfg dev buf fuel 0 0 len 528

/-! ## Page and OOB input/output -/

/-- The function `nfc_erase_block`. -/
def nfc_erase_block (cfg : Cfg) (dev : Dev σ) (fuel : Nat) (row_addr : Int) : M σ Int := do
  let cmd1 := 0x60
  let cmd2 := 0xd0
  let bus_addr := u32 row_addr
  let conf := 0x00511 ||| (cfg.CFG_ROW_ADDR_CYCLE <<< 16)
  CLEAR_INT_STATUS dev
  ra_outl dev Reg.NFC_CMD1 cmd1
  ra_outl dev Reg.NFC_CMD2 cmd2
  ra_outl dev Reg.NFC_ADDR bus_addr
  ra_outl dev Reg.NFC_CONF conf
  let status ← nfc_wait_ready cfg dev fuel 3
  if charInt (status % 256) &&& cfg.NAND_STATUS_FAIL ≠ 0 then pure (-1) else pure 0

/-- The function `nfc_read_raw_data`: the status it returns and the buffer contents. -/
def nfc_read_raw_data (cfg : Cfg) (dev : Dev σ) (fuel : Nat) (cmd1 bus_addr conf : Nat)
    (buf : Mem) (len : Int) : M σ (Nat × Mem) := do
  CLEAR_INT_STATUS dev
  ra_outl dev Reg.NFC_CMD1 cmd1
  ra_outl dev Reg.NFC_ADDR bus_addr
  ra_outl dev Reg.NFC_CONF conf
  let r ← _ra_nand_pull_data cfg dev fuel buf len
  if r.1 ≠ len then pure (cfg.NAND_STATUS_FAIL, r.2)
  else do
    let ret ← nfc_wait_ready cfg dev fuel 0
    if ret &&& cfg.NAND_STATUS_FAIL ≠ 0 then pure (cfg.NAND_STATUS_FAIL, r.2)
    else pure (0, r.2)

/-- The function `nfc_write_raw_data`. -/
def nfc_write_raw_data (cfg : Cfg) (dev : Dev σ) (fuel : Nat) (cmd1 cmd3 bus_addr conf : Nat)
    (buf : Mem) (len : Int) : M σ Nat := do
  CLEAR_INT_STATUS dev
  ra_outl dev Reg.NFC_CMD1 cmd1
  ra_outl dev Reg.NFC_CMD3 cmd3
  ra_outl dev Reg.NFC_ADDR bus_addr
  ra_outl dev Reg.NFC_CONF conf
  let ret ← _ra_nand_push_data cfg dev fuel buf len
  if ret ≠ len then pure cfg.NAND_STATUS_FAIL
  else do
    let ret ← nfc_wait_ready cfg dev fuel 1
    if ret &&& cfg.NAND_STATUS_FAIL ≠ 0 then pure cfg.NAND_STATUS_FAIL
    else pure 0

/-- The bus address `(page << (CFG_COLUMN_ADDR_CYCLE*8)) | (offs & ((1<<CFG_COLUMN_ADDR_CYCLE*8)-1))`. -/
def bus_addr_of (cfg : Cfg) (page : Int) (offs : Nat) : Nat :=
  u32 (page * 2 ^ (cfg.CFG_COLUMN_ADDR_CYCLE * 8))
    ||| (offs &&& u32 (i32 (2 ^ (cfg.CFG_COLUMN_ADDR_CYCLE * 8)) - 1))

/-- The function `nfc_read_oob`: the return code and the contents of `buf`. -/
def nfc_read_oob (cfg : Cfg) (dev : Dev σ) (fuel : Nat) (page : Int) (offs : Nat) (buf : Mem)
    (len : Int) : M σ (Int × Mem) := do
  let bus_addr := bus_addr_of cfg page offs
  let cmd1 := 0x50
  let conf := (0x000141 ||| (cfg.CFG_ADDR_CYCLE <<< 16) ||| u32 (len * 2 ^ 20)) ||| (1 <<< 3)
  let r ← nfc_read_raw_data cfg dev fuel cmd1 bus_addr conf buf len
  if r.1 &&& cfg.NAND_STATUS_FAIL ≠ 0 then pure (-1, r.2) else pure (0, r.2)

/-- The function `nfc_write_oob`. -/
def nfc_write_oob (cfg : Cfg) (dev : Dev σ) (fuel : Nat) (page : Int) (offs : Nat) (buf : Mem)
    (len : Int) : M σ Int := do
  let bus_addr := bus_addr_of cfg page offs
  let cmd1 := 0x08050
  let cmd3 := 0x10
  let conf := 0x001223 ||| (cfg.CFG_ADDR_CYCLE <<< 16) ||| u32 (len * 2 ^ 20)
  let status ← nfc_write_raw_data cfg dev fuel cmd1 cmd3 bus_addr conf buf len
  if status &&& cfg.NAND_STATUS_FAIL ≠ 0 then pure (-1) else pure 0

/-- The page index after `page = page & (CFG_CHIPSIZE - 1)` ("chip boundary"). -/
def chip_page (cfg : Cfg) (page : Int) : Int :=
  ((u32 page &&& u32 ((cfg.CFG_CHIPSIZE : Int) - 1) : Nat) : Int)

/-- The code of `nfc_ecc_verify` from the label `ecc_check` on; `p` is the page buffer
before `p += (1<<CONFIG_PAGE_SIZE_BIT)`. -/
def ecc_check (cfg : Cfg) (dev : Dev σ) (p : Mem) : M σ Int := do
  let ecc ← ra_inl dev Reg.NFC_ECC
  if ecc = 0 then pure 0
  else if (List.range cfg.CONFIG_ECC_BYTES).all fun i =>
      decide (p (2 ^ cfg.CONFIG_PAGE_SIZE_BIT + (cfg.CONFIG_ECC_OFFSET + i)) % 256
        = ecc / 2 ^ (8 * i) % 256) then pure 0
  else pure (-1)

/-- The command opcode `nfc_read_page` picks for the column offset `offs`. -/
def read_cmd1 (cfg : Cfg) (offs : Nat) : Nat :=
  if offs &&& bnot32 (cfg.CFG_PAGESIZE - 1) ≠ 0 then 0x50
  else if offs &&& bnot32 (u32 (i32 (2 ^ (cfg.CFG_COLUMN_ADDR_CYCLE * 8)) - 1)) ≠ 0 then 0x01
  else 0

/-- The loop `while (size > 0)` of `nfc_read_page`: `true` when every chunk was read. -/
def read_page_loop (cfg : Cfg) (dev : Dev σ) (fuel : Nat) (page : Int) :
    Nat → Mem → Int → Nat → M σ (Bool × Mem)
  | 0, _, _, _ => fun _ => none
  | k + 1, buf, size, offs =>
    if size > 0 then do
      let len : Int := if cfg.WORKAROUND_RX_BUF_OV then min 60 size else size
      let bus_addr := bus_addr_of cfg page offs
      let cmd1 := read_cmd1 cfg offs
      let conf0 := 0x000141 ||| (cfg.CFG_ADDR_CYCLE <<< 16) ||| u32 (len * 2 ^ 20)
      let conf := if cfg.WORKAROUND_RX_BUF_OV then conf0 else conf0 ||| (1 <<< 3)
      let r ← nfc_read_raw_data cfg dev fuel cmd1 bus_addr conf (fun i => buf (offs + i)) len
      let buf1 : Mem := fun i => if offs ≤ i then r.2 (i - offs) else buf i
      if r.1 &&& cfg.NAND_STATUS_FAIL ≠ 0 then pure (false, buf1)
      else read_page_loop cfg dev fuel page k buf1 (size - len) (offs + len.toNat)
    else pure (true, buf)

mutual

/-- The function `nfc_ecc_verify`. -/
def nfc_ecc_verify (cfg : Cfg) (dev : Dev σ) : Nat → Mem → Int → FlMode → M σ Int
  | 0, _, _, _ => fun _ => none
  | fuel + 1, buf, page, mode =>
    match mode with
    | FlMode.FL_WRITING => do
      let rbbuf : Mem := fun _ => 0
      let r ← nfc_read_page cfg dev fuel rbbuf page
      if r.1 = 0 then ecc_check cfg dev r.2
      else do
        let r ← nfc_read_page cfg dev fuel r.2 page
        if r.1 ≠ 0 then pure (-1)
        else ecc_check cfg dev r.2
    | FlMode.FL_READING => ecc_check cfg dev buf
    | FlMode.other => pure (-2)

/-- The function `nfc_read_page`: the return code and the contents of `buf`. -/
def nfc_read_page (cfg : Cfg) (dev : Dev σ) : Nat → Mem → Int → M σ (Int × Mem)
  | 0, _, _ => fun _ => none
  | fuel + 1, buf, page => do
    let page := chip_page cfg page
    let size : Int := cfg.CFG_PAGESIZE + cfg.CFG_PAGE_OOBSIZE
    let r ← read_page_loop cfg dev fuel page (fuel + 1) buf size 0
    if r.1 = false then pure (-1, r.2)
    else do
      let status ← nfc_ecc_verify cfg dev fuel r.2 page FlMode.FL_READING
      if status ≠ 0 then pure (-2, r.2) else pure (0, r.2)

end

/-- The page index after `page -= page % (CFG_BLOCKSIZE/CFG_PAGESIZE)`. -/
def block_first_page (cfg : Cfg) (page : Int) : Int :=
  page - Int.tmod page ((cfg.CFG_BLOCKSIZE / cfg.CFG_PAGESIZE : Nat) : Int)

/-- The data transfer of `nfc_write_page`: the register values it builds and its call
`nfc_write_raw_data(cmd1, cmd3, bus_addr, conf, buf, size)`; `page` is already masked. -/
def write_page_xfer (cfg : Cfg) (dev : Dev σ) (fuel : Nat) (buf : Mem) (page : Int) : M σ Nat :=
  let size : Int := cfg.CFG_PAGESIZE + cfg.CFG_PAGE_OOBSIZE
  let bus_addr := u32 (page * 2 ^ (cfg.CFG_COLUMN_ADDR_CYCLE * 8))
  let cmd1 := 0x8000
  let cmd3 := 0x10
  let conf := (0x001223 ||| (cfg.CFG_ADDR_CYCLE <<< 16) ||| u32 (size * 2 ^ 20)) ||| (1 <<< 3)
  nfc_write_raw_data cfg dev fuel cmd1 cmd3 bus_addr conf buf size

/-- The function `nfc_write_page`: the return code and the contents of `buf`. -/
def nfc_write_page (cfg : Cfg) (dev : Dev σ) (fuel : Nat) (buf : Mem) (page : Int) :
    M σ (Int × Mem) := do
  let page := chip_page cfg page
  let status ← write_page_xfer cfg dev fuel buf page
  if charInt (status % 256) &&& cfg.NAND_STATUS_FAIL ≠ 0 then pure (-1, buf)
  else do
    let status ← nfc_ecc_verify cfg dev fuel buf page FlMode.FL_WRITING
    if u32 status % 256 ≠ 0 then do
      let buf1 := poke buf (cfg.CFG_PAGESIZE + cfg.CONFIG_BAD_BLOCK_POS) 0x33
      let page0 := block_first_page cfg page
      let _ ← nfc_write_oob cfg dev fuel page0 cfg.CONFIG_BAD_BLOCK_POS
        (fun i => buf1 (cfg.CFG_PAGESIZE + cfg.CONFIG_BAD_BLOCK_POS + i)) 1
      pure (-2, buf1)
    else pure (0, buf)

/-- The function `ranand_init`. -/
def ranand_init (cfg : Cfg) (dev : Dev σ) (fuel : Nat) : M σ Nat := do
  let x ← ra_inl dev Reg.PIO_DIR
  ra_outl dev Reg.PIO_DIR (x &&& bnot32 0x01)
  ra_or dev Reg.NFC_CTRL 0x01
  let r ← nfc_all_reset cfg dev fuel
  if r ≠ 0 then pure (u32 (-1)) else pure cfg.CFG_CHIPSIZE

end Registers

/-! ## Block operations and the high-level read/write/erase entry points

The entry points below reach the controller only through the page-level functions above,
the allocator and indeterminate stack contents.  They are written over a `PageLayer`, the
record of those callees; `nfcLayer` is the record the driver is linked with. -/

/-- Value of an expression converted to `loff_t`, as a 64-bit pattern. -/
def loff (x : Int) : Nat := (x % 18446744073709551616).toNat

/-- The callees of the block-level code. `malloc` yields the contents of the fresh block or
`none` for a null pointer; `uninit` is what an uninitialised local object holds. -/
structure PageLayer (σ : Type) where
  nfc_check_wp : M σ Int
  nfc_read_oob : Int → Nat → Mem → Int → M σ (Int × Mem)
  nfc_erase_block : Int → M σ Int
  nfc_write_page : Mem → Int → M σ (Int × Mem)
  nfc_read_page : Mem → Int → M σ (Int × Mem)
  malloc : Nat → M σ (Option Mem)
  udelay : Int → M σ Unit
  uninit : Mem

/-- The page layer made of the driver's own functions over the device `dev`. -/
def nfcLayer {σ : Type} (cfg : Cfg) (dev : Dev σ) (fuel : Nat)
    (malloc : Nat → M σ (Option Mem)) (uninit : Mem) : PageLayer σ where
  nfc_check_wp := nfc_check_wp cfg dev fuel
  nfc_read_oob := fun page offs buf len => nfc_read_oob cfg dev fuel page offs buf len
  nfc_erase_block := fun row => nfc_erase_block cfg dev fuel row
  nfc_write_page := fun buf page => nfc_write_page cfg dev fuel buf page
  nfc_read_page := fun buf page => nfc_read_page cfg dev fuel buf page
  malloc := malloc
  udelay := fun us => udelay dev us
  uninit := uninit

section Blocks

variable {σ : Type}

/-- The function `ranand_block_isbad` (compiled when CONFIG_BADBLOCK_CHECK is defined);
`offs` is the 64-bit pattern of the `loff_t` argument. -/
def ranand_block_isbad (cfg : Cfg) (L : PageLayer σ) (offs : Nat) : M σ Int := do
  let page := i32 ((offs >>> cfg.CONFIG_PAGE_SIZE_BIT : Nat) : Int)
  let r ← L.nfc_read_oob page cfg.CONFIG_BAD_BLOCK_POS L.uninit 1
  if r.1 = 0 ∧ load_word r.2 0 &&& 0xff = 0xff then pure 0 else pure 1

/-- The loop `while (len)` of `ranand_erase`. -/
def ranand_erase_loop (cfg : Cfg) (L : PageLayer σ) : Nat → Nat → Int → Int → M σ Int
  | 0, _, _, _ => fun _ => none
  | fuel + 1, offs, len, ret =>
    if len ≠ 0 then do
      let blocksize := u32 (2 ^ (cfg.CONFIG_PAGE_SIZE_BIT + cfg.CONFIG_NUMPAGE_PER_BLOCK_BIT))
      let page := i32 ((offs >>> cfg.CONFIG_PAGE_SIZE_BIT : Nat) : Int)
      let wp ← L.nfc_check_wp
      if wp ≠ 0 then pure (-1)
      else do
        let bad ← if cfg.CONFIG_BADBLOCK_CHECK then ranand_block_isbad cfg L offs else pure 0
        if bad ≠ 0 then
          ranand_erase_loop cfg L fuel (u32 ((offs : Int) + blocksize)) len (i32 (ret + 1))
        else do
          let status ← L.nfc_erase_block page
          if status ≠ 0 then pure (-1)
          else
            ranand_erase_loop cfg L fuel (u32 ((offs : Int) + blocksize))
              (i32 (len - blocksize)) ret
    else pure ret

/-- The function `ranand_erase`. -/
def ranand_erase (cfg : Cfg) (L : PageLayer σ) (fuel : Nat) (offs : Nat) (len : Int) :
    M σ Int :=
  if offs &&& (cfg.CFG_BLOCKSIZE - 1) ≠ 0 ∨ u32 len &&& (cfg.CFG_BLOCKSIZE - 1) ≠ 0 then
    pure (-1)
  else ranand_erase_loop cfg L fuel offs len 0

/-- The loop `while (datalen)` of `ranand_write`; `bpos` is the distance `buf` has advanced
from the caller's pointer `src`, `addr` the 64-bit pattern of the local of that name. -/
def ranand_write_loop (cfg : Cfg) (L : PageLayer σ) (src : Mem) :
    Nat → Mem → Nat → Nat → Int → Nat → M σ Int
  | 0, _, _, _, _, _ => fun _ => none
  | fuel + 1, buffers, bpos, addr, datalen, retlen =>
    if datalen ≠ 0 then do
      let page := i32 (((addr &&& loff ((cfg.CFG_CHIPSIZE : Int) - 1))
        >>> cfg.CONFIG_PAGE_SIZE_BIT : Nat) : Int)
      let wp ← L.nfc_check_wp
      if wp ≠ 0 then pure (-1)
      else do
        let buffers := memset buffers 0x0ff (cfg.CFG_PAGESIZE + cfg.CFG_PAGE_OOBSIZE)
        let offs := i32 ((addr &&& loff ((cfg.CFG_PAGESIZE : Int) - 1) : Nat) : Int)
        let len := min datalen ((cfg.CFG_PAGESIZE : Int) - offs)
        let copy := decide (len > 0)
        let buffers := if copy then memcpy buffers offs.toNat src bpos len.toNat else buffers
        let bpos := if copy then bpos + len.toNat else bpos
        let datalen := if copy then datalen - len else datalen
        let retlen := if copy then retlen + len.toNat else retlen
        let r ← L.nfc_write_page buffers page
        if r.1 ≠ 0 then pure (-1)
        else
          ranand_write_loop cfg L src fuel r.2 bpos
            (loff (i32 ((page + 1) * 2 ^ cfg.CONFIG_PAGE_SIZE_BIT))) datalen retlen
    else pure (i32 retlen)

/-- The function `ranand_write`; `buf` is `none` for a null pointer. -/
def ranand_write (cfg : Cfg) (L : PageLayer σ) (fuel : Nat) (buf : Option Mem)
    (to_addr : Nat) (datalen : Int) : M σ Int :=
  match buf with
  | none => ranand_write_loop cfg L (fun _ => 0) fuel L.uninit 0 to_addr 0 0
  | some src => ranand_write_loop cfg L src fuel L.uninit 0 to_addr datalen 0

/-- The loop `while (datalen)` of `ranand_read`; `buf` holds the bytes seen from the
caller's pointer and `bpos` the distance the local `buf` has advanced from it. -/
def ranand_read_loop (cfg : Cfg) (L : PageLayer σ) :
    Nat → Mem → Mem → Nat → Nat → Int → Nat → M σ (Int × Mem)
  | 0, _, _, _, _, _, _ => fun _ => none
  | fuel + 1, buffers, buf, bpos, addr, datalen, retlen =>
    if datalen ≠ 0 then do
      let page := i32 (((addr &&& loff ((cfg.CFG_CHIPSIZE : Int) - 1))
        >>> cfg.CONFIG_PAGE_SIZE_BIT : Nat) : Int)
      let bad ← if cfg.CONFIG_BADBLOCK_CHECK then ranand_block_isbad cfg L addr else pure 0
      if bad ≠ 0 then
        ranand_read_loop cfg L fuel buffers buf bpos
          (loff ((addr : Int)
            + i32 (2 ^ (cfg.CONFIG_PAGE_SIZE_BIT + cfg.CONFIG_NUMPAGE_PER_BLOCK_BIT))))
          datalen retlen
      else do
        let r ← L.nfc_read_page buffers page
        let r ← if r.1 ≠ 0 then L.nfc_read_page r.2 page else pure r
        let offs := i32 ((addr &&& loff ((cfg.CFG_PAGESIZE : Int) - 1) : Nat) : Int)
        let len := min datalen ((cfg.CFG_PAGESIZE : Int) - offs)
        let next := loff (i32 ((page + 1) * 2 ^ cfg.CONFIG_PAGE_SIZE_BIT))
        if len > 0 then
          let buf := memcpy buf bpos r.2 offs.toNat len.toNat
          if r.1 ≠ 0 then pure (-1, buf)
          else
            ranand_read_loop cfg L fuel r.2 buf (bpos + len.toNat) next (datalen - len)
              (retlen + len.toNat)
        else ranand_read_loop cfg L fuel r.2 buf bpos next datalen retlen
    else pure (i32 retlen, buf)

/-- The function `ranand_read`: the return value and the bytes seen from the caller's
pointer afterwards; `buf` is `none` for a null pointer. -/
def ranand_read (cfg : Cfg) (L : PageLayer σ) (fuel : Nat) (buf : Option Mem)
    (from_addr : Nat) (datalen : Int) : M σ (Int × Mem) :=
  match buf with
  | none => pure (0, fun _ => 0)
  | some b => ranand_read_loop cfg L fuel L.uninit b 0 from_addr datalen 0

/-- The test `memcmp(a, b, n) == 0`. -/
def memcmp_eq (a b : Mem) (n : Nat) : Bool := (List.range n).all fun i => a i == b i

/-- The read-modify-write unit of `ranand_erase_write` from the label `try_next_0` up to the
`free` calls: `0` when the unit completed, otherwise the value `ranand_erase_write` returns.
`src` is the bytes seen from the current `buf`. -/
def erase_write_rmw (cfg : Cfg) (L : PageLayer σ) (fuel : Nat) (src : Mem) (offs : Nat)
    (count : Int) : Nat → Mem → Mem → Nat → M σ Int
  | 0, _, _, _ => fun _ => none
  | k + 1, block, temp, blockaddr => do
    let blocksize : Int := cfg.CFG_BLOCKSIZE
    let blockmask := u32 (blocksize - 1)
    let r ← ranand_read cfg L fuel (some block) blockaddr blocksize
    if r.1 ≠ blocksize then pure (-2)
    else do
      let piece := offs &&& blockmask
      let piece_size := min count (blocksize - piece)
      let block := memcpy r.2 piece src 0 piece_size.toNat
      let rc ← ranand_erase cfg L fuel blockaddr blocksize
      if cfg.CONFIG_BADBLOCK_CHECK = true ∧ rc = 1 then
        erase_write_rmw cfg L fuel src offs count k block temp (u32 ((blockaddr : Int) + blocksize))
      else if rc ≠ 0 then pure (-3)
      else do
        let w ← ranand_write cfg L fuel (some block) blockaddr blocksize
        if w ≠ blocksize then pure (-4)
        else if cfg.RALINK_NAND_UPGRADE_CHECK then do
          let t ← ranand_read cfg L fuel (some temp) blockaddr blocksize
          if t.1 ≠ blocksize then pure (-2)
          else if memcmp_eq block t.2 cfg.CFG_BLOCKSIZE then pure 0
          else pure (-2)
        else pure 0

/-- The whole-block unit of `ranand_erase_write` from the label `try_next_1` up to
`free(temp)`: the code (`0` when the unit completed) and the final `offs`. -/
def erase_write_whole (cfg : Cfg) (L : PageLayer σ) (fuel : Nat) (src : Mem) :
    Nat → Mem → Nat → M σ (Int × Nat)
  | 0, _, _ => fun _ => none
  | k + 1, temp, offs => do
    let blocksize : Int := cfg.CFG_BLOCKSIZE
    let aligned_size := u32 blocksize
    let rc ← ranand_erase cfg L fuel offs (i32 aligned_size)
    if cfg.CONFIG_BADBLOCK_CHECK = true ∧ rc = 1 then
      erase_write_whole cfg L fuel src k temp (u32 ((offs : Int) + blocksize))
    else if rc ≠ 0 then pure (-1, offs)
    else do
      let w ← ranand_write cfg L fuel (some src) offs (i32 aligned_size)
      if u32 w ≠ aligned_size then pure (-1, offs)
      else if cfg.RALINK_NAND_UPGRADE_CHECK then do
        let t ← ranand_read cfg L fuel (some temp) offs blocksize
        if t.1 ≠ blocksize then pure (-2, offs)
        else if memcmp_eq src t.2 cfg.CFG_BLOCKSIZE then pure (0, offs)
        else pure (-2, offs)
      else pure (0, offs)

/-- The loop `while (count > 0)` of `ranand_erase_write`; `bpos` is the distance `buf` has
advanced from the caller's pointer `src`. -/
def ranand_erase_write_loop (cfg : Cfg) (L : PageLayer σ) (src : Mem) :
    Nat → Nat → Nat → Int → M σ Int
  | 0, _, _, _ => fun _ => none
  | fuel + 1, bpos, offs, count =>
    if count > 0 then
      let blocksize : Int := cfg.CFG_BLOCKSIZE
      let blockmask := u32 (blocksize - 1)
      if cfg.CONFIG_BADBLOCK_CHECK = true ∧ offs &&& blockmask ≠ 0 then pure (-1)
      else if (cfg.CONFIG_BADBLOCK_CHECK = false ∧ offs &&& blockmask ≠ 0) ∨ count < blocksize
      then do
        let block ← L.malloc cfg.CFG_BLOCKSIZE
        match block with
        | none => pure (-1)
        | some block => do
          let temp ← L.malloc cfg.CFG_BLOCKSIZE
          match temp with
          | none => pure (-1)
          | some temp => do
            let blockaddr := offs &&& bnot32 blockmask
            let rc ← erase_write_rmw cfg L fuel (fun i => src (bpos + i)) offs count fuel
              block temp blockaddr
            if rc ≠ 0 then pure rc
            else
              let piece_size := min count (blocksize - (offs &&& blockmask : Nat))
              ranand_erase_write_loop cfg L src fuel (bpos + piece_size.toNat)
                (u32 ((offs : Int) + piece_size)) (count - piece_size)
      else do
        let temp ← L.malloc cfg.CFG_BLOCKSIZE
        match temp with
        | none => pure (-1)
        | some temp => do
          let r ← erase_write_whole cfg L fuel (fun i => src (bpos + i)) fuel temp offs
          if r.1 ≠ 0 then pure r.1
          else
            ranand_erase_write_loop cfg L src fuel (bpos + cfg.CFG_BLOCKSIZE)
              (u32 ((r.2 : Int) + blocksize)) (i32 (count - blocksize))
    else pure 0

/-- The function `ranand_erase_write`. -/
def ranand_erase_write (cfg : Cfg) (L : PageLayer σ) (fuel : Nat) (buf : Mem) (offs : Nat)
    (count : Int) : M σ Int :=
  if count > (cfg.CFG_CHIPSIZE : Int)
      - ((cfg.CFG_BOOTLOADER_SIZE : Int) + cfg.CFG_CONFIG_SIZE + cfg.CFG_FACTORY_SIZE) then do
    L.udelay (10 * 1000 * 1000)
    pure (-1)
  else ranand_erase_write_loop cfg L buf fuel 0 offs count

end Blocks

/-! ## A flash model and small concrete instances -/

/-- A NAND chip seen through the page layer: the stored page-plus-OOB image of every page,
the write-protect line and the pages whose read fails ECC verification. -/
structure Flash where
  wp : Bool
  pages : Int → Mem
  corrupt : Int → Bool

/-- The chip after the page-plus-OOB image `buf` has been stored in page `p`. -/
def Flash.store (cfg : Cfg) (s : Flash) (p : Int) (buf : Mem) : Flash where
  wp := s.wp
  pages := fun q =>
    if q = p then
      fun i => if i < cfg.CFG_PAGESIZE + cfg.CFG_PAGE_OOBSIZE then buf i else s.pages q i
    else s.pages q
  corrupt := s.corrupt

/-- The chip after the block holding page `row` has been erased. -/
def Flash.erase (cfg : Cfg) (s : Flash) (row : Int) : Flash where
  wp := s.wp
  pages := fun p =>
    if p / ((cfg.CFG_BLOCKSIZE / cfg.CFG_PAGESIZE : Nat) : Int)
        = row / ((cfg.CFG_BLOCKSIZE / cfg.CFG_PAGESIZE : Nat) : Int)
    then fun _ => 0xff else s.pages p
  corrupt := s.corrupt

/-- The page layer of the flash model: a page write stores the staged page-plus-OOB image
and succeeds, a page read returns the stored image (with the code -2 on a corrupt page),
an OOB read returns the stored OOB bytes, a block erase sets the block to 0xFF. -/
def flashLayer (cfg : Cfg) : PageLayer Flash where
  nfc_check_wp := fun s => some (if s.wp then 1 else 0, s)
  nfc_read_oob := fun page offs buf len s =>
    some ((0, fun i => if (i : Int) < len then s.pages page (cfg.CFG_PAGESIZE + offs + i)
      else buf i), s)
  nfc_erase_block := fun row s => some (0, s.erase cfg row)
  nfc_write_page := fun buf page s => some ((0, buf), s.store cfg (chip_page cfg page) buf)
  nfc_read_page := fun buf page s =>
    some ((if s.corrupt (chip_page cfg page) then -2 else 0,
      fun i => if i < cfg.CFG_PAGESIZE + cfg.CFG_PAGE_OOBSIZE
        then s.pages (chip_page cfg page) i else buf i), s)
  malloc := fun _ s => some (some (fun _ => 0), s)
  udelay := fun _ s => some ((), s)
  uninit := fun _ => 0

/-- A small geometry for concrete evaluation: 4-byte pages with 4 OOB bytes, 2 pages a
block, 4 blocks; bad-block checking compiled in, word-wise FIFO transfers. -/
def sampleCfg : Cfg where
  CONFIG_PAGE_SIZE_BIT := 2
  CONFIG_NUMPAGE_PER_BLOCK_BIT := 1
  CONFIG_OOBSIZE_PER_PAGE_BIT := 2
  CFG_PAGESIZE := 4
  CFG_PAGE_OOBSIZE := 4
  CFG_BLOCKSIZE := 8
  CFG_CHIPSIZE := 32
  CFG_ADDR_CYCLE := 4
  CFG_ROW_ADDR_CYCLE := 3
  CFG_COLUMN_ADDR_CYCLE := 1
  CFG_BOOTLOADER_SIZE := 0
  CFG_CONFIG_SIZE := 0
  CFG_FACTORY_SIZE := 0
  CONFIG_BAD_BLOCK_POS := 0
  CONFIG_ECC_BYTES := 3
  CONFIG_ECC_OFFSET := 1
  INT_ST_ND_DONE := 1
  INT_ST_TX_BUF_RDY := 2
  INT_ST_RX_BUF_RDY := 4
  NAND_STATUS_FAIL := 1
  NAND_STATUS_READY := 0x40
  NAND_STATUS_WP := 0x80
  RW_DATA_BY_BYTE := false
  CONFIG_NOT_SUPPORT_WP := false
  CONFIG_NOT_SUPPORT_RB := false
  WORKAROUND_RX_BUF_OV := false
  CONFIG_BADBLOCK_CHECK := true
  RALINK_NAND_UPGRADE_CHECK := false

/-- An erased, unprotected chip. -/
def blankFlash : Flash where
  wp := false
  pages := fun _ _ => 0xff
  corrupt := fun _ => false

/-- A controller whose interrupt-status register always reads with the done, TX-ready and
RX-ready bits set (for `sampleCfg`), whose status register reads ready, whose ECC register
reads 0x01020304 and whose other registers read 0. -/
def readyDev : Dev Unit where
  inl r _ :=
    (match r with
      | Reg.NFC_INT_ST => 7
      | Reg.NFC_STATUS => 4
      | Reg.NFC_ECC => 0x01020304
      | _ => 0, ())
  outl _ _ _ := ()
  udelay _ _ := ()

/-- A controller like `readyDev` whose DATA register delivers the words of a queue. -/
def fifoDev : Dev (List Nat) where
  inl r s :=
    match r with
    | Reg.NFC_INT_ST => (7, s)
    | Reg.NFC_STATUS => (4, s)
    | Reg.NFC_DATA => (s.headD 0, s.tail)
    | _ => (0, s)
  outl _ _ s := s
  udelay _ s := s

/-- The words written to the DATA register, in order, according to an access log. -/
def dataWrites (log : List Access) : List Nat :=
  log.filterMap fun a =>
    match a with
    | Access.wr Reg.NFC_DATA v => some v
    | _ => none

/-- The words read from the DATA register, in order, according to an access log. -/
def dataReads (log : List Access) : List Nat :=
  log.filterMap fun a =>
    match a with
    | Access.rd Reg.NFC_DATA v => some v
    | _ => none

/-- The geometry `sampleCfg` built with RW_DATA_BY_BYTE defined. -/
def byteCfg : Cfg := { sampleCfg with RW_DATA_BY_BYTE := true }

/-- The bytes 0xFF 00 00 00 01 followed by zeros. -/
def bytesFF0001 : Mem := fun i => if i = 0 then 255 else if i = 4 then 1 else 0

/-- The bytes 01 00 00 00 02 followed by zeros. -/
def bytes010002 : Mem := fun i => if i = 0 then 1 else if i = 4 then 2 else 0

/-- An unprotected chip whose pages hold the byte `16 * page + offset` in the data area and
0xFF in the OOB area, except that the bad-block tag of page 0 (the first page of block 0)
is 0x33. -/
def markedFlash : Flash where
  wp := false
  pages := fun p i =>
    if i < 4 then (16 * p.toNat + i) % 256 else if p = 0 ∧ i = 4 then 0x33 else 0xff
  corrupt := fun _ => false

/-- An unprotected chip on which every bad-block tag reads 0x00. -/
def allBadFlash : Flash where
  wp := false
  pages := fun _ _ => 0
  corrupt := fun _ => false

/-- The page that holds byte address `a` once the address is masked to the chip. -/
def page_of (cfg : Cfg) (a : Nat) : Nat := a % cfg.CFG_CHIPSIZE / cfg.CFG_PAGESIZE

/-- The stored data byte at byte address `a` (masked to the chip). -/
def Flash.byte (cfg : Cfg) (fl : Flash) (a : Nat) : Nat :=
  fl.pages (page_of cfg a) (a % cfg.CFG_PAGESIZE)

/-- The bad-block tag that a probe `ranand_block_isbad(a)` reads is 0xFF. -/
def Flash.tag_ok (cfg : Cfg) (fl : Flash) (a : Nat) : Prop :=
  fl.pages (i32 ((a >>> cfg.CONFIG_PAGE_SIZE_BIT : Nat) : Int))
    (cfg.CFG_PAGESIZE + cfg.CONFIG_BAD_BLOCK_POS) % 256 = 0xff

instance Flash.tag_ok_decidable (cfg : Cfg) (fl : Flash) (a : Nat) :
    Decidable (fl.tag_ok cfg a) := by
  unfold Flash.tag_ok; infer_instance

/-- The staging buffer after a page read of page `p` on the flash model. -/
def Flash.staged (cfg : Cfg) (fl : Flash) (p : Nat) (old : Mem) : Mem :=
  fun i => if i < cfg.CFG_PAGESIZE + cfg.CFG_PAGE_OOBSIZE then fl.pages p i else old i

/-- The page-plus-OOB buffer `ranand_write` stages in one iteration: erased pattern on the
whole buffer, then `len` caller bytes from `src + bpos` copied to offset `offs`. -/
def write_staged (cfg : Cfg) (buffers src : Mem) (offs bpos len : Nat) : Mem :=
  memcpy (memset buffers 0x0ff (cfg.CFG_PAGESIZE + cfg.CFG_PAGE_OOBSIZE)) offs src bpos len

/-- The caller bytes 1, 2, 3, ... (byte `i` holds `i + 1`). -/
def countBytes : Mem := fun i => i + 1

/-- The geometry `sampleCfg` with a chip of a single block (two 4-byte pages, 8 bytes). -/
def oneBlockCfg : Cfg := { sampleCfg with CFG_CHIPSIZE := 8 }

/-- The number of page writes that cover `n` bytes starting at byte address `addr`. -/
def write_count (cfg : Cfg) (addr n : Nat) : Nat :=
  if n = 0 then 0 else (addr % cfg.CFG_PAGESIZE + n - 1) / cfg.CFG_PAGESIZE + 1

/-- The page the `k`-th page write goes to: consecutive pages from the page of `addr`,
wrapping at the end of the chip. -/
def write_page_index (cfg : Cfg) (addr k : Nat) : Nat :=
  (page_of cfg addr + k) % (cfg.CFG_CHIPSIZE / cfg.CFG_PAGESIZE)

/-- The page-plus-OOB buffer staged for the `k`-th page write of `n` caller bytes
`src[bpos ..]` at address `addr`: the caller byte number `i` sits at offset
`(addr + i) mod page_size` of the page number `(addr mod page_size + i) / page_size`, every
other byte of the buffer is 0xFF; past the buffer lie the bytes `junk`. -/
def write_image (cfg : Cfg) (junk src : Mem) (addr bpos n k : Nat) : Mem := fun j =>
  if j < cfg.CFG_PAGESIZE + cfg.CFG_PAGE_OOBSIZE then
    if j < cfg.CFG_PAGESIZE ∧ addr % cfg.CFG_PAGESIZE ≤ k * cfg.CFG_PAGESIZE + j
        ∧ k * cfg.CFG_PAGESIZE + j < addr % cfg.CFG_PAGESIZE + n
    then src (bpos + (k * cfg.CFG_PAGESIZE + j - addr % cfg.CFG_PAGESIZE))
    else 0xff
  else junk j

/-- The page writes expected of `ranand_write(src + bpos, addr, n)`, in order. -/
def write_plan (cfg : Cfg) (junk src : Mem) (addr bpos n : Nat) : List (Mem × Int) :=
  (List.range (write_count cfg addr n)).map fun k =>
    (write_image cfg junk src addr bpos n k, (write_page_index cfg addr k : Int))

/-- Issuing a list of page writes in order, each after a write-protect check. -/
def issue_page_writes {σ : Type} (L : PageLayer σ) : List (Mem × Int) → M σ Unit
  | [] => pure ()
  | w :: rest => do
    let _ ← L.nfc_check_wp
    let _ ← L.nfc_write_page w.1 w.2
    issue_page_writes L rest

/-- An unprotected chip whose pages hold the data byte `16 * page + offset` and 0xFF in the
OOB area, except that block 1 is marked bad: the tag of its first page (page 2) is 0x33. -/
def skipFlash : Flash where
  wp := false
  pages := fun p i =>
    if i < 4 then (16 * p.toNat + i) % 256 else if p = 2 ∧ i = 4 then 0x33 else 0xff
  corrupt := fun _ => false

/-- A controller whose ECC register always reads `e` and whose other registers read 0. -/
def eccDev (e : Nat) : Dev Unit where
  inl r _ :=
    (match r with
      | Reg.NFC_ECC => e
      | _ => 0, ())
  outl _ _ _ := ()
  udelay _ _ := ()

/-- The values written to the ADDRESS register, in order, according to an access log. -/
def addrWrites (log : List Access) : List Nat :=
  log.filterMap fun a =>
    match a with
    | Access.wr Reg.NFC_ADDR v => some v
    | _ => none

/-- A hung controller: INTERRUPT_STATUS always reads 3 (transaction done and bit 0x02 set,
RX-buffer-ready clear), STATUS always reads 4 (controller idle, device ready), every other
register reads 0. -/
def stuckDev : Dev Unit where
  inl r _ :=
    (match r with
      | Reg.NFC_INT_ST => 3
      | Reg.NFC_STATUS => 4
      | _ => 0, ())
  outl _ _ _ := ()
  udelay _ _ := ()

/-- A dead controller: every register always reads 0 (nothing done, nothing ready). -/
def deafDev : Dev Unit where
  inl _ _ := (0, ())
  outl _ _ _ := ()
  udelay _ _ := ()

/-- A block-level access of the page layer: a bad-block probe (OOB read) of a page, or the
erase of the block holding a page. -/
inductive BlockOp where
  | probe (page : Int)
  | erase (row : Int)
  deriving DecidableEq

/-- The page layer of the flash model with every OOB read and block erase recorded. -/
def traceLayer (cfg : Cfg) : PageLayer (Flash × List BlockOp) where
  nfc_check_wp := fun s => some (if s.1.wp then 1 else 0, s)
  nfc_read_oob := fun page offs buf len s =>
    some ((0, fun i => if (i : Int) < len then s.1.pages page (cfg.CFG_PAGESIZE + offs + i)
      else buf i), (s.1, s.2 ++ [BlockOp.probe page]))
  nfc_erase_block := fun row s => some (0, (s.1.erase cfg row, s.2 ++ [BlockOp.erase row]))
  nfc_write_page := fun buf page s =>
    some ((0, buf), (s.1.store cfg (chip_page cfg page) buf, s.2))
  nfc_read_page := fun buf page s =>
    some ((if s.1.corrupt (chip_page cfg page) then -2 else 0,
      fun i => if i < cfg.CFG_PAGESIZE + cfg.CFG_PAGE_OOBSIZE
        then s.1.pages (chip_page cfg page) i else buf i), s)
  malloc := fun _ s => some (some (fun _ => 0), s)
  udelay := fun _ s => some ((), s)
  uninit := fun _ => 0

/-- The accesses `ranand_erase` makes for one good block at byte offset `a`: the bad-block
probe of its first page (when bad-block checking is compiled in), then its erase. -/
def erase_block_ops (cfg : Cfg) (a : Nat) : List BlockOp :=
  (if cfg.CONFIG_BADBLOCK_CHECK then
      [BlockOp.probe (i32 ((a >>> cfg.CONFIG_PAGE_SIZE_BIT : Nat) : Int))] else [])
    ++ [BlockOp.erase (i32 ((a >>> cfg.CONFIG_PAGE_SIZE_BIT : Nat) : Int))]

/-- The accesses for the `m` blocks of the range that starts at `offs`, in address order. -/
def erase_range_ops (cfg : Cfg) (offs m : Nat) : List BlockOp :=
  (List.range m).flatMap fun i =>
    erase_block_ops cfg ((offs + i * cfg.CFG_BLOCKSIZE) % 4294967296)

/-! ## A chip model that records its accesses -/

/-- A page-level access to the chip that changes it or can fail. -/
inductive ChipOp where
  | read (page : Int)
  | write (page : Int)
  | erase (row : Int)
  deriving DecidableEq

/-- A NAND chip with transient read failures and a record of its accesses: the
write-protect line, the stored page-plus-OOB image of every page, for every page the number
of coming reads of it that fail ECC verification, and the page reads, page writes and block
erases made so far. -/
structure Chip where
  wp : Bool
  pages : Int → Mem
  fails : Int → Nat
  log : List ChipOp

/-- The chip after one read of page `p`. -/
def Chip.afterRead (ch : Chip) (p : Int) : Chip where
  wp := ch.wp
  pages := ch.pages
  fails := fun q => if q = p then ch.fails q - 1 else ch.fails q
  log := ch.log ++ [ChipOp.read p]

/-- The chip after the page reads `ps`, in order. -/
def Chip.afterReads (ch : Chip) (ps : List Int) : Chip := ps.foldl Chip.afterRead ch

/-- The chip after `ranand_read` has fetched page `p`: one read, and a second one when the
first fails. -/
def Chip.afterTry (ch : Chip) (p : Int) : Chip :=
  if ch.fails p = 0 then ch.afterRead p else (ch.afterRead p).afterRead p

/-- The chip after `ranand_read` has fetched the pages `ps`, in order. -/
def Chip.afterTries (ch : Chip) (ps : List Int) : Chip := ps.foldl Chip.afterTry ch

/-- The chip after the page-plus-OOB image `buf` has been written to page `p`. -/
def Chip.afterWrite (cfg : Cfg) (ch : Chip) (p : Int) (buf : Mem) : Chip where
  wp := ch.wp
  pages := fun q =>
    if q = p then
      fun i => if i < cfg.CFG_PAGESIZE + cfg.CFG_PAGE_OOBSIZE then buf i else ch.pages q i
    else ch.pages q
  fails := ch.fails
  log := ch.log ++ [ChipOp.write p]

/-- The chip after the block holding page `row` has been erased. -/
def Chip.afterErase (cfg : Cfg) (ch : Chip) (row : Int) : Chip where
  wp := ch.wp
  pages := fun p =>
    if p / ((cfg.CFG_BLOCKSIZE / cfg.CFG_PAGESIZE : Nat) : Int)
        = row / ((cfg.CFG_BLOCKSIZE / cfg.CFG_PAGESIZE : Nat) : Int)
    then fun _ => 0xff else ch.pages p
  fails := ch.fails
  log := ch.log ++ [ChipOp.erase row]

/-- The page layer of the recording chip: a page read returns the stored image, with the
code -2 while the page still has failing reads left; a page write stores the staged image
and succeeds; an OOB read returns the stored OOB bytes; a block erase sets the block to
0xFF. -/
def chipLayer (cfg : Cfg) : PageLayer Chip where
  nfc_check_wp := fun s => some (if s.wp then 1 else 0, s)
  nfc_read_oob := fun page offs buf len s =>
    some ((0, fun i => if (i : Int) < len then s.pages page (cfg.CFG_PAGESIZE + offs + i)
      else buf i), s)
  nfc_erase_block := fun row s => some (0, s.afterErase cfg row)
  nfc_write_page := fun buf page s =>
    some ((0, buf), s.afterWrite cfg (chip_page cfg page) buf)
  nfc_read_page := fun buf page s =>
    some ((if 0 < s.fails (chip_page cfg page) then -2 else 0,
      fun i => if i < cfg.CFG_PAGESIZE + cfg.CFG_PAGE_OOBSIZE
        then s.pages (chip_page cfg page) i else buf i), s.afterRead (chip_page cfg page))
  malloc := fun _ s => some (some (fun _ => 0), s)
  udelay := fun _ s => some ((), s)
  uninit := fun _ => 0

/-- The stored data byte at byte address `a` (masked to the chip). -/
def Chip.byte (cfg : Cfg) (ch : Chip) (a : Nat) : Nat :=
  ch.pages (page_of cfg a) (a % cfg.CFG_PAGESIZE)

/-- The bad-block tag that a probe `ranand_block_isbad(a)` reads is 0xFF. -/
def Chip.tag_ok (cfg : Cfg) (ch : Chip) (a : Nat) : Prop :=
  ch.pages (i32 ((a >>> cfg.CONFIG_PAGE_SIZE_BIT : Nat) : Int))
    (cfg.CFG_PAGESIZE + cfg.CONFIG_BAD_BLOCK_POS) % 256 = 0xff

instance Chip.tag_ok_decidable (cfg : Cfg) (ch : Chip) (a : Nat) :
    Decidable (ch.tag_ok cfg a) := by
  unfold Chip.tag_ok; infer_instance

/-- The staging buffer after a read of page `p`. -/
def Chip.staged (cfg : Cfg) (ch : Chip) (p : Nat) (old : Mem) : Mem :=
  fun i => if i < cfg.CFG_PAGESIZE + cfg.CFG_PAGE_OOBSIZE then ch.pages p i else old i

/-- The pages that hold the `n` bytes from byte address `addr`, in address order (wrapping
at the end of the chip). -/
def page_run (cfg : Cfg) (addr n : Nat) : List Int :=
  (List.range (write_count cfg addr n)).map fun k => (write_page_index cfg addr k : Int)

/-- An unprotected chip that holds the data byte `16 * page + offset` and 0xFF in the OOB
area, whose page 1 fails its next `k` reads, with an empty record. -/
def dataChip (k : Nat) : Chip where
  wp := false
  pages := fun p i => if i < 4 then (16 * p.toNat + i) % 256 else 0xff
  fails := fun p => if p = 1 then k else 0
  log := []

/-- The chip `dataChip 0` with the marker byte of page `p` set to 0x33. -/
def markedChip (p : Int) : Chip where
  wp := false
  pages := fun q i =>
    if i < 4 then (16 * q.toNat + i) % 256 else if q = p ∧ i = 4 then 0x33 else 0xff
  fails := fun _ => 0
  log := []

/-- A controller that hangs in the bad-block-tag write: it behaves like `readyDev` until the
opcode 0x8050 of `nfc_write_oob` is written to CMD1 and like `stuckDev` from then on
(INTERRUPT_STATUS reads 3, STATUS reads 4, every other register 0).  The state records
whether that opcode has been written. -/
def hangDev : Dev Bool where
  inl r s :=
    (match r, s with
      | Reg.NFC_INT_ST, false => 7
      | Reg.NFC_INT_ST, true => 3
      | Reg.NFC_STATUS, _ => 4
      | Reg.NFC_ECC, false => 0x01020304
      | _, _ => 0, s)
  outl r v s := if r = Reg.NFC_CMD1 ∧ v = 0x8050 then true else s
  udelay _ s := s

/-- The opcodes written to the CMD1 register, in order, according to an access log. -/
def cmd1Writes (log : List Access) : List Nat :=
  log.filterMap fun a =>
    match a with
    | Access.wr Reg.NFC_CMD1 v => some v
    | _ => none

/-! ## Properties -/

section Basics

variable {σ α β : Type}

@[simp] theorem M.pure_run (a : α) (s : σ) : (pure a : M σ α) s = some (a, s) := rfl

@[simp] theorem M.bind_run (m : M σ α) (f : α → M σ β) (s : σ) :
    (m >>= f) s = (m s).bind fun r => f r.1 r.2 := by
  show (match m s with
    | none => none
    | some (a, s1) => f a s1) = _
  cases m s <;> rfl

@[simp] theorem M.ite_run (c : Prop) [Decidable c] (a b : M σ α) (s : σ) :
    (if c then a else b) s = if c then a s else b s := by
  split <;> rfl

theorem M.bind_some (m : M σ α) (f : α → M σ β) (s s1 : σ) (a : α) (h : m s = some (a, s1)) :
    (m >>= f) s = f a s1 := by
  rw [M.bind_run, h]; rfl

theorem M.bind_none (m : M σ α) (f : α → M σ β) (s : σ) (h : m s = none) :
    (m >>= f) s = none := by
  rw [M.bind_run, h]; rfl

theorem sampleCfg_wf : sampleCfg.WF :=
  ⟨rfl, rfl, rfl, ⟨2, rfl⟩, by decide, by decide⟩

/-- Under the geometry invariants the block size is a power of two dividing 2^32. -/
theorem Cfg.WF.blocksize_le {cfg : Cfg} (h : cfg.WF) :
    cfg.CONFIG_PAGE_SIZE_BIT + cfg.CONFIG_NUMPAGE_PER_BLOCK_BIT ≤ 30 := by
  obtain ⟨k, hk⟩ := h.chipsize
  have h1 := h.chipmax
  rw [hk, h.blocksize] at h1
  have h2 : 2 ^ (cfg.CONFIG_PAGE_SIZE_BIT + cfg.CONFIG_NUMPAGE_PER_BLOCK_BIT)
      ≤ 2 ^ k * 2 ^ (cfg.CONFIG_PAGE_SIZE_BIT + cfg.CONFIG_NUMPAGE_PER_BLOCK_BIT) :=
    Nat.le_mul_of_pos_left _ (Nat.two_pow_pos k)
  have h3 : 2 ^ (cfg.CONFIG_PAGE_SIZE_BIT + cfg.CONFIG_NUMPAGE_PER_BLOCK_BIT) ≤ 2 ^ 30 :=
    le_trans h2 h1
  exact (Nat.pow_le_pow_iff_right (by decide)).mp h3

/-- The alignment test `a & (CFG_BLOCKSIZE - 1)` on an `unsigned int`. -/
theorem block_mask_nat {cfg : Cfg} (h : cfg.WF) (x : Nat) :
    x &&& (cfg.CFG_BLOCKSIZE - 1) = x % cfg.CFG_BLOCKSIZE := by
  rw [h.blocksize]; exact Nat.and_pow_two_sub_one_eq_mod _ _

/-- The alignment test `a & (CFG_BLOCKSIZE - 1)` on an `int`. -/
theorem block_mask_int {cfg : Cfg} (h : cfg.WF) (x : Int) :
    ((u32 x &&& (cfg.CFG_BLOCKSIZE - 1) : Nat) : Int) = x % (cfg.CFG_BLOCKSIZE : Int) := by
  rw [block_mask_nat h, h.blocksize]
  have hle := h.blocksize_le
  set n := cfg.CONFIG_PAGE_SIZE_BIT + cfg.CONFIG_NUMPAGE_PER_BLOCK_BIT with hn
  have hdvd : ((2 ^ n : Nat) : Int) ∣ 4294967296 := by
    have : (2 : Nat) ^ n ∣ 2 ^ 32 := Nat.pow_dvd_pow 2 (by omega)
    exact_mod_cast this
  unfold u32
  have hnn : (0 : Int) ≤ x % 4294967296 := Int.emod_nonneg _ (by decide)
  rw [Int.natCast_mod, Int.toNat_of_nonneg hnn, Int.emod_emod_of_dvd _ hdvd]

theorem ra_inl_some (dev : Dev σ) (r : Reg) (s : σ) :
    ra_inl dev r s = some ((dev.inl r s).1 % 4294967296, (dev.inl r s).2) := by
  unfold ra_inl
  rfl

theorem ecc_check_codes (cfg : Cfg) (dev : Dev σ) (p : Mem) (s s1 : σ) (v : Int)
    (h : ecc_check cfg dev p s = some (v, s1)) : v = 0 ∨ v = -1 := by
  unfold ecc_check at h
  rw [M.bind_some _ _ _ _ _ (ra_inl_some dev _ s)] at h
  split_ifs at h <;> simp only [M.pure_run, Option.some.injEq, Prod.mk.injEq] at h <;> omega

theorem nfc_ecc_verify_codes (cfg : Cfg) (dev : Dev σ) (fuel : Nat) (buf : Mem) (page : Int)
    (mode : FlMode) (s s1 : σ) (v : Int)
    (h : nfc_ecc_verify cfg dev fuel buf page mode s = some (v, s1)) :
    v = 0 ∨ v = -1 ∨ v = -2 := by
  cases fuel with
  | zero => simp [nfc_ecc_verify] at h
  | succ n =>
    cases mode with
    | FL_READING =>
      rw [nfc_ecc_verify] at h
      have := ecc_check_codes _ _ _ _ _ _ h
      omega
    | other =>
      rw [nfc_ecc_verify] at h
      simp only [M.pure_run, Option.some.injEq, Prod.mk.injEq] at h
      omega
    | FL_WRITING =>
      rw [nfc_ecc_verify] at h
      simp only [M.bind_run] at h
      cases h1 : nfc_read_page cfg dev n (fun _ => 0) page s with
      | none => simp [h1] at h
      | some r1 =>
        simp only [h1, Option.some_bind] at h
        split_ifs at h
        · have := ecc_check_codes _ _ _ _ _ _ h
          omega
        · cases h2 : nfc_read_page cfg dev n r1.1.2 page r1.2 with
          | none => simp [M.bind_run, h2] at h
          | some r2 =>
            simp only [M.bind_run, h2, Option.some_bind] at h
            split_ifs at h
            · simp only [M.pure_run, Option.some.injEq, Prod.mk.injEq] at h
              omega
            · have := ecc_check_codes _ _ _ _ _ _ h
              omega

theorem block_first_page_spec (cfg : Cfg) (hwf : cfg.WF) (page : Int) :
    let p := chip_page cfg page
    let ppb : Int := ((cfg.CFG_BLOCKSIZE / cfg.CFG_PAGESIZE : Nat) : Int)
    0 ≤ p ∧ block_first_page cfg p % ppb = 0 ∧ block_first_page cfg p ≤ p
      ∧ p < block_first_page cfg p + ppb := by
  intro p ppb
  have hp : 0 ≤ p := Int.natCast_nonneg _
  have hppb : 0 < ppb := by
    have : 0 < cfg.CFG_BLOCKSIZE / cfg.CFG_PAGESIZE := by
      rw [hwf.blocksize, hwf.pagesize, Nat.pow_add, Nat.mul_div_cancel_left _ (Nat.two_pow_pos _)]
      exact Nat.two_pow_pos _
    exact Int.natCast_pos.mpr this
  have ht : Int.tmod p ppb = p % ppb := Int.tmod_eq_emod hp (le_of_lt hppb)
  have h1 := Int.emod_nonneg p (ne_of_gt hppb)
  have h2 := Int.emod_lt_of_pos p hppb
  refine ⟨hp, ?_, ?_, ?_⟩
  · show (p - Int.tmod p ppb) % ppb = 0
    rw [ht]
    exact Int.emod_eq_zero_of_dvd (Int.dvd_sub_of_emod_eq rfl)
  · show p - Int.tmod p ppb ≤ p
    rw [ht]; omega
  · show p < p - Int.tmod p ppb + ppb
    rw [ht]; omega

theorem load_word_low (m : Mem) (p : Nat) : load_word m p &&& 0xff = m p % 256 := by
  have h := Nat.and_pow_two_sub_one_eq_mod (load_word m p) 8
  have e : (2 : Nat) ^ 8 - 1 = 0xff := by norm_num
  rw [e] at h
  rw [h]
  unfold load_word
  omega

/-- What `ranand_block_isbad` computes: it reads one byte at the bad-block-marker offset of
the page `offs >> CONFIG_PAGE_SIZE_BIT` and reports good exactly when that read returned 0
and the byte is 0xFF. -/
theorem ranand_block_isbad_spec (cfg : Cfg) (L : PageLayer σ) (offs : Nat) (s s1 : σ)
    (ret : Int) (tag : Mem)
    (h : L.nfc_read_oob (i32 ((offs >>> cfg.CONFIG_PAGE_SIZE_BIT : Nat) : Int))
      cfg.CONFIG_BAD_BLOCK_POS L.uninit 1 s = some ((ret, tag), s1)) :
    ranand_block_isbad cfg L offs s
      = some (if ret = 0 ∧ tag 0 % 256 = 0xff then 0 else 1, s1) := by
  unfold ranand_block_isbad
  simp only [M.bind_run, h, Option.some_bind, load_word_low]
  split_ifs <;> rfl

theorem allBad_isbad (offs : Nat) :
    ranand_block_isbad sampleCfg (flashLayer sampleCfg) offs allBadFlash
      = some (1, allBadFlash) := by
  rw [ranand_block_isbad_spec sampleCfg (flashLayer sampleCfg) offs allBadFlash allBadFlash 0
    (fun i => if (i : Int) < 1 then 0 else 0) rfl]
  simp

theorem allBad_erase_loop (fuel : Nat) : ∀ (offs : Nat) (ret : Int),
    ranand_erase_loop sampleCfg (flashLayer sampleCfg) fuel offs 8 ret allBadFlash = none := by
  induction fuel with
  | zero => intro offs ret; rfl
  | succ n ih =>
    intro offs ret
    rw [ranand_erase_loop]
    have hwp : (flashLayer sampleCfg).nfc_check_wp allBadFlash = some (0, allBadFlash) := rfl
    have hc : sampleCfg.CONFIG_BADBLOCK_CHECK = true := rfl
    simp [hwp, hc, allBad_isbad, ih]

theorem i32_small (x : Int) (h0 : 0 ≤ x) (h1 : x < 2147483648) : i32 x = x := by
  unfold i32; omega

theorem loff_small (x : Int) (h0 : 0 ≤ x) (h1 : x < 18446744073709551616) :
    ((loff x : Nat) : Int) = x := by
  unfold loff; omega

theorem Cfg.WF.ps_pos {cfg : Cfg} (h : cfg.WF) : 0 < cfg.CFG_PAGESIZE := by
  rw [h.pagesize]; exact Nat.two_pow_pos _

theorem Cfg.WF.chip_pow {cfg : Cfg} (h : cfg.WF) :
    ∃ K, cfg.CFG_CHIPSIZE = 2 ^ K
      ∧ cfg.CFG_CHIPSIZE = 2 ^ (K - cfg.CONFIG_PAGE_SIZE_BIT) * cfg.CFG_PAGESIZE := by
  obtain ⟨k, hk⟩ := h.chipsize
  refine ⟨k + (cfg.CONFIG_PAGE_SIZE_BIT + cfg.CONFIG_NUMPAGE_PER_BLOCK_BIT), ?_, ?_⟩
  · rw [hk, h.blocksize, ← Nat.pow_add]
  · rw [hk, h.blocksize, h.pagesize, ← Nat.pow_add, ← Nat.pow_add]
    congr 1; omega

theorem Cfg.WF.ps_dvd_chip {cfg : Cfg} (h : cfg.WF) : cfg.CFG_PAGESIZE ∣ cfg.CFG_CHIPSIZE := by
  obtain ⟨K, _, h2⟩ := h.chip_pow
  exact ⟨2 ^ (K - cfg.CONFIG_PAGE_SIZE_BIT), by rw [h2, Nat.mul_comm]⟩

theorem Cfg.WF.chip_pos {cfg : Cfg} (h : cfg.WF) : 0 < cfg.CFG_CHIPSIZE := by
  obtain ⟨K, h1, _⟩ := h.chip_pow
  rw [h1]; exact Nat.two_pow_pos _

/-- The page after `page_of cfg a` starts no later than the end of the chip. -/
theorem Cfg.WF.next_page_le {cfg : Cfg} (h : cfg.WF) (a : Nat) :
    (page_of cfg a + 1) * cfg.CFG_PAGESIZE ≤ cfg.CFG_CHIPSIZE := by
  obtain ⟨c, hc⟩ := h.ps_dvd_chip
  have hps := h.ps_pos
  have hlt : a % cfg.CFG_CHIPSIZE < cfg.CFG_CHIPSIZE := Nat.mod_lt _ h.chip_pos
  unfold page_of
  have h1 : a % cfg.CFG_CHIPSIZE / cfg.CFG_PAGESIZE < c := by
    rw [Nat.div_lt_iff_lt_mul hps, Nat.mul_comm, ← hc]; exact hlt
  calc (a % cfg.CFG_CHIPSIZE / cfg.CFG_PAGESIZE + 1) * cfg.CFG_PAGESIZE
      ≤ c * cfg.CFG_PAGESIZE := Nat.mul_le_mul_right _ h1
    _ = cfg.CFG_CHIPSIZE := by rw [hc, Nat.mul_comm]

theorem step_page {cfg : Cfg} (h : cfg.WF) (addr : Nat) :
    i32 (((addr &&& loff ((cfg.CFG_CHIPSIZE : Int) - 1)) >>> cfg.CONFIG_PAGE_SIZE_BIT : Nat) : Int)
      = (page_of cfg addr : Int) := by
  obtain ⟨K, hK, _⟩ := h.chip_pow
  have hpos := h.chip_pos
  have hmax := h.chipmax
  have e1 : loff ((cfg.CFG_CHIPSIZE : Int) - 1) = cfg.CFG_CHIPSIZE - 1 := by
    have := loff_small ((cfg.CFG_CHIPSIZE : Int) - 1) (by omega) (by omega)
    omega
  rw [e1, Nat.shiftRight_eq_div_pow, ← h.pagesize]
  have e2 : addr &&& (cfg.CFG_CHIPSIZE - 1) = addr % cfg.CFG_CHIPSIZE := by
    rw [hK]; exact Nat.and_pow_two_sub_one_eq_mod _ _
  rw [e2]
  have hlt : addr % cfg.CFG_CHIPSIZE < cfg.CFG_CHIPSIZE := Nat.mod_lt _ hpos
  have hle : addr % cfg.CFG_CHIPSIZE / cfg.CFG_PAGESIZE ≤ addr % cfg.CFG_CHIPSIZE :=
    Nat.div_le_self _ _
  unfold page_of
  generalize addr % cfg.CFG_CHIPSIZE / cfg.CFG_PAGESIZE = P at hle ⊢
  apply i32_small <;> omega

theorem step_offs {cfg : Cfg} (h : cfg.WF) (addr : Nat) :
    i32 ((addr &&& loff ((cfg.CFG_PAGESIZE : Int) - 1) : Nat) : Int)
      = ((addr % cfg.CFG_PAGESIZE : Nat) : Int) := by
  have hps := h.ps_pos
  have hle : cfg.CFG_PAGESIZE ≤ cfg.CFG_CHIPSIZE := Nat.le_of_dvd h.chip_pos h.ps_dvd_chip
  have hmax := h.chipmax
  have e1 : loff ((cfg.CFG_PAGESIZE : Int) - 1) = cfg.CFG_PAGESIZE - 1 := by
    have := loff_small ((cfg.CFG_PAGESIZE : Int) - 1) (by omega) (by omega)
    omega
  have e2 : addr &&& (cfg.CFG_PAGESIZE - 1) = addr % cfg.CFG_PAGESIZE := by
    rw [h.pagesize]; exact Nat.and_pow_two_sub_one_eq_mod _ _
  rw [e1, e2]
  have hlt : addr % cfg.CFG_PAGESIZE < cfg.CFG_PAGESIZE := Nat.mod_lt _ hps
  apply i32_small <;> omega

theorem step_next {cfg : Cfg} (h : cfg.WF) (addr : Nat) :
    loff (i32 (((page_of cfg addr : Int) + 1) * 2 ^ cfg.CONFIG_PAGE_SIZE_BIT))
      = (page_of cfg addr + 1) * cfg.CFG_PAGESIZE := by
  have hle := h.next_page_le addr
  have hmax := h.chipmax
  have e : ((page_of cfg addr : Int) + 1) * 2 ^ cfg.CONFIG_PAGE_SIZE_BIT
      = (((page_of cfg addr + 1) * cfg.CFG_PAGESIZE : Nat) : Int) := by
    rw [h.pagesize]; push_cast; ring
  rw [e]
  have h1 : i32 (((page_of cfg addr + 1) * cfg.CFG_PAGESIZE : Nat) : Int)
      = (((page_of cfg addr + 1) * cfg.CFG_PAGESIZE : Nat) : Int) := by
    apply i32_small <;> omega
  rw [h1]
  have := loff_small (((page_of cfg addr + 1) * cfg.CFG_PAGESIZE : Nat) : Int) (by omega) (by omega)
  omega

/-- Addresses inside the page of `addr`: same page, offset advanced. -/
theorem page_of_same {cfg : Cfg} (h : cfg.WF) (addr i : Nat)
    (hi : addr % cfg.CFG_PAGESIZE + i < cfg.CFG_PAGESIZE) :
    page_of cfg (addr + i) = page_of cfg addr
      ∧ (addr + i) % cfg.CFG_PAGESIZE = addr % cfg.CFG_PAGESIZE + i := by
  obtain ⟨c, hc⟩ := h.ps_dvd_chip
  have hps := h.ps_pos
  have hchip := h.chip_pos
  -- split addr as chip multiple + page multiple + offset
  have hA : addr % cfg.CFG_CHIPSIZE % cfg.CFG_PAGESIZE = addr % cfg.CFG_PAGESIZE :=
    Nat.mod_mod_of_dvd _ h.ps_dvd_chip
  have hdm := Nat.div_add_mod (addr % cfg.CFG_CHIPSIZE) cfg.CFG_PAGESIZE
  rw [hA] at hdm
  have hnext := h.next_page_le addr
  unfold page_of at hnext ⊢
  have hlow : (addr + i) % cfg.CFG_CHIPSIZE = addr % cfg.CFG_CHIPSIZE + i := by
    have e : addr + i = addr % cfg.CFG_CHIPSIZE + i + cfg.CFG_CHIPSIZE * (addr / cfg.CFG_CHIPSIZE) := by
      have := Nat.mod_add_div addr cfg.CFG_CHIPSIZE
      omega
    rw [e, Nat.add_mul_mod_self_left]
    apply Nat.mod_eq_of_lt
    have e2 : (addr % cfg.CFG_CHIPSIZE / cfg.CFG_PAGESIZE + 1) * cfg.CFG_PAGESIZE
        = cfg.CFG_PAGESIZE * (addr % cfg.CFG_CHIPSIZE / cfg.CFG_PAGESIZE) + cfg.CFG_PAGESIZE := by ring
    omega
  constructor
  · rw [hlow]
    have e : addr % cfg.CFG_CHIPSIZE + i
        = (addr % cfg.CFG_PAGESIZE + i)
          + cfg.CFG_PAGESIZE * (addr % cfg.CFG_CHIPSIZE / cfg.CFG_PAGESIZE) := by omega
    rw [e, Nat.add_mul_div_left _ _ hps, Nat.div_eq_of_lt hi]
    omega
  · have e : addr + i = (addr % cfg.CFG_PAGESIZE + i)
        + cfg.CFG_PAGESIZE * (addr / cfg.CFG_PAGESIZE) := by
      have := Nat.mod_add_div addr cfg.CFG_PAGESIZE
      omega
    rw [e, Nat.add_mul_mod_self_left]
    exact Nat.mod_eq_of_lt hi

/-- The address the loops continue with is congruent, modulo the chip size, to the address
just past the page of `addr`. -/
theorem next_congr {cfg : Cfg} (h : cfg.WF) (addr j : Nat) :
    ((page_of cfg addr + 1) * cfg.CFG_PAGESIZE + j) % cfg.CFG_CHIPSIZE
      = (addr + (cfg.CFG_PAGESIZE - addr % cfg.CFG_PAGESIZE) + j) % cfg.CFG_CHIPSIZE := by
  have hps := h.ps_pos
  have hA : addr % cfg.CFG_CHIPSIZE % cfg.CFG_PAGESIZE = addr % cfg.CFG_PAGESIZE :=
    Nat.mod_mod_of_dvd _ h.ps_dvd_chip
  have hdm := Nat.div_add_mod (addr % cfg.CFG_CHIPSIZE) cfg.CFG_PAGESIZE
  rw [hA] at hdm
  have hlt : addr % cfg.CFG_PAGESIZE < cfg.CFG_PAGESIZE := Nat.mod_lt _ hps
  unfold page_of
  have e2 : (addr % cfg.CFG_CHIPSIZE / cfg.CFG_PAGESIZE + 1) * cfg.CFG_PAGESIZE
      = cfg.CFG_PAGESIZE * (addr % cfg.CFG_CHIPSIZE / cfg.CFG_PAGESIZE) + cfg.CFG_PAGESIZE := by ring
  have e : addr + (cfg.CFG_PAGESIZE - addr % cfg.CFG_PAGESIZE) + j
      = ((addr % cfg.CFG_CHIPSIZE / cfg.CFG_PAGESIZE + 1) * cfg.CFG_PAGESIZE + j)
        + cfg.CFG_CHIPSIZE * (addr / cfg.CFG_CHIPSIZE) := by
    have := Nat.mod_add_div addr cfg.CFG_CHIPSIZE
    omega
  rw [e, Nat.add_mul_mod_self_left]

theorem chip_page_page_of {cfg : Cfg} (h : cfg.WF) (a : Nat) :
    chip_page cfg (page_of cfg a : Int) = (page_of cfg a : Int) := by
  obtain ⟨K, hK, _⟩ := h.chip_pow
  have hpos := h.chip_pos
  have hmax := h.chipmax
  have hps := h.ps_pos
  have hP : page_of cfg a < cfg.CFG_CHIPSIZE := by
    unfold page_of
    exact lt_of_le_of_lt (Nat.div_le_self _ _) (Nat.mod_lt _ hpos)
  unfold chip_page
  have e1 : u32 ((cfg.CFG_CHIPSIZE : Int) - 1) = cfg.CFG_CHIPSIZE - 1 := by
    unfold u32; omega
  have e0 : u32 (page_of cfg a : Int) = page_of cfg a := by
    unfold u32; omega
  rw [e0, e1, hK, Nat.and_pow_two_sub_one_eq_mod, ← hK, Nat.mod_eq_of_lt hP]

/-- The bad-block probe on the flash model. -/
theorem flash_isbad (cfg : Cfg) (fl : Flash) (a : Nat) :
    ranand_block_isbad cfg (flashLayer cfg) a fl
      = some (if fl.tag_ok cfg a then 0 else 1, fl) := by
  rw [ranand_block_isbad_spec cfg (flashLayer cfg) a fl fl 0
    (fun i => if (i : Int) < 1
      then fl.pages (i32 ((a >>> cfg.CONFIG_PAGE_SIZE_BIT : Nat) : Int))
        (cfg.CFG_PAGESIZE + cfg.CONFIG_BAD_BLOCK_POS + i)
      else (flashLayer cfg).uninit i) rfl]
  simp [Flash.tag_ok]

theorem flash_read_page {cfg : Cfg} (h : cfg.WF) (fl : Flash) (a : Nat) (b : Mem) :
    (flashLayer cfg).nfc_read_page b (page_of cfg a : Int) fl
      = some ((if fl.corrupt (page_of cfg a) then -2 else 0, fl.staged cfg (page_of cfg a) b),
          fl) := by
  show some _ = some _
  rw [chip_page_page_of h]
  rfl

theorem Flash.staged_staged (cfg : Cfg) (fl : Flash) (p : Nat) (b : Mem) :
    fl.staged cfg p (fl.staged cfg p b) = fl.staged cfg p b := by
  funext i
  unfold Flash.staged
  split <;> rfl

theorem flash_read_step {cfg : Cfg} (h : cfg.WF) (fl : Flash) (fuel : Nat) (buffers buf : Mem)
    (bpos addr retlen : Nat) (datalen : Int) (hpos : 0 < datalen)
    (htag : cfg.CONFIG_BADBLOCK_CHECK = true → fl.tag_ok cfg addr) :
    ranand_read_loop cfg (flashLayer cfg) (fuel + 1) buffers buf bpos addr datalen retlen fl
      = if fl.corrupt (page_of cfg addr) then
          some ((-1, memcpy buf bpos (fl.staged cfg (page_of cfg addr) buffers)
            (addr % cfg.CFG_PAGESIZE)
            (min datalen ((cfg.CFG_PAGESIZE : Int) - (addr % cfg.CFG_PAGESIZE : Nat))).toNat), fl)
        else
          ranand_read_loop cfg (flashLayer cfg) fuel (fl.staged cfg (page_of cfg addr) buffers)
            (memcpy buf bpos (fl.staged cfg (page_of cfg addr) buffers)
              (addr % cfg.CFG_PAGESIZE)
              (min datalen ((cfg.CFG_PAGESIZE : Int) - (addr % cfg.CFG_PAGESIZE : Nat))).toNat)
            (bpos + (min datalen ((cfg.CFG_PAGESIZE : Int) - (addr % cfg.CFG_PAGESIZE : Nat))).toNat)
            ((page_of cfg addr + 1) * cfg.CFG_PAGESIZE)
            (datalen - min datalen ((cfg.CFG_PAGESIZE : Int) - (addr % cfg.CFG_PAGESIZE : Nat)))
            (retlen + (min datalen ((cfg.CFG_PAGESIZE : Int) - (addr % cfg.CFG_PAGESIZE : Nat))).toNat)
            fl := by
  have hlt : addr % cfg.CFG_PAGESIZE < cfg.CFG_PAGESIZE := Nat.mod_lt _ h.ps_pos
  have hlen : 0 < min datalen ((cfg.CFG_PAGESIZE : Int) - (addr % cfg.CFG_PAGESIZE : Nat)) := by
    omega
  have hne : datalen ≠ 0 := by omega
  rw [ranand_read_loop]
  simp only [step_page h, step_offs h, step_next h, if_pos hne, M.ite_run, M.bind_run,
    flash_isbad, M.pure_run, Option.some_bind, flash_read_page h, Int.toNat_ofNat]
  have hm2 : ¬ ((-2 : Int) = 0) := by decide
  by_cases hc : cfg.CONFIG_BADBLOCK_CHECK = true
  · have ht := htag hc
    by_cases hcor : fl.corrupt (page_of cfg addr) = true
    · simp only [hc, ht, hcor, hlen, gt_iff_lt, if_true, if_false, ne_eq, not_true_eq_false,
        not_false_eq_true, Option.some_bind, Flash.staged_staged, hm2, Bool.false_eq_true]
    · simp only [hc, ht, hcor, hlen, gt_iff_lt, if_true, if_false, ne_eq, not_true_eq_false,
        not_false_eq_true, Option.some_bind, Flash.staged_staged, hm2, Bool.false_eq_true]
  · by_cases hcor : fl.corrupt (page_of cfg addr) = true
    · simp only [hc, hcor, hlen, gt_iff_lt, if_true, if_false, ne_eq, not_true_eq_false,
        not_false_eq_true, Option.some_bind, Flash.staged_staged, hm2, Bool.false_eq_true]
    · simp only [hc, hcor, hlen, gt_iff_lt, if_true, if_false, ne_eq, not_true_eq_false,
        not_false_eq_true, Option.some_bind, Flash.staged_staged, hm2, Bool.false_eq_true]

theorem page_of_congr (cfg : Cfg) (a b : Nat) (h : a % cfg.CFG_CHIPSIZE = b % cfg.CFG_CHIPSIZE) :
    page_of cfg a = page_of cfg b := by
  unfold page_of; rw [h]

theorem Flash.byte_congr {cfg : Cfg} (hwf : cfg.WF) (fl : Flash) (a b : Nat)
    (h : a % cfg.CFG_CHIPSIZE = b % cfg.CFG_CHIPSIZE) : fl.byte cfg a = fl.byte cfg b := by
  unfold Flash.byte
  rw [page_of_congr cfg a b h]
  have ha := Nat.mod_mod_of_dvd a hwf.ps_dvd_chip
  have hb := Nat.mod_mod_of_dvd b hwf.ps_dvd_chip
  rw [← ha, ← hb, h]

/-- The read loop on the flash model: `m` is the number of leading bytes whose pages read
without error; when `m < n` the page holding byte `m` fails and the loop stops there. -/
theorem flash_read_loop {cfg : Cfg} (hwf : cfg.WF) (fl : Flash) :
    ∀ (fuel : Nat) (buffers buf : Mem) (bpos addr retlen n m : Nat),
      n < fuel → m ≤ n →
      (∀ i, i < m → fl.corrupt (page_of cfg (addr + i)) = false) →
      (m < n → fl.corrupt (page_of cfg (addr + m)) = true
        ∧ (m = 0 ∨ (addr + m) % cfg.CFG_PAGESIZE = 0)) →
      (cfg.CONFIG_BADBLOCK_CHECK = true →
        ∀ a i, i < n → a % cfg.CFG_CHIPSIZE = (addr + i) % cfg.CFG_CHIPSIZE → fl.tag_ok cfg a) →
      ranand_read_loop cfg (flashLayer cfg) fuel buffers buf bpos addr n retlen fl
        = some ((if m < n then -1 else i32 ((retlen + n : Nat) : Int),
            fun x =>
              if bpos ≤ x ∧ x < bpos + (if m < n
                  then min n (m + (cfg.CFG_PAGESIZE - (addr + m) % cfg.CFG_PAGESIZE)) else n)
              then fl.byte cfg (addr + (x - bpos)) else buf x), fl) := by
  intro fuel
  induction fuel with
  | zero => intro _ _ _ _ _ n m hn; omega
  | succ f ih =>
    intro buffers buf bpos addr retlen n m hn hm hcor hfail htag
    have hps := hwf.ps_pos
    have hlt : addr % cfg.CFG_PAGESIZE < cfg.CFG_PAGESIZE := Nat.mod_lt _ hps
    rcases Nat.eq_zero_or_pos n with hn0 | hnpos
    · subst hn0
      have hm0 : m = 0 := by omega
      subst hm0
      rw [ranand_read_loop]
      simp only [Nat.cast_zero, ne_eq, not_true_eq_false, if_false, M.pure_run, lt_self_iff_false,
        Nat.add_zero]
      congr 3
      funext x
      rw [if_neg (by omega)]
    · have hstep := flash_read_step hwf fl f buffers buf bpos addr retlen (n : Int)
        (by exact_mod_cast hnpos)
        (fun hc => htag hc addr 0 hnpos rfl)
      rw [hstep]
      -- the byte count of this iteration
      obtain ⟨len, hlen⟩ : ∃ len : Nat, len = min n (cfg.CFG_PAGESIZE - addr % cfg.CFG_PAGESIZE) :=
        ⟨_, rfl⟩
      have hlen1 : 1 ≤ len := by omega
      have hlenn : len ≤ n := by omega
      have hlenp : addr % cfg.CFG_PAGESIZE + len ≤ cfg.CFG_PAGESIZE := by omega
      have hlenI : min (n : Int) ((cfg.CFG_PAGESIZE : Int) - (addr % cfg.CFG_PAGESIZE : Nat))
          = (len : Int) := by omega
      have hsubI : (n : Int) - (len : Int) = ((n - len : Nat) : Int) := by omega
      rw [hlenI, hsubI]
      simp only [Int.toNat_ofNat]
      -- bytes of the current page
      have hsame : ∀ i, i < len → fl.byte cfg (addr + i)
          = fl.staged cfg (page_of cfg addr) buffers (addr % cfg.CFG_PAGESIZE + i) := by
        intro i hi
        obtain ⟨h1, h2⟩ := page_of_same hwf addr i (by omega)
        unfold Flash.byte Flash.staged
        rw [h1, h2, if_pos (by omega)]
      -- addresses past the current page
      have hshift : len < n → ∀ j,
          ((page_of cfg addr + 1) * cfg.CFG_PAGESIZE + j) % cfg.CFG_CHIPSIZE
            = (addr + (len + j)) % cfg.CFG_CHIPSIZE := by
        intro hl j
        have e : len = cfg.CFG_PAGESIZE - addr % cfg.CFG_PAGESIZE := by omega
        rw [next_congr hwf addr j, e, Nat.add_assoc]
      rcases Nat.eq_zero_or_pos m with hm0 | hmpos
      · -- the first page fails
        subst hm0
        obtain ⟨hc, _⟩ := hfail hnpos
        rw [Nat.add_zero] at hc
        rw [if_pos hc, if_pos hnpos]
        congr 3
        funext x
        simp only [memcpy, if_pos hnpos, Nat.zero_add, Nat.add_zero, ← hlen]
        by_cases hx : bpos ≤ x ∧ x < bpos + len
        · rw [if_pos hx, if_pos hx, hsame _ (by omega)]
        · rw [if_neg hx, if_neg hx]
      · -- the first page reads, the loop goes on
        have hc0 : fl.corrupt (page_of cfg addr) = false := by
          have := hcor 0 hmpos
          rwa [Nat.add_zero] at this
        rw [if_neg (by rw [hc0]; decide)]
        have hlm : len ≤ m := by
          by_contra hcon
          have hmn : m < n := by omega
          obtain ⟨_, h2⟩ := hfail hmn
          rcases h2 with h2 | h2
          · omega
          · obtain ⟨_, h4⟩ := page_of_same hwf addr m (by omega)
            omega
        have hIH := ih (fl.staged cfg (page_of cfg addr) buffers)
          (memcpy buf bpos (fl.staged cfg (page_of cfg addr) buffers)
            (addr % cfg.CFG_PAGESIZE) len)
          (bpos + len) ((page_of cfg addr + 1) * cfg.CFG_PAGESIZE) (retlen + len) (n - len)
          (m - len) (by omega) (by omega)
          (by
            intro i hi
            rw [page_of_congr cfg _ _ (hshift (by omega) i)]
            exact hcor _ (by omega))
          (by
            intro hmn
            obtain ⟨h1, h2⟩ := hfail (by omega)
            have e : addr + (len + (m - len)) = addr + m := by omega
            have hs := hshift (by omega) (m - len)
            rw [e] at hs
            refine ⟨by rw [page_of_congr cfg _ _ hs]; exact h1, ?_⟩
            rcases h2 with h2 | h2
            · omega
            · right
              have ha := Nat.mod_mod_of_dvd ((page_of cfg addr + 1) * cfg.CFG_PAGESIZE + (m - len))
                hwf.ps_dvd_chip
              have hb := Nat.mod_mod_of_dvd (addr + m) hwf.ps_dvd_chip
              rw [← ha, hs, hb, h2])
          (by
            intro hcc a i hi ha
            exact htag hcc a (len + i) (by omega) (by rw [ha, hshift (by omega) i]))
        rw [hIH]
        have hmod : len < n → ((page_of cfg addr + 1) * cfg.CFG_PAGESIZE + (m - len)) % cfg.CFG_PAGESIZE
            = (addr + m) % cfg.CFG_PAGESIZE := by
          intro hl
          have e : addr + (len + (m - len)) = addr + m := by omega
          have hs := hshift hl (m - len)
          rw [e] at hs
          have ha := Nat.mod_mod_of_dvd ((page_of cfg addr + 1) * cfg.CFG_PAGESIZE + (m - len))
            hwf.ps_dvd_chip
          have hb := Nat.mod_mod_of_dvd (addr + m) hwf.ps_dvd_chip
          rw [← ha, hs, hb]
        by_cases hmn : m < n
        · have hmn' : m - len < n - len := by omega
          have hmod' := hmod (by omega)
          rw [if_pos hmn, if_pos hmn']
          congr 3
          funext x
          simp only [if_pos hmn, if_pos hmn', hmod', memcpy]
          have hltm : (addr + m) % cfg.CFG_PAGESIZE < cfg.CFG_PAGESIZE := Nat.mod_lt _ hps
          by_cases hx1 : bpos ≤ x ∧ x < bpos + len
          · rw [if_neg (by omega), if_pos hx1, if_pos (by omega), hsame _ (by omega)]
          · by_cases hx2 : bpos + len ≤ x ∧ x < bpos + len
                + min (n - len) (m - len + (cfg.CFG_PAGESIZE - (addr + m) % cfg.CFG_PAGESIZE))
            · rw [if_pos hx2, if_pos (by omega)]
              have e : addr + (x - bpos) = addr + (len + (x - (bpos + len))) := by omega
              rw [e]
              exact Flash.byte_congr hwf fl _ _ (hshift (by omega) _)
            · rw [if_neg hx2, if_neg hx1, if_neg (by omega)]
        · have hmn' : ¬ (m - len < n - len) := by omega
          rw [if_neg hmn, if_neg hmn']
          have e0 : retlen + len + (n - len) = retlen + n := by omega
          rw [e0]
          congr 3
          funext x
          simp only [if_neg hmn, if_neg hmn', memcpy]
          by_cases hx1 : bpos ≤ x ∧ x < bpos + len
          · rw [if_neg (by omega), if_pos hx1, if_pos (by omega), hsame _ (by omega)]
          · by_cases hx2 : bpos + len ≤ x ∧ x < bpos + len + (n - len)
            · rw [if_pos hx2, if_pos (by omega)]
              have e : addr + (x - bpos) = addr + (len + (x - (bpos + len))) := by omega
              rw [e]
              exact Flash.byte_congr hwf fl _ _ (hshift (by omega) _)
            · rw [if_neg hx2, if_neg hx1, if_neg (by omega)]

/-- One iteration of the loop of `ranand_write` when the write-protect check passes and the
page write succeeds. -/
theorem write_step {cfg : Cfg} (h : cfg.WF) (L : PageLayer σ) (src : Mem) (fuel : Nat)
    (buffers : Mem) (bpos addr retlen : Nat) (datalen : Int) (hpos : 0 < datalen)
    (s s1 s2 : σ) (b1 : Mem)
    (hwp : L.nfc_check_wp s = some (0, s1))
    (hwr : L.nfc_write_page
        (write_staged cfg buffers src (addr % cfg.CFG_PAGESIZE) bpos
          (min datalen ((cfg.CFG_PAGESIZE : Int) - (addr % cfg.CFG_PAGESIZE : Nat))).toNat)
        (page_of cfg addr : Int) s1 = some ((0, b1), s2)) :
    ranand_write_loop cfg L src (fuel + 1) buffers bpos addr datalen retlen s
      = ranand_write_loop cfg L src fuel b1
          (bpos + (min datalen ((cfg.CFG_PAGESIZE : Int) - (addr % cfg.CFG_PAGESIZE : Nat))).toNat)
          ((page_of cfg addr + 1) * cfg.CFG_PAGESIZE)
          (datalen - min datalen ((cfg.CFG_PAGESIZE : Int) - (addr % cfg.CFG_PAGESIZE : Nat)))
          (retlen + (min datalen ((cfg.CFG_PAGESIZE : Int) - (addr % cfg.CFG_PAGESIZE : Nat))).toNat)
          s2 := by
  have hlt : addr % cfg.CFG_PAGESIZE < cfg.CFG_PAGESIZE := Nat.mod_lt _ h.ps_pos
  have hlen : 0 < min datalen ((cfg.CFG_PAGESIZE : Int) - (addr % cfg.CFG_PAGESIZE : Nat)) := by
    omega
  have hne : datalen ≠ 0 := by omega
  unfold write_staged at hwr
  rw [ranand_write_loop]
  simp only [step_page h, step_offs h, step_next h, if_pos hne, M.ite_run, M.bind_run,
    M.pure_run, Option.some_bind, Int.toNat_ofNat, hwp, hlen, gt_iff_lt, decide_True, if_true,
    ne_eq, not_true_eq_false, if_false, hwr]


/-- An address at least a page end and less than a chip size further lies in another page. -/
theorem page_of_ne {cfg : Cfg} (hwf : cfg.WF) (addr j : Nat)
    (h1 : cfg.CFG_PAGESIZE ≤ addr % cfg.CFG_PAGESIZE + j)
    (h2 : addr % cfg.CFG_PAGESIZE + j < cfg.CFG_CHIPSIZE) :
    page_of cfg (addr + j) ≠ page_of cfg addr := by
  have hps := hwf.ps_pos
  have hchip := hwf.chip_pos
  have hA : addr % cfg.CFG_CHIPSIZE % cfg.CFG_PAGESIZE = addr % cfg.CFG_PAGESIZE :=
    Nat.mod_mod_of_dvd _ hwf.ps_dvd_chip
  have hdm := Nat.div_add_mod (addr % cfg.CFG_CHIPSIZE) cfg.CFG_PAGESIZE
  rw [hA] at hdm
  have hAlt : addr % cfg.CFG_CHIPSIZE < cfg.CFG_CHIPSIZE := Nat.mod_lt _ hchip
  have hmod : (addr + j) % cfg.CFG_CHIPSIZE = (addr % cfg.CFG_CHIPSIZE + j) % cfg.CFG_CHIPSIZE :=
    (Nat.mod_add_mod addr cfg.CFG_CHIPSIZE j).symm
  unfold page_of
  rw [hmod]
  generalize hP : addr % cfg.CFG_CHIPSIZE / cfg.CFG_PAGESIZE = P at hdm
  generalize addr % cfg.CFG_CHIPSIZE = A at hdm hAlt
  generalize addr % cfg.CFG_PAGESIZE = o at hdm h1 h2
  by_cases hc : A + j < cfg.CFG_CHIPSIZE
  · rw [Nat.mod_eq_of_lt hc]
    have : P + 1 ≤ (A + j) / cfg.CFG_PAGESIZE := by
      rw [Nat.le_div_iff_mul_le hps]
      have e : (P + 1) * cfg.CFG_PAGESIZE = cfg.CFG_PAGESIZE * P + cfg.CFG_PAGESIZE := by ring
      omega
    omega
  · have e : (A + j) % cfg.CFG_CHIPSIZE = A + j - cfg.CFG_CHIPSIZE := by
      rw [Nat.mod_eq_sub_mod (by omega)]
      exact Nat.mod_eq_of_lt (by omega)
    rw [e]
    have : (A + j - cfg.CFG_CHIPSIZE) / cfg.CFG_PAGESIZE < P := by
      rw [Nat.div_lt_iff_lt_mul hps]
      have e2 : P * cfg.CFG_PAGESIZE = cfg.CFG_PAGESIZE * P := Nat.mul_comm _ _
      omega
    omega

theorem flash_write_page {cfg : Cfg} (h : cfg.WF) (fl : Flash) (a : Nat) (b : Mem) :
    (flashLayer cfg).nfc_write_page b (page_of cfg a : Int) fl
      = some ((0, b), fl.store cfg (page_of cfg a) b) := by
  show some _ = some _
  rw [chip_page_page_of h]

/-- The write loop on the flash model. -/
theorem flash_write_loop {cfg : Cfg} (hwf : cfg.WF) (src : Mem) :
    ∀ (fuel : Nat) (buffers : Mem) (bpos addr retlen n : Nat) (fl : Flash),
      n < fuel → fl.wp = false →
      ∃ fl1, ranand_write_loop cfg (flashLayer cfg) src fuel buffers bpos addr n retlen fl
          = some (i32 ((retlen + n : Nat) : Int), fl1)
        ∧ fl1.wp = false ∧ fl1.corrupt = fl.corrupt
        ∧ (∀ q : Int, (∀ i, i < n → (page_of cfg (addr + i) : Int) ≠ q) →
            fl1.pages q = fl.pages q)
        ∧ (∀ i, i < n → fl1.pages (page_of cfg (addr + i))
            (cfg.CFG_PAGESIZE + cfg.CONFIG_BAD_BLOCK_POS) = 0xff)
        ∧ (addr % cfg.CFG_PAGESIZE + n ≤ cfg.CFG_CHIPSIZE →
            ∀ i, i < n → fl1.byte cfg (addr + i) = src (bpos + i)) := by
  intro fuel
  induction fuel with
  | zero => intro _ _ _ _ n _ hn; omega
  | succ f ih =>
    intro buffers bpos addr retlen n fl hn hwp
    have hps := hwf.ps_pos
    have hlt : addr % cfg.CFG_PAGESIZE < cfg.CFG_PAGESIZE := Nat.mod_lt _ hps
    rcases Nat.eq_zero_or_pos n with hn0 | hnpos
    · subst hn0
      refine ⟨fl, ?_, hwp, rfl, fun _ _ => rfl, fun i hi => by omega, fun _ i hi => by omega⟩
      rw [ranand_write_loop]
      simp
    · obtain ⟨len, hlen⟩ : ∃ len : Nat, len = min n (cfg.CFG_PAGESIZE - addr % cfg.CFG_PAGESIZE) :=
        ⟨_, rfl⟩
      have hlen1 : 1 ≤ len := by omega
      have hlenn : len ≤ n := by omega
      have hlenp : addr % cfg.CFG_PAGESIZE + len ≤ cfg.CFG_PAGESIZE := by omega
      have hlenI : min (n : Int) ((cfg.CFG_PAGESIZE : Int) - (addr % cfg.CFG_PAGESIZE : Nat))
          = (len : Int) := by omega
      have hsubI : (n : Int) - (len : Int) = ((n - len : Nat) : Int) := by omega
      have hcw : (flashLayer cfg).nfc_check_wp fl = some (0, fl) := by
        show some _ = some _
        rw [hwp]; rfl
      have hstep := write_step hwf (flashLayer cfg) src f buffers bpos addr retlen (n : Int)
        (by exact_mod_cast hnpos) fl fl _ _ hcw (flash_write_page hwf fl addr _)
      rw [hstep, hlenI, hsubI]
      simp only [Int.toNat_ofNat]
      generalize hst : write_staged cfg buffers src (addr % cfg.CFG_PAGESIZE) bpos len = st
      obtain ⟨fl1, hrun, hwp1, hcor1, hframe, htags, hbytes⟩ :=
        ih st (bpos + len) ((page_of cfg addr + 1) * cfg.CFG_PAGESIZE) (retlen + len) (n - len)
          (fl.store cfg (page_of cfg addr) st) (by omega) hwp
      have hshift : len < n → ∀ j,
          ((page_of cfg addr + 1) * cfg.CFG_PAGESIZE + j) % cfg.CFG_CHIPSIZE
            = (addr + (len + j)) % cfg.CFG_CHIPSIZE := by
        intro hl j
        have e : len = cfg.CFG_PAGESIZE - addr % cfg.CFG_PAGESIZE := by omega
        rw [next_congr hwf addr j, e, Nat.add_assoc]
      have hsttag : st (cfg.CFG_PAGESIZE + cfg.CONFIG_BAD_BLOCK_POS) = 0xff := by
        have hb := hwf.badpos
        rw [← hst]
        unfold write_staged memcpy memset
        rw [if_neg (by omega), if_pos (by omega)]
      have hstore : ∀ j, j < cfg.CFG_PAGESIZE + cfg.CFG_PAGE_OOBSIZE →
          (fl.store cfg (page_of cfg addr) st).pages (page_of cfg addr) j = st j := by
        intro j hj
        simp only [Flash.store, if_true, if_pos hj]
      have hstore_ne : ∀ q : Int, q ≠ (page_of cfg addr : Int) →
          (fl.store cfg (page_of cfg addr) st).pages q = fl.pages q := by
        intro q hq
        simp only [Flash.store, if_neg hq]
      refine ⟨fl1, ?_, hwp1, hcor1, ?_, ?_, ?_⟩
      · rw [hrun]
        have e0 : retlen + len + (n - len) = retlen + n := by omega
        rw [e0]
      · intro q hq
        rw [hframe q ?_, hstore_ne q ?_]
        · have := hq 0 hnpos
          rw [Nat.add_zero] at this
          exact fun e => this e.symm
        · intro i hi
          rw [page_of_congr cfg _ _ (hshift (by omega) i)]
          exact hq _ (by omega)
      · intro i hi
        by_cases hex : ∃ i', i' < n - len ∧
            page_of cfg ((page_of cfg addr + 1) * cfg.CFG_PAGESIZE + i') = page_of cfg (addr + i)
        · obtain ⟨i', hi', he⟩ := hex
          rw [← he]
          exact htags i' hi'
        · have hil : i < len := by
            by_contra hcon
            apply hex
            refine ⟨i - len, by omega, ?_⟩
            rw [page_of_congr cfg _ _ (hshift (by omega) (i - len))]
            congr 2; omega
          have hP : page_of cfg (addr + i) = page_of cfg addr :=
            (page_of_same hwf addr i (by omega)).1
          rw [hP, hframe _ ?_, hstore _ (by have := hwf.badpos; omega), hsttag]
          intro i' hi' he
          apply hex
          exact ⟨i', hi', by rw [hP]; exact_mod_cast he⟩
      · intro hfit i hi
        by_cases hil : i < len
        · obtain ⟨hP, ho⟩ := page_of_same hwf addr i (by omega)
          unfold Flash.byte
          rw [hP, ho, hframe _ ?_, hstore _ (by omega), ← hst]
          · unfold write_staged memcpy
            rw [if_pos (by omega)]
            congr 1; omega
          · intro i' hi' he
            have hne := page_of_ne hwf addr (len + i') (by omega) (by omega)
            apply hne
            rw [← page_of_congr cfg _ _ (hshift (by omega) i')]
            exact_mod_cast he
        · have e : addr + i = addr + (len + (i - len)) := by omega
          rw [e, ← Flash.byte_congr hwf fl1 _ _ (hshift (by omega) (i - len))]
          have hz : (page_of cfg addr + 1) * cfg.CFG_PAGESIZE % cfg.CFG_PAGESIZE = 0 :=
            Nat.mul_mod_left _ _
          rw [hbytes (by rw [hz]; omega) (i - len) (by omega)]
          congr 1; omega

theorem oneBlockCfg_wf : oneBlockCfg.WF :=
  ⟨rfl, rfl, rfl, ⟨0, rfl⟩, by decide, by decide⟩

theorem write_count_step {cfg : Cfg} (hwf : cfg.WF) (addr n len : Nat) (hn : 0 < n)
    (hlen : len = min n (cfg.CFG_PAGESIZE - addr % cfg.CFG_PAGESIZE)) :
    write_count cfg addr n
      = write_count cfg ((page_of cfg addr + 1) * cfg.CFG_PAGESIZE) (n - len) + 1 := by
  have hps := hwf.ps_pos
  have hlt : addr % cfg.CFG_PAGESIZE < cfg.CFG_PAGESIZE := Nat.mod_lt _ hps
  have hz : (page_of cfg addr + 1) * cfg.CFG_PAGESIZE % cfg.CFG_PAGESIZE = 0 :=
    Nat.mul_mod_left _ _
  unfold write_count
  rw [hz, Nat.zero_add, if_neg (by omega)]
  by_cases hc : n ≤ cfg.CFG_PAGESIZE - addr % cfg.CFG_PAGESIZE
  · have e : n - len = 0 := by omega
    rw [if_pos e]
    have h1 : (addr % cfg.CFG_PAGESIZE + n - 1) / cfg.CFG_PAGESIZE = 0 :=
      Nat.div_eq_of_lt (by omega)
    rw [h1]
  · have e : ¬ (n - len = 0) := by omega
    rw [if_neg e]
    have e3 : addr % cfg.CFG_PAGESIZE + n - 1 = (n - len - 1) + cfg.CFG_PAGESIZE := by omega
    rw [e3, Nat.add_div_right _ hps]

theorem page_of_lt {cfg : Cfg} (hwf : cfg.WF) (a : Nat) :
    page_of cfg a < cfg.CFG_CHIPSIZE / cfg.CFG_PAGESIZE := by
  have hps := hwf.ps_pos
  unfold page_of
  rw [Nat.div_lt_iff_lt_mul hps, Nat.div_mul_cancel hwf.ps_dvd_chip]
  exact Nat.mod_lt _ hwf.chip_pos

theorem page_of_next {cfg : Cfg} (hwf : cfg.WF) (a : Nat) :
    page_of cfg ((page_of cfg a + 1) * cfg.CFG_PAGESIZE)
      = (page_of cfg a + 1) % (cfg.CFG_CHIPSIZE / cfg.CFG_PAGESIZE) := by
  have hps := hwf.ps_pos
  have hc : cfg.CFG_CHIPSIZE = cfg.CFG_PAGESIZE * (cfg.CFG_CHIPSIZE / cfg.CFG_PAGESIZE) :=
    (Nat.mul_div_cancel' hwf.ps_dvd_chip).symm
  generalize page_of cfg a + 1 = Q
  unfold page_of
  generalize cfg.CFG_CHIPSIZE / cfg.CFG_PAGESIZE = c at hc ⊢
  rw [hc, Nat.mod_mul_right_div_self, Nat.mul_div_cancel _ hps]

theorem write_page_index_zero {cfg : Cfg} (hwf : cfg.WF) (addr : Nat) :
    write_page_index cfg addr 0 = page_of cfg addr := by
  unfold write_page_index
  rw [Nat.add_zero, Nat.mod_eq_of_lt (page_of_lt hwf addr)]

theorem write_page_index_succ {cfg : Cfg} (hwf : cfg.WF) (addr k : Nat) :
    write_page_index cfg addr (k + 1)
      = write_page_index cfg ((page_of cfg addr + 1) * cfg.CFG_PAGESIZE) k := by
  unfold write_page_index
  rw [page_of_next hwf, Nat.mod_add_mod]
  congr 1; omega

theorem write_staged_eq_image {cfg : Cfg} (hwf : cfg.WF) (buffers junk src : Mem)
    (addr bpos n len : Nat)
    (hlen : len = min n (cfg.CFG_PAGESIZE - addr % cfg.CFG_PAGESIZE))
    (hj : ∀ j, cfg.CFG_PAGESIZE + cfg.CFG_PAGE_OOBSIZE ≤ j → buffers j = junk j) :
    write_staged cfg buffers src (addr % cfg.CFG_PAGESIZE) bpos len
      = write_image cfg junk src addr bpos n 0 := by
  have hps := hwf.ps_pos
  have hlt : addr % cfg.CFG_PAGESIZE < cfg.CFG_PAGESIZE := Nat.mod_lt _ hps
  funext j
  unfold write_staged write_image memcpy memset
  simp only [Nat.zero_mul, Nat.zero_add]
  by_cases h1 : addr % cfg.CFG_PAGESIZE ≤ j ∧ j < addr % cfg.CFG_PAGESIZE + len
  · rw [if_pos h1, if_pos (by omega), if_pos (by omega)]
  · rw [if_neg h1]
    by_cases h2 : j < cfg.CFG_PAGESIZE + cfg.CFG_PAGE_OOBSIZE
    · rw [if_pos h2, if_pos h2, if_neg (by omega)]
    · rw [if_neg h2, if_neg h2, hj j (by omega)]

theorem write_image_succ {cfg : Cfg} (hwf : cfg.WF) (junk src : Mem) (addr bpos n len k : Nat)
    (hlen : len = cfg.CFG_PAGESIZE - addr % cfg.CFG_PAGESIZE) (hn : len ≤ n) :
    write_image cfg junk src addr bpos n (k + 1)
      = write_image cfg junk src ((page_of cfg addr + 1) * cfg.CFG_PAGESIZE) (bpos + len)
          (n - len) k := by
  have hps := hwf.ps_pos
  have hlt : addr % cfg.CFG_PAGESIZE < cfg.CFG_PAGESIZE := Nat.mod_lt _ hps
  funext j
  unfold write_image
  rw [Nat.mul_mod_left]
  have e : (k + 1) * cfg.CFG_PAGESIZE = k * cfg.CFG_PAGESIZE + cfg.CFG_PAGESIZE := Nat.succ_mul _ _
  rw [e]
  generalize k * cfg.CFG_PAGESIZE = kp
  by_cases h2 : j < cfg.CFG_PAGESIZE + cfg.CFG_PAGE_OOBSIZE
  · rw [if_pos h2, if_pos h2]
    by_cases h3 : j < cfg.CFG_PAGESIZE ∧ 0 ≤ kp + j ∧ kp + j < 0 + (n - len)
    · rw [if_pos h3, if_pos (by omega)]
      congr 1; omega
    · rw [if_neg h3, if_neg (by omega)]
  · rw [if_neg h2, if_neg h2]


theorem issue_page_writes_cons (L : PageLayer σ) (w : Mem × Int) (rest : List (Mem × Int))
    (s s1 s2 : σ) (r1 : Int) (r2 : Int × Mem)
    (h1 : L.nfc_check_wp s = some (r1, s1)) (h2 : L.nfc_write_page w.1 w.2 s1 = some (r2, s2)) :
    issue_page_writes L (w :: rest) s = issue_page_writes L rest s2 := by
  rw [issue_page_writes]
  simp only [M.bind_run, h1, Option.some_bind, h2]

theorem write_plan_step {cfg : Cfg} (hwf : cfg.WF) (junk src : Mem) (addr bpos n len : Nat)
    (hn : 0 < n) (hlen : len = min n (cfg.CFG_PAGESIZE - addr % cfg.CFG_PAGESIZE)) :
    write_plan cfg junk src addr bpos n
      = (write_image cfg junk src addr bpos n 0, (page_of cfg addr : Int))
        :: write_plan cfg junk src ((page_of cfg addr + 1) * cfg.CFG_PAGESIZE) (bpos + len)
            (n - len) := by
  have hps := hwf.ps_pos
  have hlt : addr % cfg.CFG_PAGESIZE < cfg.CFG_PAGESIZE := Nat.mod_lt _ hps
  unfold write_plan
  rw [write_count_step hwf addr n len hn hlen, List.range_succ_eq_map, List.map_cons,
    List.map_map, write_page_index_zero hwf]
  congr 1
  apply List.map_congr_left
  intro k hk
  rw [List.mem_range] at hk
  have hpos : 0 < write_count cfg ((page_of cfg addr + 1) * cfg.CFG_PAGESIZE) (n - len) := by
    omega
  have hnl : n - len ≠ 0 := by
    intro h0
    unfold write_count at hpos
    rw [if_pos h0] at hpos
    omega
  simp only [Function.comp, Nat.succ_eq_add_one]
  rw [write_page_index_succ hwf, write_image_succ hwf junk src addr bpos n len k (by omega)
    (by omega)]

/-- The loop of `ranand_write` issues the page writes of `write_plan`, over any page layer
on which the write-protect check passes and page writes succeed. -/
theorem write_loop_plan {cfg : Cfg} (hwf : cfg.WF) (L : PageLayer σ) (Inv : σ → Prop)
    (junk src : Mem)
    (hwp : ∀ t, Inv t → ∃ t1, L.nfc_check_wp t = some (0, t1) ∧ Inv t1)
    (hwr : ∀ b p t, Inv t → ∃ t1, L.nfc_write_page b p t = some ((0, b), t1) ∧ Inv t1) :
    ∀ (fuel : Nat) (buffers : Mem) (bpos addr retlen n : Nat) (s : σ),
      n < fuel → Inv s →
      (∀ j, cfg.CFG_PAGESIZE + cfg.CFG_PAGE_OOBSIZE ≤ j → buffers j = junk j) →
      ∃ s1, ranand_write_loop cfg L src fuel buffers bpos addr n retlen s
          = some (i32 ((retlen + n : Nat) : Int), s1)
        ∧ issue_page_writes L (write_plan cfg junk src addr bpos n) s = some ((), s1)
        ∧ Inv s1 := by
  intro fuel
  induction fuel with
  | zero => intro _ _ _ _ n _ hn; omega
  | succ f ih =>
    intro buffers bpos addr retlen n s hn hinv hjunk
    have hps := hwf.ps_pos
    have hlt : addr % cfg.CFG_PAGESIZE < cfg.CFG_PAGESIZE := Nat.mod_lt _ hps
    rcases Nat.eq_zero_or_pos n with hn0 | hnpos
    · subst hn0
      refine ⟨s, ?_, ?_, hinv⟩
      · rw [ranand_write_loop]
        simp
      · unfold write_plan write_count
        rw [if_pos rfl]
        rfl
    · obtain ⟨len, hlen⟩ : ∃ len : Nat, len = min n (cfg.CFG_PAGESIZE - addr % cfg.CFG_PAGESIZE) :=
        ⟨_, rfl⟩
      have hlenI : min (n : Int) ((cfg.CFG_PAGESIZE : Int) - (addr % cfg.CFG_PAGESIZE : Nat))
          = (len : Int) := by omega
      have hsubI : (n : Int) - (len : Int) = ((n - len : Nat) : Int) := by omega
      obtain ⟨s1, h1, hinv1⟩ := hwp s hinv
      obtain ⟨s2, h2, hinv2⟩ := hwr
        (write_staged cfg buffers src (addr % cfg.CFG_PAGESIZE) bpos len)
        (page_of cfg addr : Int) s1 hinv1
      have himg := write_staged_eq_image hwf buffers junk src addr bpos n len hlen hjunk
      have hstep := write_step hwf L src f buffers bpos addr retlen (n : Int)
        (by exact_mod_cast hnpos) s s1 s2
        (write_staged cfg buffers src (addr % cfg.CFG_PAGESIZE) bpos len) h1
        (by rw [hlenI]; exact h2)
      rw [hstep, hlenI, hsubI]
      simp only [Int.toNat_ofNat]
      obtain ⟨s3, hrun, hplan, hinv3⟩ :=
        ih (write_staged cfg buffers src (addr % cfg.CFG_PAGESIZE) bpos len) (bpos + len)
          ((page_of cfg addr + 1) * cfg.CFG_PAGESIZE) (retlen + len) (n - len) s2 (by omega)
          hinv2
          (by
            intro j hj
            rw [himg]
            unfold write_image
            rw [if_neg (by omega)])
      refine ⟨s3, ?_, ?_, hinv3⟩
      · rw [hrun]
        have e0 : retlen + len + (n - len) = retlen + n := by omega
        rw [e0]
      · rw [write_plan_step hwf junk src addr bpos n len hnpos hlen]
        rw [issue_page_writes_cons L _ _ s s1 s2 0 (0, _) h1 (by rw [← himg]; exact h2)]
        exact hplan

theorem write_image_at {cfg : Cfg} (hwf : cfg.WF) (junk src : Mem) (addr n i : Nat)
    (hi : i < n) :
    write_image cfg junk src addr 0 n ((addr % cfg.CFG_PAGESIZE + i) / cfg.CFG_PAGESIZE)
      ((addr + i) % cfg.CFG_PAGESIZE) = src i := by
  have hps := hwf.ps_pos
  have hj : (addr + i) % cfg.CFG_PAGESIZE < cfg.CFG_PAGESIZE := Nat.mod_lt _ hps
  have hmod : (addr + i) % cfg.CFG_PAGESIZE = (addr % cfg.CFG_PAGESIZE + i) % cfg.CFG_PAGESIZE :=
    (Nat.mod_add_mod addr cfg.CFG_PAGESIZE i).symm
  have hdm := Nat.div_add_mod (addr % cfg.CFG_PAGESIZE + i) cfg.CFG_PAGESIZE
  rw [← hmod, Nat.mul_comm] at hdm
  unfold write_image
  rw [if_pos (by omega), if_pos (by omega), Nat.zero_add]
  congr 1; omega

theorem write_page_index_at {cfg : Cfg} (hwf : cfg.WF) (addr i : Nat) :
    write_page_index cfg addr ((addr % cfg.CFG_PAGESIZE + i) / cfg.CFG_PAGESIZE)
      = page_of cfg (addr + i) := by
  have hps := hwf.ps_pos
  have hc : cfg.CFG_CHIPSIZE = cfg.CFG_PAGESIZE * (cfg.CFG_CHIPSIZE / cfg.CFG_PAGESIZE) :=
    (Nat.mul_div_cancel' hwf.ps_dvd_chip).symm
  unfold write_page_index page_of
  generalize cfg.CFG_CHIPSIZE / cfg.CFG_PAGESIZE = c at hc ⊢
  rw [hc, Nat.mod_mul_right_div_self, Nat.mod_mul_right_div_self, Nat.mod_add_mod]
  congr 1
  have e : addr + i = addr % cfg.CFG_PAGESIZE + i + cfg.CFG_PAGESIZE * (addr / cfg.CFG_PAGESIZE) := by
    have := Nat.mod_add_div addr cfg.CFG_PAGESIZE
    omega
  rw [e, Nat.add_mul_div_left _ _ hps, Nat.add_comm]

theorem write_image_erased {cfg : Cfg} (hwf : cfg.WF) (junk src : Mem) (addr n k j : Nat)
    (hj : j < cfg.CFG_PAGESIZE + cfg.CFG_PAGE_OOBSIZE)
    (hno : ¬ ∃ i, i < n ∧ (addr % cfg.CFG_PAGESIZE + i) / cfg.CFG_PAGESIZE = k
      ∧ (addr + i) % cfg.CFG_PAGESIZE = j) :
    write_image cfg junk src addr 0 n k j = 0xff := by
  have hps := hwf.ps_pos
  unfold write_image
  rw [if_pos hj]
  by_cases hc : j < cfg.CFG_PAGESIZE ∧ addr % cfg.CFG_PAGESIZE ≤ k * cfg.CFG_PAGESIZE + j
      ∧ k * cfg.CFG_PAGESIZE + j < addr % cfg.CFG_PAGESIZE + n
  · exfalso
    apply hno
    refine ⟨k * cfg.CFG_PAGESIZE + j - addr % cfg.CFG_PAGESIZE, by omega, ?_, ?_⟩
    · have e : addr % cfg.CFG_PAGESIZE + (k * cfg.CFG_PAGESIZE + j - addr % cfg.CFG_PAGESIZE)
          = j + cfg.CFG_PAGESIZE * k := by
        have hk : cfg.CFG_PAGESIZE * k = k * cfg.CFG_PAGESIZE := Nat.mul_comm _ _
        omega
      rw [e, Nat.add_mul_div_left _ _ hps, Nat.div_eq_of_lt hc.1, Nat.zero_add]
    · have hmod := (Nat.mod_add_mod addr cfg.CFG_PAGESIZE
        (k * cfg.CFG_PAGESIZE + j - addr % cfg.CFG_PAGESIZE)).symm
      have e : addr % cfg.CFG_PAGESIZE + (k * cfg.CFG_PAGESIZE + j - addr % cfg.CFG_PAGESIZE)
          = j + cfg.CFG_PAGESIZE * k := by
        have hk : cfg.CFG_PAGESIZE * k = k * cfg.CFG_PAGESIZE := Nat.mul_comm _ _
        omega
      rw [hmod, e, Nat.add_mul_mod_self_left, Nat.mod_eq_of_lt hc.1]
  · rw [if_neg hc]

theorem u32_small (x : Int) (h0 : 0 ≤ x) (h1 : x < 4294967296) : ((u32 x : Nat) : Int) = x := by
  unfold u32; omega

theorem Cfg.WF.bs_pos {cfg : Cfg} (h : cfg.WF) : 0 < cfg.CFG_BLOCKSIZE := by
  rw [h.blocksize]; exact Nat.two_pow_pos _

theorem Cfg.WF.bs_le {cfg : Cfg} (h : cfg.WF) : cfg.CFG_BLOCKSIZE ≤ 1073741824 := by
  obtain ⟨k, hk⟩ := h.chipsize
  have h1 := h.chipmax
  have : cfg.CFG_BLOCKSIZE ≤ 2 ^ k * cfg.CFG_BLOCKSIZE :=
    Nat.le_mul_of_pos_left _ (Nat.two_pow_pos k)
  omega

theorem blockmask_eq {cfg : Cfg} (h : cfg.WF) :
    u32 ((cfg.CFG_BLOCKSIZE : Int) - 1) = cfg.CFG_BLOCKSIZE - 1 := by
  have h1 := h.bs_pos
  have h2 := h.bs_le
  have := u32_small ((cfg.CFG_BLOCKSIZE : Int) - 1) (by omega) (by omega)
  omega

/-- The block address `offs & ~blockmask` is the start of the block holding `offs`. -/
theorem block_start {cfg : Cfg} (hwf : cfg.WF) (offs : Nat) (h : offs < 4294967296) :
    offs &&& bnot32 (cfg.CFG_BLOCKSIZE - 1) = offs - offs % cfg.CFG_BLOCKSIZE := by
  have hle := hwf.blocksize_le
  rw [hwf.blocksize]
  generalize cfg.CONFIG_PAGE_SIZE_BIT + cfg.CONFIG_NUMPAGE_PER_BLOCK_BIT = k at hle
  have hk : 2 ^ k ≤ 2 ^ 30 := Nat.pow_le_pow_right (by decide) hle
  have hkpos : 0 < 2 ^ k := Nat.two_pow_pos k
  have e1 : bnot32 (2 ^ k - 1) = 2 ^ 32 - (2 ^ k - 1 + 1) := by
    unfold bnot32
    rw [Nat.mod_eq_of_lt (by omega)]
    omega
  have e2 : offs - offs % 2 ^ k = 2 ^ k * (offs / 2 ^ k) := by
    have := Nat.div_add_mod offs (2 ^ k)
    omega
  rw [e1, e2]
  apply Nat.eq_of_testBit_eq
  intro i
  rw [Nat.testBit_and, Nat.testBit_two_pow_sub_succ (by omega), Nat.testBit_two_pow_sub_one,
    Nat.testBit_mul_pow_two, ← Nat.shiftRight_eq_div_pow, Nat.testBit_shiftRight]
  by_cases h1 : i < k
  · have h2 : ¬ (i ≥ k) := by omega
    simp [h1, h2]
  · have h2 : i ≥ k := by omega
    have e3 : k + (i - k) = i := by omega
    by_cases h3 : i < 32
    · simp [h1, h2, h3, e3]
    · have h5 : (2 : Nat) ^ 32 ≤ 2 ^ i := Nat.pow_le_pow_right (by decide) (by omega)
      have h4 : offs.testBit i = false := Nat.testBit_lt_two_pow (by omega)
      simp [h1, h2, h3, e3, h4]

/-- A read of `n` bytes on the flash model when no page of the range fails and no probed
tag is bad. -/
theorem flash_read_all {cfg : Cfg} (hwf : cfg.WF) (fl : Flash) (out : Mem) (addr n fuel : Nat)
    (hfuel : n < fuel) (hn : n < 2147483648)
    (hcor : ∀ i, i < n → fl.corrupt (page_of cfg (addr + i)) = false)
    (hbad : cfg.CONFIG_BADBLOCK_CHECK = true →
      ∀ a i, i < n → a % cfg.CFG_CHIPSIZE = (addr + i) % cfg.CFG_CHIPSIZE → fl.tag_ok cfg a) :
    ranand_read cfg (flashLayer cfg) fuel (some out) addr n fl
      = some (((n : Int), fun x => if x < n then fl.byte cfg (addr + x) else out x), fl) := by
  show ranand_read_loop cfg (flashLayer cfg) fuel _ out 0 addr n 0 fl = _
  rw [flash_read_loop hwf fl fuel _ out 0 addr 0 n n hfuel (le_refl _) hcor
    (by intro h; omega) hbad]
  rw [if_neg (by omega), Nat.zero_add, i32_small _ (by omega) (by omega)]
  refine congrArg some (Prod.ext (Prod.ext rfl (funext fun x => ?_)) rfl)
  simp only [if_neg (lt_irrefl n), Nat.zero_add, Nat.zero_le, true_and, Nat.sub_zero]

/-- A write of `n` bytes on the unprotected flash model returns `n`. -/
theorem flash_write_all {cfg : Cfg} (hwf : cfg.WF) (fl : Flash) (src : Mem) (addr n fuel : Nat)
    (hfuel : n < fuel) (hn : n < 2147483648) (hwp : fl.wp = false) :
    ∃ fl1, ranand_write cfg (flashLayer cfg) fuel (some src) addr n fl = some ((n : Int), fl1) := by
  obtain ⟨fl1, hrun, _⟩ :=
    flash_write_loop hwf src fuel (flashLayer cfg).uninit 0 addr 0 n fl hfuel hwp
  refine ⟨fl1, ?_⟩
  show ranand_write_loop cfg (flashLayer cfg) src fuel _ 0 addr n 0 fl = _
  rw [hrun, Nat.zero_add, i32_small _ (by omega) (by omega)]

theorem countP_range_succ (p : Nat → Bool) (m : Nat) :
    (List.range (m + 1)).countP p
      = (if p 0 then 1 else 0) + (List.range m).countP (fun i => p (i + 1)) := by
  rw [List.range_succ_eq_map, List.countP_cons, List.countP_map, Nat.add_comm]
  rfl

theorem erase_blocksize {cfg : Cfg} (hwf : cfg.WF) :
    u32 (2 ^ (cfg.CONFIG_PAGE_SIZE_BIT + cfg.CONFIG_NUMPAGE_PER_BLOCK_BIT)) = cfg.CFG_BLOCKSIZE := by
  have h1 := hwf.bs_le
  have h2 := hwf.blocksize
  have e : (2 : Int) ^ (cfg.CONFIG_PAGE_SIZE_BIT + cfg.CONFIG_NUMPAGE_PER_BLOCK_BIT)
      = ((cfg.CFG_BLOCKSIZE : Nat) : Int) := by
    rw [h2]; push_cast; rfl
  rw [e]
  have := u32_small (cfg.CFG_BLOCKSIZE : Int) (by omega) (by omega)
  omega

/-- The loop of `ranand_erase` when it meets `g` good blocks among the first `m` blocks from
`offs` (the last of them good): it erases the good ones, skips the others and returns the
number of skipped blocks added to `ret`. -/
theorem erase_loop_counts {cfg : Cfg} (hwf : cfg.WF) (L : PageLayer σ) (Inv : σ → Prop)
    (bad : Nat → Bool)
    (hwp : ∀ t, Inv t → ∃ t1, L.nfc_check_wp t = some (0, t1) ∧ Inv t1)
    (hprobe : cfg.CONFIG_BADBLOCK_CHECK = true → ∀ a t, a % cfg.CFG_BLOCKSIZE = 0 →
      a < 4294967296 → Inv t →
      ∃ t1, ranand_block_isbad cfg L a t = some (if bad a then 1 else 0, t1) ∧ Inv t1)
    (hnocheck : cfg.CONFIG_BADBLOCK_CHECK = false → ∀ a, bad a = false)
    (herase : ∀ a t, a % cfg.CFG_BLOCKSIZE = 0 → a < 4294967296 → bad a = false → Inv t →
      ∃ t1, L.nfc_erase_block (i32 ((a >>> cfg.CONFIG_PAGE_SIZE_BIT : Nat) : Int)) t
        = some (0, t1) ∧ Inv t1) :
    ∀ (m offs g : Nat) (ret : Int) (s : σ), offs % cfg.CFG_BLOCKSIZE = 0 → Inv s →
      g * cfg.CFG_BLOCKSIZE < 2147483648 → 0 ≤ ret → ret + m < 2147483648 →
      (List.range m).countP (fun i => !bad ((offs + i * cfg.CFG_BLOCKSIZE) % 4294967296)) = g →
      (m = 0 ∨ bad ((offs + (m - 1) * cfg.CFG_BLOCKSIZE) % 4294967296) = false) →
      ∃ s1, ranand_erase_loop cfg L (m + 1) (offs % 4294967296)
          ((g * cfg.CFG_BLOCKSIZE : Nat) : Int) ret s = some (ret + ((m - g : Nat) : Int), s1)
        ∧ Inv s1 := by
  intro m
  have hbs := hwf.bs_pos
  induction m with
  | zero =>
    intro offs g ret s _ hinv _ _ _ hcount _
    rw [List.range_zero, List.countP_nil] at hcount
    subst hcount
    refine ⟨s, ?_, hinv⟩
    rw [ranand_erase_loop]
    simp
  | succ m ih =>
    intro offs g ret s hal hinv hg hret hretm hcount hlast
    have hdvd : cfg.CFG_BLOCKSIZE ∣ 4294967296 := by
      rw [hwf.blocksize]
      have hle := hwf.blocksize_le
      exact Nat.pow_dvd_pow 2 (m := cfg.CONFIG_PAGE_SIZE_BIT + cfg.CONFIG_NUMPAGE_PER_BLOCK_BIT)
        (n := 32) (by omega)
    have hal0 : offs % 4294967296 % cfg.CFG_BLOCKSIZE = 0 := by
      rw [Nat.mod_mod_of_dvd _ hdvd]; exact hal
    have hlt0 : offs % 4294967296 < 4294967296 := Nat.mod_lt _ (by decide)
    have hal1 : (offs + cfg.CFG_BLOCKSIZE) % cfg.CFG_BLOCKSIZE = 0 := by
      rw [Nat.add_mod_right]; exact hal
    rw [countP_range_succ] at hcount
    simp only [Nat.zero_mul, Nat.add_zero] at hcount
    have hle : (List.range m).countP
        (fun i => !bad ((offs + (i + 1) * cfg.CFG_BLOCKSIZE) % 4294967296)) ≤ m := by
      have := List.countP_le_length
        (fun i => !bad ((offs + (i + 1) * cfg.CFG_BLOCKSIZE) % 4294967296)) (l := List.range m)
      rwa [List.length_range] at this
    have hshift : ∀ i, ((offs + cfg.CFG_BLOCKSIZE) + i * cfg.CFG_BLOCKSIZE)
        = offs + (i + 1) * cfg.CFG_BLOCKSIZE := by
      intro i; rw [Nat.succ_mul]; omega
    have hnext : u32 (((offs % 4294967296 : Nat) : Int)
        + (u32 (2 ^ (cfg.CONFIG_PAGE_SIZE_BIT + cfg.CONFIG_NUMPAGE_PER_BLOCK_BIT)) : Nat))
        = (offs + cfg.CFG_BLOCKSIZE) % 4294967296 := by
      rw [erase_blocksize hwf]
      unfold u32
      omega
    obtain ⟨s1, h1, hinv1⟩ := hwp s hinv
    have hgpos : 0 < g := by
      by_contra hcon
      have hg0 : g = 0 := by omega
      subst hg0
      rcases hlast with h | h
      · omega
      · simp only [Nat.add_sub_cancel] at h
        rcases Nat.eq_zero_or_pos m with hm0 | hmpos
        · subst hm0
          simp only [Nat.zero_mul, Nat.add_zero] at h
          rw [h] at hcount
          simp at hcount
        · have hmem : m - 1 ∈ List.range m := List.mem_range.mpr (by omega)
          have hpos : 0 < (List.range m).countP
              (fun i => !bad ((offs + (i + 1) * cfg.CFG_BLOCKSIZE) % 4294967296)) := by
            rw [List.countP_pos_iff]
            refine ⟨m - 1, hmem, ?_⟩
            have e : m - 1 + 1 = m := by omega
            simp only [e, h, Bool.not_false]
          omega
    have hlen0 : ((g * cfg.CFG_BLOCKSIZE : Nat) : Int) ≠ 0 := by
      have : 0 < g * cfg.CFG_BLOCKSIZE := Nat.mul_pos hgpos hbs
      omega
    rw [ranand_erase_loop, if_pos hlen0]
    simp only [M.bind_run, h1, Option.some_bind, ne_eq, not_true_eq_false, if_false, M.ite_run,
      M.pure_run, hnext]
    by_cases hb : bad (offs % 4294967296) = true
    · -- the block is bad (so bad-block checking is compiled in): skip it
      have hc : cfg.CONFIG_BADBLOCK_CHECK = true := by
        by_contra hcon
        have := hnocheck (by simpa using hcon) (offs % 4294967296)
        rw [this] at hb
        exact Bool.noConfusion hb
      obtain ⟨s2, h2, hinv2⟩ := hprobe hc (offs % 4294967296) s1 hal0 hlt0 hinv1
      rw [hb] at h2 hcount
      simp only [if_true] at h2
      simp only [Bool.not_true, Bool.false_eq_true, if_false, Nat.zero_add] at hcount
      have hgm : g ≤ m := by omega
      obtain ⟨s3, h3, hinv3⟩ := ih (offs + cfg.CFG_BLOCKSIZE) g (ret + 1) s2 hal1 hinv2 hg (by omega)
        (by omega) (by simp only [hshift]; exact hcount)
        (by
          rcases Nat.eq_zero_or_pos m with hm0 | hmpos
          · left; exact hm0
          · right
            rcases hlast with h | h
            · omega
            · simp only [Nat.add_sub_cancel] at h
              rw [hshift]
              have e : m - 1 + 1 = m := by omega
              rw [e]; exact h)
      simp only [hc, if_true, h2, Option.some_bind]
      have hone : ¬ ((1 : Int) = 0) := by decide
      rw [if_pos hone, i32_small _ (by omega) (by omega), h3]
      refine ⟨s3, ?_, hinv3⟩
      have e : ret + 1 + ((m - g : Nat) : Int) = ret + ((m + 1 - g : Nat) : Int) := by omega
      rw [e]
    · -- the block is good: erase it
      have hb' : bad (offs % 4294967296) = false := by
        cases h : bad (offs % 4294967296)
        · rfl
        · exact absurd h hb
      rw [hb'] at hcount
      simp only [Bool.not_false, if_true] at hcount
      have hlen : i32 (((g * cfg.CFG_BLOCKSIZE : Nat) : Int)
          - (u32 (2 ^ (cfg.CONFIG_PAGE_SIZE_BIT + cfg.CONFIG_NUMPAGE_PER_BLOCK_BIT)) : Nat))
          = (((g - 1) * cfg.CFG_BLOCKSIZE : Nat) : Int) := by
        rw [erase_blocksize hwf]
        have e : g * cfg.CFG_BLOCKSIZE = (g - 1) * cfg.CFG_BLOCKSIZE + cfg.CFG_BLOCKSIZE := by
          have : g = (g - 1) + 1 := by omega
          rw [this, Nat.succ_mul]; simp
        rw [i32_small _ (by omega) (by omega)]
        omega
      have hgm1 : (g - 1) * cfg.CFG_BLOCKSIZE < 2147483648 :=
        lt_of_le_of_lt (Nat.mul_le_mul_right _ (Nat.sub_le g 1)) hg
      have hlast' : m = 0 ∨ bad ((offs + cfg.CFG_BLOCKSIZE + (m - 1) * cfg.CFG_BLOCKSIZE)
          % 4294967296) = false := by
        rcases Nat.eq_zero_or_pos m with hm0 | hmpos
        · left; exact hm0
        · right
          rcases hlast with h | h
          · omega
          · simp only [Nat.add_sub_cancel] at h
            rw [hshift]
            have e : m - 1 + 1 = m := by omega
            rw [e]; exact h
      have e : ret + ((m - (g - 1) : Nat) : Int) = ret + ((m + 1 - g : Nat) : Int) := by omega
      by_cases hc : cfg.CONFIG_BADBLOCK_CHECK = true
      · obtain ⟨s2, h2, hinv2⟩ := hprobe hc (offs % 4294967296) s1 hal0 hlt0 hinv1
        rw [hb'] at h2
        simp only [Bool.false_eq_true, if_false] at h2
        obtain ⟨s3, h3, hinv3⟩ := herase (offs % 4294967296) s2 hal0 hlt0 hb' hinv2
        obtain ⟨s4, h4, hinv4⟩ := ih (offs + cfg.CFG_BLOCKSIZE) (g - 1) ret s3 hal1 hinv3 hgm1 hret
          (by omega) (by simp only [hshift]; omega) hlast'
        simp only [hc, if_true, h2, Option.some_bind, not_true_eq_false, if_false, h3, hlen, h4, e]
        exact ⟨s4, rfl, hinv4⟩
      · have hc' : cfg.CONFIG_BADBLOCK_CHECK = false := by simpa using hc
        obtain ⟨s3, h3, hinv3⟩ := herase (offs % 4294967296) s1 hal0 hlt0 hb' hinv1
        obtain ⟨s4, h4, hinv4⟩ := ih (offs + cfg.CFG_BLOCKSIZE) (g - 1) ret s3 hal1 hinv3 hgm1 hret
          (by omega) (by simp only [hshift]; omega) hlast'
        simp only [hc', Bool.false_eq_true, if_false, M.pure_run, Option.some_bind,
          not_true_eq_false, h3, hlen, h4, e]
        exact ⟨s4, rfl, hinv4⟩

/-- Erasing the block of a block-aligned address whose tag is good leaves the tag of every
block-aligned address as it was. -/
theorem erase_keeps_tags {cfg : Cfg} (hwf : cfg.WF) (t : Flash) (a b : Nat)
    (ha : a % cfg.CFG_BLOCKSIZE = 0) (hb : b % cfg.CFG_BLOCKSIZE = 0)
    (hgood : t.tag_ok cfg a) :
    (t.erase cfg (i32 ((a >>> cfg.CONFIG_PAGE_SIZE_BIT : Nat) : Int))).tag_ok cfg b
      ↔ t.tag_ok cfg b := by
  have hle := hwf.blocksize_le
  have hps := hwf.pagesize
  have hbs := hwf.blocksize
  have hppb : cfg.CFG_BLOCKSIZE / cfg.CFG_PAGESIZE = 2 ^ cfg.CONFIG_NUMPAGE_PER_BLOCK_BIT := by
    rw [hbs, hps, Nat.pow_add, Nat.mul_div_cancel_left _ (Nat.two_pow_pos _)]
  have hpos : 0 < 2 ^ cfg.CONFIG_NUMPAGE_PER_BLOCK_BIT := Nat.two_pow_pos _
  have hd32 : ((2 ^ cfg.CONFIG_NUMPAGE_PER_BLOCK_BIT : Nat) : Int) ∣ 4294967296 := by
    have : (2 : Nat) ^ cfg.CONFIG_NUMPAGE_PER_BLOCK_BIT ∣ 2 ^ 32 :=
      Nat.pow_dvd_pow 2 (m := cfg.CONFIG_NUMPAGE_PER_BLOCK_BIT) (n := 32) (by omega)
    exact_mod_cast this
  have hrow : ∀ x : Nat, x % cfg.CFG_BLOCKSIZE = 0 →
      ((2 ^ cfg.CONFIG_NUMPAGE_PER_BLOCK_BIT : Nat) : Int)
        ∣ i32 ((x >>> cfg.CONFIG_PAGE_SIZE_BIT : Nat) : Int) := by
    intro x hx
    have hx1 : 2 ^ cfg.CONFIG_NUMPAGE_PER_BLOCK_BIT ∣ x >>> cfg.CONFIG_PAGE_SIZE_BIT := by
      rw [Nat.shiftRight_eq_div_pow]
      obtain ⟨k, hk⟩ := Nat.dvd_of_mod_eq_zero hx
      rw [hk, hbs, Nat.pow_add, Nat.mul_assoc, Nat.mul_div_cancel_left _ (Nat.two_pow_pos _)]
      exact Nat.dvd_mul_right _ _
    have hx2 : ((2 ^ cfg.CONFIG_NUMPAGE_PER_BLOCK_BIT : Nat) : Int)
        ∣ ((x >>> cfg.CONFIG_PAGE_SIZE_BIT : Nat) : Int) := Int.natCast_dvd_natCast.mpr hx1
    unfold i32
    rw [Int.emod_def]
    have e : ((x >>> cfg.CONFIG_PAGE_SIZE_BIT : Nat) : Int) + 2147483648
        - 4294967296 * ((((x >>> cfg.CONFIG_PAGE_SIZE_BIT : Nat) : Int) + 2147483648) / 4294967296)
        - 2147483648
        = ((x >>> cfg.CONFIG_PAGE_SIZE_BIT : Nat) : Int)
        - 4294967296 * ((((x >>> cfg.CONFIG_PAGE_SIZE_BIT : Nat) : Int) + 2147483648) / 4294967296) := by
      omega
    rw [e]
    exact Int.dvd_sub hx2 (Dvd.dvd.mul_right hd32 _)
  unfold Flash.tag_ok Flash.erase
  simp only [hppb]
  by_cases hsame : i32 ((b >>> cfg.CONFIG_PAGE_SIZE_BIT : Nat) : Int)
      / ((2 ^ cfg.CONFIG_NUMPAGE_PER_BLOCK_BIT : Nat) : Int)
      = i32 ((a >>> cfg.CONFIG_PAGE_SIZE_BIT : Nat) : Int)
      / ((2 ^ cfg.CONFIG_NUMPAGE_PER_BLOCK_BIT : Nat) : Int)
  · have heq : i32 ((b >>> cfg.CONFIG_PAGE_SIZE_BIT : Nat) : Int)
        = i32 ((a >>> cfg.CONFIG_PAGE_SIZE_BIT : Nat) : Int) := by
      rw [← Int.ediv_mul_cancel (hrow b hb), ← Int.ediv_mul_cancel (hrow a ha), hsame]
    rw [if_pos hsame, heq]
    unfold Flash.tag_ok at hgood
    simp only [hgood, iff_true]
  · rw [if_neg hsame]

theorem ra_inl_log (dev : Dev σ) (r : Reg) (s : σ) (tr : List Access) :
    ra_inl (logDev dev) r (s, tr)
      = some ((dev.inl r s).1 % 4294967296,
          ((dev.inl r s).2, tr ++ [Access.rd r ((dev.inl r s).1 % 4294967296)])) := rfl

theorem ra_outl_log (dev : Dev σ) (r : Reg) (v : Nat) (s : σ) (tr : List Access) :
    ra_outl (logDev dev) r v (s, tr)
      = some ((), (dev.outl r (v % 4294967296) s, tr ++ [Access.wr r (v % 4294967296)])) := rfl

theorem udelay_log (dev : Dev σ) (us : Int) (s : σ) (tr : List Access) :
    udelay (logDev dev) us (s, tr) = some ((), (dev.udelay us s, tr ++ [Access.delay us])) := rfl

theorem dataReads_append (a b : List Access) : dataReads (a ++ b) = dataReads a ++ dataReads b := by
  unfold dataReads; exact List.filterMap_append _ _ _

theorem dataWrites_append (a b : List Access) :
    dataWrites (a ++ b) = dataWrites a ++ dataWrites b := by
  unfold dataWrites; exact List.filterMap_append _ _ _

/-- The loop of `_ra_nand_pull_data` returns, and the pointer has advanced by
`min(len, 4 * words)` where `words` counts the reads of DATA. -/
theorem pull_loop_returns_moved (cfg : Cfg) (dev : Dev σ) :
    ∀ (fuel : Nat) (buf : Mem) (p : Nat) (len retry : Int) (s : σ) (tr : List Access),
      retry ≤ 1000 → len.toNat + (retry + 2).toNat < fuel →
      ∃ (r : Int) (out : Mem) (s1 : σ) (new : List Access),
        pull_loop cfg (logDev dev) fuel buf p len retry (s, tr) = some ((r, out), (s1, tr ++ new))
        ∧ r = p + min (max len 0) (4 * ((dataReads new).length : Int))
        ∧ ((∀ t, (dev.inl Reg.NFC_INT_ST t).1 % 4294967296 &&& cfg.INT_ST_RX_BUF_RDY ≠ 0) →
            r = p + max len 0) := by
  intro fuel
  induction fuel with
  | zero => intro buf p len retry s tr _ h; omega
  | succ fuel ih =>
    intro buf p len retry s tr hretry hfuel
    rw [pull_loop]
    by_cases hlen : len > 0
    · rw [if_pos hlen]
      simp only [M.bind_run, ra_inl_log, ra_outl_log, udelay_log, Option.some_bind, M.ite_run,
        M.pure_run]
      have hv : (∀ t, (dev.inl Reg.NFC_INT_ST t).1 % 4294967296 &&& cfg.INT_ST_RX_BUF_RDY ≠ 0) →
          (dev.inl Reg.NFC_INT_ST s).1 % 4294967296 &&& cfg.INT_ST_RX_BUF_RDY ≠ 0 := fun h => h s
      generalize (dev.inl Reg.NFC_INT_ST s).1 % 4294967296 = v0 at hv ⊢
      generalize (dev.inl Reg.NFC_INT_ST s).2 = s0
      by_cases hrx : v0 &&& cfg.INT_ST_RX_BUF_RDY ≠ 0
      · rw [if_pos hrx]
        generalize (dev.inl Reg.NFC_DATA s0).1 % 4294967296 = d
        generalize dev.outl Reg.NFC_INT_ST (cfg.INT_ST_RX_BUF_RDY % 4294967296)
          (dev.inl Reg.NFC_DATA s0).2 = s2
        have hpre : ∀ new : List Access,
            tr ++ [Access.rd Reg.NFC_INT_ST v0] ++ [Access.rd Reg.NFC_DATA d]
              ++ [Access.wr Reg.NFC_INT_ST (cfg.INT_ST_RX_BUF_RDY % 4294967296)] ++ new
            = tr ++ ([Access.rd Reg.NFC_INT_ST v0, Access.rd Reg.NFC_DATA d,
                Access.wr Reg.NFC_INT_ST (cfg.INT_ST_RX_BUF_RDY % 4294967296)] ++ new) := by
          intro new; simp
        have hcnt : ∀ new : List Access,
            (dataReads ([Access.rd Reg.NFC_INT_ST v0, Access.rd Reg.NFC_DATA d,
                Access.wr Reg.NFC_INT_ST (cfg.INT_ST_RX_BUF_RDY % 4294967296)] ++ new)).length
            = (dataReads new).length + 1 := by
          intro new
          rw [dataReads_append, List.length_append, Nat.add_comm]
          rfl
        have hmin1 : min 4 len = min len 4 := Int.min_comm _ _
        by_cases hfull : min len 4 = 4
        · have hl4 : 4 ≤ len := by omega
          have key : ∀ b : Mem, ∃ (r : Int) (out : Mem) (s1 : σ) (new : List Access),
              pull_loop cfg (logDev dev) fuel b (p + 4) (len - 4) retry
                (s2, tr ++ [Access.rd Reg.NFC_INT_ST v0] ++ [Access.rd Reg.NFC_DATA d]
                  ++ [Access.wr Reg.NFC_INT_ST (cfg.INT_ST_RX_BUF_RDY % 4294967296)])
                = some ((r, out), (s1, tr ++ new))
              ∧ r = p + min (max len 0) (4 * ((dataReads new).length : Int))
              ∧ ((∀ t, (dev.inl Reg.NFC_INT_ST t).1 % 4294967296 &&& cfg.INT_ST_RX_BUF_RDY ≠ 0) →
            r = p + max len 0) := by
            intro b
            obtain ⟨r, out, s1, new, h, hr, hall⟩ := ih b (p + 4) (len - 4) retry s2
              (tr ++ [Access.rd Reg.NFC_INT_ST v0] ++ [Access.rd Reg.NFC_DATA d]
                ++ [Access.wr Reg.NFC_INT_ST (cfg.INT_ST_RX_BUF_RDY % 4294967296)]) hretry
              (by omega)
            refine ⟨r, out, s1, [Access.rd Reg.NFC_INT_ST v0, Access.rd Reg.NFC_DATA d,
                Access.wr Reg.NFC_INT_ST (cfg.INT_ST_RX_BUF_RDY % 4294967296)] ++ new, ?_, ?_, ?_⟩
            · rw [h, hpre]
            · rw [hcnt, hr]; push_cast; omega
            · intro hre; rw [hall hre]; push_cast; omega
          by_cases hmode : cfg.RW_DATA_BY_BYTE = true
          · rw [if_pos hmode, hmin1, hfull]
            exact key _
          · rw [if_neg hmode, if_pos hfull, hfull]
            exact key _
        · have hl4 : len < 4 := by omega
          have hm : min len 4 = len := by omega
          have key : ∀ b : Mem, ∃ (r : Int) (out : Mem) (s1 : σ) (new : List Access),
              pull_loop cfg (logDev dev) fuel b (p + len.toNat) (len - len) retry
                (s2, tr ++ [Access.rd Reg.NFC_INT_ST v0] ++ [Access.rd Reg.NFC_DATA d]
                  ++ [Access.wr Reg.NFC_INT_ST (cfg.INT_ST_RX_BUF_RDY % 4294967296)])
                = some ((r, out), (s1, tr ++ new))
              ∧ r = p + min (max len 0) (4 * ((dataReads new).length : Int))
              ∧ ((∀ t, (dev.inl Reg.NFC_INT_ST t).1 % 4294967296 &&& cfg.INT_ST_RX_BUF_RDY ≠ 0) →
            r = p + max len 0) := by
            intro b
            obtain ⟨r, out, s1, new, h, hr, hall⟩ := ih b (p + len.toNat) (len - len) retry s2
              (tr ++ [Access.rd Reg.NFC_INT_ST v0] ++ [Access.rd Reg.NFC_DATA d]
                ++ [Access.wr Reg.NFC_INT_ST (cfg.INT_ST_RX_BUF_RDY % 4294967296)]) hretry
              (by omega)
            refine ⟨r, out, s1, [Access.rd Reg.NFC_INT_ST v0, Access.rd Reg.NFC_DATA d,
                Access.wr Reg.NFC_INT_ST (cfg.INT_ST_RX_BUF_RDY % 4294967296)] ++ new, ?_, ?_, ?_⟩
            · rw [h, hpre]
            · rw [hcnt, hr]; push_cast; omega
            · intro hre; rw [hall hre]; push_cast; omega
          by_cases hmode : cfg.RW_DATA_BY_BYTE = true
          · rw [if_pos hmode, hmin1, hm]
            exact key _
          · rw [if_neg hmode, if_neg hfull, hm]
            exact key _
      · rw [if_neg hrx]
        have hnr := hrx
        by_cases hdone : v0 &&& cfg.INT_ST_ND_DONE ≠ 0
        · rw [if_pos hdone]
          refine ⟨p, buf, s0, [Access.rd Reg.NFC_INT_ST v0], rfl, ?_, fun hre => absurd (hv hre) hnr⟩
          have : (dataReads [Access.rd Reg.NFC_INT_ST v0]).length = 0 := rfl
          rw [this]; omega
        · rw [if_neg hdone]
          by_cases hr0 : retry < 0
          · rw [if_pos hr0]
            refine ⟨p, buf, dev.udelay 1 s0,
              [Access.rd Reg.NFC_INT_ST v0, Access.delay 1], by simp, ?_, fun hre => absurd (hv hre) hnr⟩
            have : (dataReads [Access.rd Reg.NFC_INT_ST v0, Access.delay 1]).length = 0 := rfl
            rw [this]; omega
          · rw [if_neg hr0]
            have hi : i32 (retry - 1) = retry - 1 := by unfold i32; omega
            rw [hi]
            obtain ⟨r, out, s1, new, h, hr, hall⟩ := ih buf p len (retry - 1) (dev.udelay 1 s0)
              (tr ++ [Access.rd Reg.NFC_INT_ST v0] ++ [Access.delay 1]) (by omega) (by omega)
            refine ⟨r, out, s1, [Access.rd Reg.NFC_INT_ST v0, Access.delay 1] ++ new, ?_, ?_, fun hre => absurd (hv hre) hnr⟩
            · rw [h]; simp
            · rw [dataReads_append, List.length_append, hr]
              have : (dataReads [Access.rd Reg.NFC_INT_ST v0, Access.delay 1]).length = 0 := rfl
              rw [this]; simp
    · rw [if_neg hlen]
      refine ⟨p, buf, s, [], by simp, ?_, fun _ => by omega⟩
      have : (dataReads []).length = 0 := rfl
      rw [this]; omega

/-- The loop of `_ra_nand_push_data`, in a build with RW_DATA_BY_BYTE or for a length that
is a multiple of 4, returns, and the pointer has advanced by `min(len, 4 * words)` where
`words` counts the writes to DATA. -/
theorem push_loop_returns_moved (cfg : Cfg) (dev : Dev σ) (buf : Mem) :
    ∀ (fuel : Nat) (p : Int) (tx_data : Nat) (len retry : Int) (s : σ) (tr : List Access),
      retry ≤ 1000 → (cfg.RW_DATA_BY_BYTE = true ∨ len % 4 = 0) →
      len.toNat + (retry + 2).toNat < fuel →
      ∃ (r : Int) (s1 : σ) (new : List Access),
        push_loop cfg (logDev dev) buf fuel p tx_data len retry (s, tr) = some (r, (s1, tr ++ new))
        ∧ r = p + min (max len 0) (4 * ((dataWrites new).length : Int))
        ∧ ((∀ t, (dev.inl Reg.NFC_INT_ST t).1 % 4294967296 &&& cfg.INT_ST_TX_BUF_RDY ≠ 0) →
            r = p + max len 0) := by
  intro fuel
  induction fuel with
  | zero => intro p tx_data len retry s tr _ _ h; omega
  | succ fuel ih =>
    intro p tx_data len retry s tr hretry hmode hfuel
    rw [push_loop]
    by_cases hlen : len > 0
    · rw [if_pos hlen]
      simp only [M.bind_run, ra_inl_log, ra_outl_log, udelay_log, Option.some_bind, M.ite_run,
        M.pure_run]
      have hv : (∀ t, (dev.inl Reg.NFC_INT_ST t).1 % 4294967296 &&& cfg.INT_ST_TX_BUF_RDY ≠ 0) →
          (dev.inl Reg.NFC_INT_ST s).1 % 4294967296 &&& cfg.INT_ST_TX_BUF_RDY ≠ 0 := fun h => h s
      generalize (dev.inl Reg.NFC_INT_ST s).1 % 4294967296 = v0 at hv ⊢
      generalize (dev.inl Reg.NFC_INT_ST s).2 = s0
      by_cases htx : v0 &&& cfg.INT_ST_TX_BUF_RDY ≠ 0
      · rw [if_pos htx]
        have hstep : ∀ (w : Nat),
            ∃ (r : Int) (s1 : σ) (new : List Access),
              push_loop cfg (logDev dev) buf fuel (p + min len 4) w (len - min len 4) retry
                (dev.outl Reg.NFC_DATA (w % 4294967296)
                  (dev.outl Reg.NFC_INT_ST (cfg.INT_ST_TX_BUF_RDY % 4294967296) s0),
                  tr ++ [Access.rd Reg.NFC_INT_ST v0]
                    ++ [Access.wr Reg.NFC_INT_ST (cfg.INT_ST_TX_BUF_RDY % 4294967296)]
                    ++ [Access.wr Reg.NFC_DATA (w % 4294967296)])
                = some (r, (s1, tr ++ new))
              ∧ r = p + min (max len 0) (4 * ((dataWrites new).length : Int))
              ∧ ((∀ t, (dev.inl Reg.NFC_INT_ST t).1 % 4294967296 &&& cfg.INT_ST_TX_BUF_RDY ≠ 0) →
            r = p + max len 0) := by
          intro w
          obtain ⟨r, s1, new, h, hr, hall⟩ := ih (p + min len 4) w (len - min len 4) retry
            (dev.outl Reg.NFC_DATA (w % 4294967296)
              (dev.outl Reg.NFC_INT_ST (cfg.INT_ST_TX_BUF_RDY % 4294967296) s0))
            (tr ++ [Access.rd Reg.NFC_INT_ST v0]
              ++ [Access.wr Reg.NFC_INT_ST (cfg.INT_ST_TX_BUF_RDY % 4294967296)]
              ++ [Access.wr Reg.NFC_DATA (w % 4294967296)]) hretry
            (by rcases hmode with h | h
                · left; exact h
                · right; omega)
            (by omega)
          refine ⟨r, s1, [Access.rd Reg.NFC_INT_ST v0,
            Access.wr Reg.NFC_INT_ST (cfg.INT_ST_TX_BUF_RDY % 4294967296),
            Access.wr Reg.NFC_DATA (w % 4294967296)] ++ new, ?_, ?_, ?_⟩
          · rw [h]; simp
          · rw [dataWrites_append, List.length_append, hr]
            have : (dataWrites [Access.rd Reg.NFC_INT_ST v0,
              Access.wr Reg.NFC_INT_ST (cfg.INT_ST_TX_BUF_RDY % 4294967296),
              Access.wr Reg.NFC_DATA (w % 4294967296)]).length = 1 := rfl
            rw [this]; push_cast; omega
          · intro hre; rw [hall hre]; omega
        by_cases hbyte : cfg.RW_DATA_BY_BYTE = true
        · simp only [hbyte, if_true]
          exact hstep _
        · have h4 : len % 4 = 0 := by
            rcases hmode with h | h
            · exact absurd h hbyte
            · exact h
          have hfull : min len 4 = 4 := by omega
          simp only [hbyte, Bool.false_eq_true, if_false, hfull, if_true]
          have := hstep (load_word buf p.toNat)
          rw [hfull] at this
          exact this
      · rw [if_neg htx]
        have hnr := htx
        by_cases hdone : v0 &&& cfg.INT_ST_ND_DONE ≠ 0
        · rw [if_pos hdone]
          refine ⟨p, s0, [Access.rd Reg.NFC_INT_ST v0], rfl, ?_, fun hre => absurd (hv hre) hnr⟩
          have : (dataWrites [Access.rd Reg.NFC_INT_ST v0]).length = 0 := rfl
          rw [this]; omega
        · rw [if_neg hdone]
          by_cases hr0 : retry < 0
          · rw [if_pos hr0]
            refine ⟨p, dev.udelay 1 s0,
              [Access.rd Reg.NFC_INT_ST v0, Access.delay 1], by simp, ?_, fun hre => absurd (hv hre) hnr⟩
            have : (dataWrites [Access.rd Reg.NFC_INT_ST v0, Access.delay 1]).length = 0 := rfl
            rw [this]; omega
          · rw [if_neg hr0]
            have hi : i32 (retry - 1) = retry - 1 := by unfold i32; omega
            rw [hi]
            obtain ⟨r, s1, new, h, hr, hall⟩ := ih p tx_data len (retry - 1) (dev.udelay 1 s0)
              (tr ++ [Access.rd Reg.NFC_INT_ST v0] ++ [Access.delay 1]) (by omega) hmode
              (by omega)
            refine ⟨r, s1, [Access.rd Reg.NFC_INT_ST v0, Access.delay 1] ++ new, ?_, ?_, fun hre => absurd (hv hre) hnr⟩
            · rw [h]; simp
            · rw [dataWrites_append, List.length_append, hr]
              have : (dataWrites [Access.rd Reg.NFC_INT_ST v0, Access.delay 1]).length = 0 := rfl
              rw [this]; simp
    · rw [if_neg hlen]
      refine ⟨p, s, [], by simp, ?_, fun _ => by omega⟩
      have : (dataWrites []).length = 0 := rfl
      rw [this]; omega

theorem stuck_inl_int_st (s : Unit) : ra_inl stuckDev Reg.NFC_INT_ST s = some (3, ()) := rfl

theorem stuck_inl_status (s : Unit) : ra_inl stuckDev Reg.NFC_STATUS s = some (4, ()) := rfl

theorem stuck_inl_ctrl (s : Unit) : ra_inl stuckDev Reg.NFC_CTRL s = some (0, ()) := rfl

theorem stuck_outl (r : Reg) (v : Nat) (s : Unit) : ra_outl stuckDev r v s = some ((), ()) := rfl

theorem stuck_udelay (us : Int) (s : Unit) : udelay stuckDev us s = some ((), ()) := rfl

/-- On the hung controller the RX-ready poll of `nfc_read_status` ends, if at all, with
`int_st = 3`. -/
theorem stuck_poll (fuel : Nat) : ∀ (retry : Int) (s : Unit),
    read_status_poll sampleCfg stuckDev fuel retry s = none
      ∨ read_status_poll sampleCfg stuckDev fuel retry s = some (3, ()) := by
  induction fuel with
  | zero => intro retry s; left; rfl
  | succ n ih =>
    intro retry s
    rw [read_status_poll]
    simp only [M.bind_run, stuck_inl_status, stuck_inl_int_st, stuck_udelay, Option.some_bind,
      M.ite_run, M.pure_run]
    split_ifs
    · exact ih _ _
    · right; rfl

/-- A `while (cond && retry--)` loop whose condition is false at once. -/
theorem pollWhile_false (cond : M σ Bool) (body : M σ Unit) (fuel : Nat) (retry : Int) (s s1 : σ)
    (h : cond s = some (false, s1)) :
    pollWhile cond body (fuel + 1) retry s = some ((false, retry), s1) := by
  rw [pollWhile]
  simp [M.bind_run, h]

/-- On the hung controller none of the four functions of the recovery chain returns,
whatever the fuel. -/
theorem stuck_chain (fuel : Nat) :
    (∀ s, nfc_read_status sampleCfg stuckDev fuel s = none)
    ∧ (∀ z s, nfc_wait_ready sampleCfg stuckDev fuel z s = none)
    ∧ (∀ s, nfc_chip_reset sampleCfg stuckDev fuel s = none)
    ∧ (∀ s, nfc_all_reset sampleCfg stuckDev fuel s = none) := by
  induction fuel with
  | zero => exact ⟨fun _ => rfl, fun _ _ => rfl, fun _ => rfl, fun _ => rfl⟩
  | succ n ih =>
    obtain ⟨hrs, hwr, hcr, har⟩ := ih
    refine ⟨?_, ?_, ?_, ?_⟩
    · intro s
      rw [nfc_read_status]
      simp only [M.bind_run, CLEAR_INT_STATUS, stuck_inl_int_st, stuck_outl, Option.some_bind]
      rcases stuck_poll n READ_STATUS_RETRY () with h | h
      · rw [h]; rfl
      · rw [h]
        simp only [Option.some_bind, M.ite_run, M.bind_run, har]
        rfl
    · intro z s
      rw [nfc_wait_ready]
      simp only [M.bind_run, stuck_udelay, Option.some_bind]
      cases n with
      | zero => rfl
      | succ m =>
        have hdone : ∀ t : Unit, NFC_TRANS_DONE sampleCfg stuckDev t = some (1, ()) :=
          fun _ => rfl
        have hc1 : ∀ t : Unit, (do
            let x ← NFC_TRANS_DONE sampleCfg stuckDev
            pure (decide (x = 0)) : M Unit Bool) t = some (false, ()) := fun _ => rfl
        have hc2 : ∀ t : Unit, (do
            let x ← nfc_device_ready stuckDev
            pure (decide (x = 0)) : M Unit Bool) t = some (false, ()) := fun _ => rfl
        rw [pollWhile_false _ _ m _ () () (hc1 ())]
        simp only [Option.some_bind, hdone, M.ite_run, M.bind_run]
        rw [pollWhile_false _ _ m _ () () (hc2 ())]
        simp only [Option.some_bind, hrs]
        rfl
    · intro s
      rw [nfc_chip_reset]
      simp only [M.bind_run, stuck_outl, Option.some_bind, hwr]
      rfl
    · intro s
      rw [nfc_all_reset]
      simp only [M.bind_run, CLEAR_INT_STATUS, stuck_inl_ctrl, stuck_inl_int_st, stuck_outl,
        Option.some_bind]
      cases n with
      | zero => rfl
      | succ m =>
        have hc1 : ∀ t : Unit, (do
            let x ← ra_inl stuckDev Reg.NFC_INT_ST
            pure (decide (x &&& 0x02 ≠ 0x02)) : M Unit Bool) t = some (false, ()) := fun _ => rfl
        have hc2 : ∀ t : Unit, (do
            let x ← ra_inl stuckDev Reg.NFC_STATUS
            pure (decide (x &&& 0x1 ≠ 0x0)) : M Unit Bool) t = some (false, ()) := fun _ => rfl
        rw [pollWhile_false _ _ m _ () () (hc1 ())]
        simp only [Option.some_bind, M.ite_run, M.bind_run]
        rw [pollWhile_false _ _ m _ () () (hc2 ())]
        simp only [Option.some_bind, hcr]
        rfl

/-- On the dead controller the RX-ready poll of `nfc_read_status` uses up its retries and
ends with `int_st = 0`. -/
theorem deaf_poll (fuel : Nat) : ∀ (retry : Int) (s : Unit), 0 ≤ retry → retry < 2147483648 →
    retry.toNat < fuel → read_status_poll sampleCfg deafDev fuel retry s = some (0, ()) := by
  induction fuel with
  | zero => intro retry s _ _ h; omega
  | succ n ih =>
    intro retry s h0 h1 hf
    rw [read_status_poll]
    have hin : ∀ (r : Reg) (t : Unit), ra_inl deafDev r t = some (0, ()) := fun _ _ => rfl
    have hud : ∀ (us : Int) (t : Unit), udelay deafDev us t = some ((), ()) := fun _ _ => rfl
    simp only [M.bind_run, hin, hud, Option.some_bind, M.ite_run, M.pure_run]
    by_cases hr : retry = 0
    · subst hr; rfl
    · have hi : i32 (retry - 1) = retry - 1 := i32_small _ (by omega) (by omega)
      rw [if_pos ⟨rfl, hr⟩, hi]
      exact ih _ _ (by omega) (by omega) (by omega)

/-- A `while (cond && retry--)` loop whose condition stays true leaves `retry` at -1. -/
theorem pollWhile_true (cond : M Unit Bool) (body : M Unit Unit)
    (hc : ∀ t, cond t = some (true, ())) (hb : ∀ t, body t = some ((), ())) (fuel : Nat) :
    ∀ (retry : Int) (s : Unit), 0 ≤ retry → retry < 2147483648 → retry.toNat < fuel →
      pollWhile cond body fuel retry s = some ((true, -1), ()) := by
  induction fuel with
  | zero => intro retry s _ _ h; omega
  | succ n ih =>
    intro retry s h0 h1 hf
    rw [pollWhile]
    simp only [M.bind_run, hc, Option.some_bind, if_true, M.ite_run]
    by_cases hr : retry = 0
    · subst hr; rfl
    · have hi : i32 (retry - 1) = retry - 1 := i32_small _ (by omega) (by omega)
      simp only [ne_eq, hr, not_false_eq_true, if_true, M.bind_run, hb, Option.some_bind, hi]
      exact ih _ _ (by omega) (by omega) (by omega)

/-- On the dead controller `nfc_all_reset` gives up in its first poll and returns -1. -/
theorem deaf_all_reset (fuel : Nat) (h : 1000 < fuel) (s : Unit) :
    nfc_all_reset sampleCfg deafDev (fuel + 1) s = some (-1, ()) := by
  rw [nfc_all_reset]
  have hin : ∀ (r : Reg) (t : Unit), ra_inl deafDev r t = some (0, ()) := fun _ _ => rfl
  have hout : ∀ (r : Reg) (v : Nat) (t : Unit), ra_outl deafDev r v t = some ((), ()) :=
    fun _ _ _ => rfl
  simp only [M.bind_run, CLEAR_INT_STATUS, hin, hout, Option.some_bind]
  have hc : ∀ t : Unit, (do
      let x ← ra_inl deafDev Reg.NFC_INT_ST
      pure (decide (x &&& 0x02 ≠ 0x02)) : M Unit Bool) t = some (true, ()) := fun _ => rfl
  have hb : ∀ t : Unit, (pure () : M Unit Unit) t = some ((), ()) := fun _ => rfl
  rw [pollWhile_true _ _ hc hb fuel READ_STATUS_RETRY ()
    (by decide) (by decide) (by unfold READ_STATUS_RETRY; omega)]
  rfl

theorem flatMap_range_succ {β : Type} (f : Nat → List β) (m : Nat) :
    (List.range (m + 1)).flatMap f = f 0 ++ (List.range m).flatMap fun i => f (i + 1) := by
  rw [List.range_succ_eq_map, List.flatMap_cons]
  congr 1
  simp [List.flatMap, List.map_map, Function.comp_def]

/-- A bad-block probe through the recording page layer. -/
theorem trace_isbad (cfg : Cfg) (fl : Flash) (tr : List BlockOp) (a : Nat) :
    ranand_block_isbad cfg (traceLayer cfg) a (fl, tr)
      = some (if fl.tag_ok cfg a then 0 else 1,
          (fl, tr ++ [BlockOp.probe (i32 ((a >>> cfg.CONFIG_PAGE_SIZE_BIT : Nat) : Int))])) := by
  rw [ranand_block_isbad_spec cfg (traceLayer cfg) a (fl, tr)
    (fl, tr ++ [BlockOp.probe (i32 ((a >>> cfg.CONFIG_PAGE_SIZE_BIT : Nat) : Int))]) 0
    (fun i => if (i : Int) < 1
      then fl.pages (i32 ((a >>> cfg.CONFIG_PAGE_SIZE_BIT : Nat) : Int))
        (cfg.CFG_PAGESIZE + cfg.CONFIG_BAD_BLOCK_POS + i)
      else (traceLayer cfg).uninit i) rfl]
  simp [Flash.tag_ok]

/-- The loop of `ranand_erase` over `m` blocks none of which is marked bad: it probes and
erases exactly those blocks, in address order, and returns `ret`. -/
theorem erase_trace_loop {cfg : Cfg} (hwf : cfg.WF) :
    ∀ (m offs : Nat) (ret : Int) (fl : Flash) (tr : List BlockOp),
      offs % cfg.CFG_BLOCKSIZE = 0 → fl.wp = false → m * cfg.CFG_BLOCKSIZE < 2147483648 →
      (cfg.CONFIG_BADBLOCK_CHECK = true →
        ∀ i, i < m → fl.tag_ok cfg ((offs + i * cfg.CFG_BLOCKSIZE) % 4294967296)) →
      ∃ fl1, ranand_erase_loop cfg (traceLayer cfg) (m + 1) (offs % 4294967296)
          ((m * cfg.CFG_BLOCKSIZE : Nat) : Int) ret (fl, tr)
        = some (ret, (fl1, tr ++ erase_range_ops cfg offs m)) := by
  intro m
  have hbs := hwf.bs_pos
  induction m with
  | zero =>
    intro offs ret fl tr _ _ _ _
    refine ⟨fl, ?_⟩
    rw [ranand_erase_loop]
    simp [erase_range_ops]
  | succ m ih =>
    intro offs ret fl tr hal hwp hm htags
    have hdvd : cfg.CFG_BLOCKSIZE ∣ 4294967296 := by
      rw [hwf.blocksize]
      have hle := hwf.blocksize_le
      exact Nat.pow_dvd_pow 2 (m := cfg.CONFIG_PAGE_SIZE_BIT + cfg.CONFIG_NUMPAGE_PER_BLOCK_BIT)
        (n := 32) (by omega)
    have hal0 : offs % 4294967296 % cfg.CFG_BLOCKSIZE = 0 := by
      rw [Nat.mod_mod_of_dvd _ hdvd]; exact hal
    have hal1 : (offs + cfg.CFG_BLOCKSIZE) % cfg.CFG_BLOCKSIZE = 0 := by
      rw [Nat.add_mod_right]; exact hal
    have hshift : ∀ i, ((offs + cfg.CFG_BLOCKSIZE) + i * cfg.CFG_BLOCKSIZE)
        = offs + (i + 1) * cfg.CFG_BLOCKSIZE := by
      intro i; rw [Nat.succ_mul]; omega
    have hnext : u32 (((offs % 4294967296 : Nat) : Int)
        + (u32 (2 ^ (cfg.CONFIG_PAGE_SIZE_BIT + cfg.CONFIG_NUMPAGE_PER_BLOCK_BIT)) : Nat))
        = (offs + cfg.CFG_BLOCKSIZE) % 4294967296 := by
      rw [erase_blocksize hwf]
      unfold u32
      omega
    have hsucc : (m + 1) * cfg.CFG_BLOCKSIZE = m * cfg.CFG_BLOCKSIZE + cfg.CFG_BLOCKSIZE :=
      Nat.succ_mul _ _
    have hlen0 : (((m + 1) * cfg.CFG_BLOCKSIZE : Nat) : Int) ≠ 0 := by
      rw [hsucc]; omega
    have hlen : i32 ((((m + 1) * cfg.CFG_BLOCKSIZE : Nat) : Int)
        - (u32 (2 ^ (cfg.CONFIG_PAGE_SIZE_BIT + cfg.CONFIG_NUMPAGE_PER_BLOCK_BIT)) : Nat))
        = ((m * cfg.CFG_BLOCKSIZE : Nat) : Int) := by
      rw [erase_blocksize hwf, i32_small _ (by omega) (by omega)]
      omega
    have hops : erase_range_ops cfg offs (m + 1)
        = erase_block_ops cfg (offs % 4294967296)
          ++ erase_range_ops cfg (offs + cfg.CFG_BLOCKSIZE) m := by
      unfold erase_range_ops
      rw [flatMap_range_succ]
      simp only [Nat.zero_mul, Nat.add_zero, hshift]
    have hcheck : (traceLayer cfg).nfc_check_wp (fl, tr) = some (0, (fl, tr)) := by
      show some ((if fl.wp then (1 : Int) else 0), (fl, tr)) = some (0, (fl, tr))
      rw [hwp]; rfl
    rw [ranand_erase_loop, if_pos hlen0]
    simp only [M.bind_run, hcheck, Option.some_bind, ne_eq, not_true_eq_false, if_false,
      M.ite_run, M.pure_run, hnext, hlen]
    by_cases hc : cfg.CONFIG_BADBLOCK_CHECK = true
    · have hgood : fl.tag_ok cfg (offs % 4294967296) := by
        have := htags hc 0 (by omega)
        simpa using this
      obtain ⟨fl1, h1⟩ := ih (offs + cfg.CFG_BLOCKSIZE) ret
        (fl.erase cfg (i32 (((offs % 4294967296) >>> cfg.CONFIG_PAGE_SIZE_BIT : Nat) : Int)))
        (tr ++ [BlockOp.probe (i32 (((offs % 4294967296) >>> cfg.CONFIG_PAGE_SIZE_BIT : Nat) : Int))]
          ++ [BlockOp.erase (i32 (((offs % 4294967296) >>> cfg.CONFIG_PAGE_SIZE_BIT : Nat) : Int))])
        hal1 hwp (by omega)
        (by
          intro _ i hi
          rw [hshift]
          have hb : (offs + (i + 1) * cfg.CFG_BLOCKSIZE) % 4294967296 % cfg.CFG_BLOCKSIZE = 0 := by
            rw [Nat.mod_mod_of_dvd _ hdvd, Nat.add_mul_mod_self_right]; exact hal
          rw [erase_keeps_tags hwf fl _ _ hal0 hb hgood]
          exact htags hc (i + 1) (by omega))
      refine ⟨fl1, ?_⟩
      simp only [hc, if_true, trace_isbad, hgood, Option.some_bind, not_true_eq_false, if_false]
      show (ranand_erase_loop cfg (traceLayer cfg) (m + 1) _ _ ret _) = _
      rw [h1, hops]
      simp [erase_block_ops, hc]
    · have hc' : cfg.CONFIG_BADBLOCK_CHECK = false := by simpa using hc
      obtain ⟨fl1, h1⟩ := ih (offs + cfg.CFG_BLOCKSIZE) ret
        (fl.erase cfg (i32 (((offs % 4294967296) >>> cfg.CONFIG_PAGE_SIZE_BIT : Nat) : Int)))
        (tr ++ [BlockOp.erase (i32 (((offs % 4294967296) >>> cfg.CONFIG_PAGE_SIZE_BIT : Nat) : Int))])
        hal1 hwp (by omega) (fun h => absurd h hc)
      refine ⟨fl1, ?_⟩
      simp only [hc', Bool.false_eq_true, if_false, M.pure_run, Option.some_bind,
        not_true_eq_false]
      show (ranand_erase_loop cfg (traceLayer cfg) (m + 1) _ _ ret _) = _
      rw [h1, hops]
      simp [erase_block_ops, hc']

theorem Chip.afterReads_cons (ch : Chip) (p : Int) (ps : List Int) :
    ch.afterReads (p :: ps) = (ch.afterRead p).afterReads ps := rfl

theorem Chip.afterReads_log (ps : List Int) : ∀ ch : Chip,
    (ch.afterReads ps).log = ch.log ++ ps.map ChipOp.read := by
  induction ps with
  | nil => intro ch; simp [Chip.afterReads]
  | cons p ps ih =>
    intro ch
    rw [Chip.afterReads_cons, ih]
    simp [Chip.afterRead]

theorem Chip.afterReads_pages (ps : List Int) : ∀ ch : Chip,
    (ch.afterReads ps).pages = ch.pages ∧ (ch.afterReads ps).wp = ch.wp := by
  induction ps with
  | nil => intro ch; exact ⟨rfl, rfl⟩
  | cons p ps ih =>
    intro ch
    rw [Chip.afterReads_cons]
    exact ih _

/-- A read of a page with no failing reads left changes only the record. -/
theorem Chip.afterRead_good (ch : Chip) (p : Int) (h : ch.fails p = 0) :
    (ch.afterRead p).fails = ch.fails := by
  funext q
  show (if q = p then ch.fails q - 1 else ch.fails q) = ch.fails q
  split
  · next hq => subst hq; omega
  · rfl

theorem Chip.afterTry_pages (ch : Chip) (p : Int) :
    (ch.afterTry p).pages = ch.pages ∧ (ch.afterTry p).wp = ch.wp := by
  unfold Chip.afterTry
  split <;> exact ⟨rfl, rfl⟩

theorem Chip.afterTry_log (ch : Chip) (p : Int) :
    (ch.afterTry p).log
      = ch.log ++ if ch.fails p = 0 then [ChipOp.read p] else [ChipOp.read p, ChipOp.read p] := by
  unfold Chip.afterTry
  split
  · rfl
  · simp [Chip.afterRead]

theorem Chip.afterTry_fails_ne (ch : Chip) (p q : Int) (h : q ≠ p) :
    (ch.afterTry p).fails q = ch.fails q := by
  unfold Chip.afterTry
  split
  · show (if q = p then _ else _) = _
    rw [if_neg h]
  · show (if q = p then _ else (if q = p then _ else _)) = _
    rw [if_neg h, if_neg h]

theorem Chip.afterTry_fails_self (ch : Chip) (p : Int) :
    (ch.afterTry p).fails p = ch.fails p - 2 := by
  unfold Chip.afterTry
  split
  · next h0 =>
    show (if p = p then _ else _) = _
    rw [if_pos rfl]; omega
  · show (if p = p then (if p = p then ch.fails p - 1 else _) - 1 else _) = _
    rw [if_pos rfl, if_pos rfl]; omega

theorem Chip.afterTry_fails_le (ch : Chip) (p q : Int) :
    (ch.afterTry p).fails q ≤ ch.fails q := by
  by_cases h : q = p
  · subst h; rw [Chip.afterTry_fails_self]; omega
  · rw [Chip.afterTry_fails_ne ch p q h]

theorem Chip.afterTry_good (ch : Chip) (p : Int) (h : ch.fails p = 0) :
    ch.afterTry p = ch.afterRead p := by
  unfold Chip.afterTry
  rw [if_pos h]

theorem Chip.afterTry_bad (ch : Chip) (p : Int) (h : ch.fails p ≠ 0) :
    ch.afterTry p = (ch.afterRead p).afterRead p := by
  unfold Chip.afterTry
  rw [if_neg h]

theorem Chip.afterTries_cons (ch : Chip) (p : Int) (ps : List Int) :
    ch.afterTries (p :: ps) = (ch.afterTry p).afterTries ps := rfl

theorem Chip.afterTries_pages (ps : List Int) : ∀ ch : Chip,
    (ch.afterTries ps).pages = ch.pages ∧ (ch.afterTries ps).wp = ch.wp := by
  induction ps with
  | nil => intro ch; exact ⟨rfl, rfl⟩
  | cons p ps ih =>
    intro ch
    rw [Chip.afterTries_cons]
    exact ⟨(ih _).1.trans (Chip.afterTry_pages ch p).1, (ih _).2.trans (Chip.afterTry_pages ch p).2⟩

theorem Chip.afterTries_fails_le (ps : List Int) : ∀ (ch : Chip) (q : Int),
    (ch.afterTries ps).fails q ≤ ch.fails q := by
  induction ps with
  | nil => intro ch q; exact le_refl _
  | cons p ps ih =>
    intro ch q
    rw [Chip.afterTries_cons]
    exact le_trans (ih _ q) (Chip.afterTry_fails_le ch p q)

/-- After its pages have been fetched, none of them that failed at most once fails again. -/
theorem Chip.afterTries_zero (ps : List Int) : ∀ (ch : Chip) (q : Int), q ∈ ps →
    ch.fails q ≤ 1 → (ch.afterTries ps).fails q = 0 := by
  induction ps with
  | nil => intro ch q hq; exact absurd hq (List.not_mem_nil _)
  | cons p ps ih =>
    intro ch q hq h1
    rw [Chip.afterTries_cons]
    by_cases hqp : q = p
    · subst hqp
      have h0 : (ch.afterTry q).fails q = 0 := by rw [Chip.afterTry_fails_self]; omega
      have := Chip.afterTries_fails_le ps (ch.afterTry q) q
      omega
    · rcases List.mem_cons.mp hq with h | h
      · exact absurd h hqp
      · exact ih _ q h (le_trans (Chip.afterTry_fails_le ch p q) h1)

/-- Fetching pages only adds reads of those pages to the record. -/
theorem Chip.afterTries_log_mem (ps : List Int) : ∀ (ch : Chip) (op : ChipOp),
    op ∈ (ch.afterTries ps).log → op ∈ ch.log ∨ ∃ p, p ∈ ps ∧ op = ChipOp.read p := by
  induction ps with
  | nil => intro ch op h; exact Or.inl h
  | cons p ps ih =>
    intro ch op h
    rw [Chip.afterTries_cons] at h
    rcases ih _ op h with h1 | ⟨q, hq, he⟩
    · rw [Chip.afterTry_log, List.mem_append] at h1
      rcases h1 with h1 | h1
      · exact Or.inl h1
      · right
        refine ⟨p, List.mem_cons_self _ _, ?_⟩
        split at h1 <;> simp at h1 <;> exact h1
    · exact Or.inr ⟨q, List.mem_cons_of_mem _ hq, he⟩

/-- Fetching pages none of which fails is one read of each. -/
theorem Chip.afterTries_good (ps : List Int) : ∀ ch : Chip, (∀ p, p ∈ ps → ch.fails p = 0) →
    ch.afterTries ps = ch.afterReads ps := by
  induction ps with
  | nil => intro ch _; rfl
  | cons p ps ih =>
    intro ch h
    have h0 := h p (List.mem_cons_self _ _)
    rw [Chip.afterTries_cons, Chip.afterReads_cons, Chip.afterTry_good ch p h0]
    apply ih
    intro q hq
    rw [Chip.afterRead_good ch p h0]
    exact h q (List.mem_cons_of_mem _ hq)

theorem page_run_step {cfg : Cfg} (hwf : cfg.WF) (addr n len : Nat) (hn : 0 < n)
    (hlen : len = min n (cfg.CFG_PAGESIZE - addr % cfg.CFG_PAGESIZE)) :
    page_run cfg addr n
      = (page_of cfg addr : Int)
        :: page_run cfg ((page_of cfg addr + 1) * cfg.CFG_PAGESIZE) (n - len) := by
  unfold page_run
  rw [write_count_step hwf addr n len hn hlen, List.range_succ_eq_map, List.map_cons,
    List.map_map, write_page_index_zero hwf]
  congr 1
  apply List.map_congr_left
  intro k _
  simp only [Function.comp_apply, Nat.succ_eq_add_one]
  rw [write_page_index_succ hwf]

theorem page_run_zero (cfg : Cfg) (addr : Nat) : page_run cfg addr 0 = [] := by
  simp [page_run, write_count]

/-- The bad-block probe on the recording chip. -/
theorem chip_isbad (cfg : Cfg) (ch : Chip) (a : Nat) :
    ranand_block_isbad cfg (chipLayer cfg) a ch
      = some (if ch.tag_ok cfg a then 0 else 1, ch) := by
  rw [ranand_block_isbad_spec cfg (chipLayer cfg) a ch ch 0
    (fun i => if (i : Int) < 1
      then ch.pages (i32 ((a >>> cfg.CONFIG_PAGE_SIZE_BIT : Nat) : Int))
        (cfg.CFG_PAGESIZE + cfg.CONFIG_BAD_BLOCK_POS + i)
      else (chipLayer cfg).uninit i) rfl]
  simp [Chip.tag_ok]

theorem chip_read_page {cfg : Cfg} (h : cfg.WF) (ch : Chip) (a : Nat) (b : Mem) :
    (chipLayer cfg).nfc_read_page b (page_of cfg a : Int) ch
      = some ((if 0 < ch.fails (page_of cfg a) then -2 else 0, ch.staged cfg (page_of cfg a) b),
          ch.afterRead (page_of cfg a)) := by
  show some _ = some _
  rw [chip_page_page_of h]
  rfl

theorem chip_write_page {cfg : Cfg} (h : cfg.WF) (ch : Chip) (a : Nat) (b : Mem) :
    (chipLayer cfg).nfc_write_page b (page_of cfg a : Int) ch
      = some ((0, b), ch.afterWrite cfg (page_of cfg a) b) := by
  show some _ = some _
  rw [chip_page_page_of h]

theorem Chip.staged_afterRead (cfg : Cfg) (ch : Chip) (p : Nat) (q : Int) (b : Mem) :
    (ch.afterRead q).staged cfg p (ch.staged cfg p b) = ch.staged cfg p b := by
  funext i
  unfold Chip.staged
  show (if _ then ch.pages p i else _) = _
  split <;> rfl

/-- One iteration of the loop of `ranand_read` on the recording chip, at an address whose
bad-block probe reports good: the page is read once when it does not fail, twice when it
does; the loop stops with -1 when the retry fails too. -/
theorem chip_read_step {cfg : Cfg} (h : cfg.WF) (ch : Chip) (fuel : Nat) (buffers buf : Mem)
    (bpos addr retlen : Nat) (datalen : Int) (hpos : 0 < datalen)
    (htag : cfg.CONFIG_BADBLOCK_CHECK = true → ch.tag_ok cfg addr) :
    ranand_read_loop cfg (chipLayer cfg) (fuel + 1) buffers buf bpos addr datalen retlen ch
      = if 2 ≤ ch.fails (page_of cfg addr) then
          some ((-1, memcpy buf bpos (ch.staged cfg (page_of cfg addr) buffers)
            (addr % cfg.CFG_PAGESIZE)
            (min datalen ((cfg.CFG_PAGESIZE : Int) - (addr % cfg.CFG_PAGESIZE : Nat))).toNat),
            (ch.afterRead (page_of cfg addr)).afterRead (page_of cfg addr))
        else
          ranand_read_loop cfg (chipLayer cfg) fuel (ch.staged cfg (page_of cfg addr) buffers)
            (memcpy buf bpos (ch.staged cfg (page_of cfg addr) buffers)
              (addr % cfg.CFG_PAGESIZE)
              (min datalen ((cfg.CFG_PAGESIZE : Int) - (addr % cfg.CFG_PAGESIZE : Nat))).toNat)
            (bpos + (min datalen ((cfg.CFG_PAGESIZE : Int) - (addr % cfg.CFG_PAGESIZE : Nat))).toNat)
            ((page_of cfg addr + 1) * cfg.CFG_PAGESIZE)
            (datalen - min datalen ((cfg.CFG_PAGESIZE : Int) - (addr % cfg.CFG_PAGESIZE : Nat)))
            (retlen + (min datalen ((cfg.CFG_PAGESIZE : Int) - (addr % cfg.CFG_PAGESIZE : Nat))).toNat)
            (if ch.fails (page_of cfg addr) = 0 then ch.afterRead (page_of cfg addr)
              else (ch.afterRead (page_of cfg addr)).afterRead (page_of cfg addr)) := by
  have hlt : addr % cfg.CFG_PAGESIZE < cfg.CFG_PAGESIZE := Nat.mod_lt _ h.ps_pos
  have hlen : 0 < min datalen ((cfg.CFG_PAGESIZE : Int) - (addr % cfg.CFG_PAGESIZE : Nat)) := by
    omega
  have hne : datalen ≠ 0 := by omega
  have hm2 : ¬ ((-2 : Int) = 0) := by decide
  have hf1 : (ch.afterRead (page_of cfg addr)).fails (page_of cfg addr)
      = ch.fails (page_of cfg addr) - 1 := by
    show (if _ then _ else _) = _
    rw [if_pos rfl]
  rw [ranand_read_loop]
  simp only [step_page h, step_offs h, step_next h, if_pos hne, M.bind_run, chip_isbad,
    Option.some_bind, ne_eq, chip_read_page h, M.ite_run, M.pure_run, Int.toNat_ofNat]
  have hfin : ∀ k : Nat, ch.fails (page_of cfg addr) = k →
      ∀ (A B C : Option ((Int × Mem) × Chip)),
      (if ¬ (if 0 < k then (-2 : Int) else 0) = 0 then
        if ¬ (if 0 < k - 1 then (-2 : Int) else 0) = 0 then A else B else C)
      = if 2 ≤ k then A else if k = 0 then C else B := by
    intro k _ A B C
    rcases k with _ | _ | k
    · simp
    · simp
    · simp
  by_cases hc : cfg.CONFIG_BADBLOCK_CHECK = true
  · simp only [hc, if_true, htag hc, Option.some_bind, not_true_eq_false, if_false, hlen,
      gt_iff_lt, hf1, Chip.staged_afterRead]
    rw [hfin _ rfl]
    by_cases h2 : 2 ≤ ch.fails (page_of cfg addr)
    · rw [if_pos h2, if_pos h2]
    · rw [if_neg h2, if_neg h2]
      by_cases h0 : ch.fails (page_of cfg addr) = 0
      · rw [if_pos h0, if_pos h0]
        have hn0 : ¬ (0 < ch.fails (page_of cfg addr)) := by omega
        rw [if_neg hn0, if_neg (fun hh => hh rfl)]
      · rw [if_neg h0, if_neg h0]
  · simp only [hc, Bool.false_eq_true, if_false, Option.some_bind, not_true_eq_false, hlen,
      gt_iff_lt, hf1, Chip.staged_afterRead, if_true]
    rw [hfin _ rfl]
    by_cases h2 : 2 ≤ ch.fails (page_of cfg addr)
    · rw [if_pos h2, if_pos h2]
    · rw [if_neg h2, if_neg h2]
      by_cases h0 : ch.fails (page_of cfg addr) = 0
      · rw [if_pos h0, if_pos h0]
        have hn0 : ¬ (0 < ch.fails (page_of cfg addr)) := by omega
        rw [if_neg hn0, if_neg (fun hh => hh rfl)]
      · rw [if_neg h0, if_neg h0]

theorem Chip.byte_mod_chip {cfg : Cfg} (hwf : cfg.WF) (ch : Chip) (a b : Nat)
    (h : a % cfg.CFG_CHIPSIZE = b % cfg.CFG_CHIPSIZE) : ch.byte cfg a = ch.byte cfg b := by
  unfold Chip.byte
  rw [page_of_congr cfg a b h]
  have ha := Nat.mod_mod_of_dvd a hwf.ps_dvd_chip
  have hb := Nat.mod_mod_of_dvd b hwf.ps_dvd_chip
  rw [← ha, ← hb, h]

/-- One iteration of the loop of `ranand_read` on the recording chip, with the chip left
in the state after the fetch of the page. -/
theorem chip_read_try {cfg : Cfg} (h : cfg.WF) (ch : Chip) (fuel : Nat) (buffers buf : Mem)
    (bpos addr retlen : Nat) (datalen : Int) (hpos : 0 < datalen)
    (htag : cfg.CONFIG_BADBLOCK_CHECK = true → ch.tag_ok cfg addr) :
    ranand_read_loop cfg (chipLayer cfg) (fuel + 1) buffers buf bpos addr datalen retlen ch
      = if 2 ≤ ch.fails (page_of cfg addr) then
          some ((-1, memcpy buf bpos (ch.staged cfg (page_of cfg addr) buffers)
            (addr % cfg.CFG_PAGESIZE)
            (min datalen ((cfg.CFG_PAGESIZE : Int) - (addr % cfg.CFG_PAGESIZE : Nat))).toNat),
            ch.afterTry (page_of cfg addr))
        else
          ranand_read_loop cfg (chipLayer cfg) fuel (ch.staged cfg (page_of cfg addr) buffers)
            (memcpy buf bpos (ch.staged cfg (page_of cfg addr) buffers)
              (addr % cfg.CFG_PAGESIZE)
              (min datalen ((cfg.CFG_PAGESIZE : Int) - (addr % cfg.CFG_PAGESIZE : Nat))).toNat)
            (bpos + (min datalen ((cfg.CFG_PAGESIZE : Int) - (addr % cfg.CFG_PAGESIZE : Nat))).toNat)
            ((page_of cfg addr + 1) * cfg.CFG_PAGESIZE)
            (datalen - min datalen ((cfg.CFG_PAGESIZE : Int) - (addr % cfg.CFG_PAGESIZE : Nat)))
            (retlen + (min datalen ((cfg.CFG_PAGESIZE : Int) - (addr % cfg.CFG_PAGESIZE : Nat))).toNat)
            (ch.afterTry (page_of cfg addr)) := by
  rw [chip_read_step h ch fuel buffers buf bpos addr retlen datalen hpos htag]
  by_cases h2 : 2 ≤ ch.fails (page_of cfg addr)
  · rw [if_pos h2, if_pos h2, Chip.afterTry_bad ch _ (by omega)]
  · rw [if_neg h2, if_neg h2]
    by_cases h0 : ch.fails (page_of cfg addr) = 0
    · rw [if_pos h0, Chip.afterTry_good ch _ h0]
    · rw [if_neg h0, Chip.afterTry_bad ch _ h0]

theorem Chip.afterTry_byte (cfg : Cfg) (ch : Chip) (p : Int) (a : Nat) :
    (ch.afterTry p).byte cfg a = ch.byte cfg a := by
  unfold Chip.byte
  rw [(Chip.afterTry_pages ch p).1]

theorem Chip.afterTry_tag_ok (cfg : Cfg) (ch : Chip) (p : Int) (a : Nat) :
    (ch.afterTry p).tag_ok cfg a ↔ ch.tag_ok cfg a := by
  unfold Chip.tag_ok
  rw [(Chip.afterTry_pages ch p).1]

/-- The read loop on the recording chip: `m` is the number of leading bytes whose pages are
fetched (read, or read again after one failure); when `m < n` the page holding byte `m`
fails its read and its retry and the loop stops there.  The chip ends in the state after the
fetch of each page of the first `m` bytes and, when `m < n`, of the failing page. -/
theorem chip_read_loop {cfg : Cfg} (hwf : cfg.WF) :
    ∀ (fuel : Nat) (buffers buf : Mem) (bpos addr retlen n m : Nat) (ch : Chip),
      n < fuel → m ≤ n →
      (∀ i, i < m → ch.fails (page_of cfg (addr + i)) ≤ 1) →
      (m < n → 2 ≤ ch.fails (page_of cfg (addr + m))
        ∧ (m = 0 ∨ (addr + m) % cfg.CFG_PAGESIZE = 0)) →
      (cfg.CONFIG_BADBLOCK_CHECK = true →
        ∀ a i, i < n → i ≤ m → a % cfg.CFG_CHIPSIZE = (addr + i) % cfg.CFG_CHIPSIZE →
          ch.tag_ok cfg a) →
      ranand_read_loop cfg (chipLayer cfg) fuel buffers buf bpos addr n retlen ch
        = some ((if m < n then -1 else i32 ((retlen + n : Nat) : Int),
            fun x =>
              if bpos ≤ x ∧ x < bpos + (if m < n
                  then min n (m + (cfg.CFG_PAGESIZE - (addr + m) % cfg.CFG_PAGESIZE)) else n)
              then ch.byte cfg (addr + (x - bpos)) else buf x),
            ch.afterTries (page_run cfg addr m
              ++ if m < n then [(page_of cfg (addr + m) : Int)] else [])) := by
  intro fuel
  induction fuel with
  | zero => intro _ _ _ _ _ n m _ hn; omega
  | succ f ih =>
    intro buffers buf bpos addr retlen n m ch hn hm hcor hfail htag
    have hps := hwf.ps_pos
    have hlt : addr % cfg.CFG_PAGESIZE < cfg.CFG_PAGESIZE := Nat.mod_lt _ hps
    rcases Nat.eq_zero_or_pos n with hn0 | hnpos
    · subst hn0
      have hm0 : m = 0 := by omega
      subst hm0
      rw [ranand_read_loop]
      simp only [Nat.cast_zero, ne_eq, not_true_eq_false, if_false, M.pure_run, lt_self_iff_false,
        Nat.add_zero, page_run_zero, List.append_nil]
      refine congrArg some (Prod.ext (Prod.ext rfl (funext fun x => ?_)) rfl)
      show buf x = if bpos ≤ x ∧ x < bpos then _ else buf x
      rw [if_neg (by omega)]
    · have hstep := chip_read_try hwf ch f buffers buf bpos addr retlen (n : Int)
        (by exact_mod_cast hnpos)
        (fun hc => htag hc addr 0 hnpos (Nat.zero_le _) rfl)
      rw [hstep]
      obtain ⟨len, hlen⟩ : ∃ len : Nat, len = min n (cfg.CFG_PAGESIZE - addr % cfg.CFG_PAGESIZE) :=
        ⟨_, rfl⟩
      have hlen1 : 1 ≤ len := by omega
      have hlenn : len ≤ n := by omega
      have hlenp : addr % cfg.CFG_PAGESIZE + len ≤ cfg.CFG_PAGESIZE := by omega
      have hlenI : min (n : Int) ((cfg.CFG_PAGESIZE : Int) - (addr % cfg.CFG_PAGESIZE : Nat))
          = (len : Int) := by omega
      have hsubI : (n : Int) - (len : Int) = ((n - len : Nat) : Int) := by omega
      rw [hlenI, hsubI]
      simp only [Int.toNat_ofNat]
      have hsame : ∀ i, i < len → ch.byte cfg (addr + i)
          = ch.staged cfg (page_of cfg addr) buffers (addr % cfg.CFG_PAGESIZE + i) := by
        intro i hi
        obtain ⟨h1, h2⟩ := page_of_same hwf addr i (by omega)
        unfold Chip.byte Chip.staged
        rw [h1, h2, if_pos (by omega)]
      have hshift : len < n → ∀ j,
          ((page_of cfg addr + 1) * cfg.CFG_PAGESIZE + j) % cfg.CFG_CHIPSIZE
            = (addr + (len + j)) % cfg.CFG_CHIPSIZE := by
        intro hl j
        have e : len = cfg.CFG_PAGESIZE - addr % cfg.CFG_PAGESIZE := by omega
        rw [next_congr hwf addr j, e, Nat.add_assoc]
      rcases Nat.eq_zero_or_pos m with hm0 | hmpos
      · -- the first page fails twice
        subst hm0
        obtain ⟨hc, _⟩ := hfail hnpos
        rw [Nat.add_zero] at hc
        rw [if_pos hc, if_pos hnpos]
        refine congrArg some (Prod.ext (Prod.ext rfl (funext fun x => ?_)) ?_)
        · simp only [memcpy, if_pos hnpos, Nat.zero_add, Nat.add_zero, ← hlen]
          by_cases hx : bpos ≤ x ∧ x < bpos + len
          · rw [if_pos hx, if_pos hx, hsame _ (by omega)]
          · rw [if_neg hx, if_neg hx]
        · simp only [page_run_zero, List.nil_append, if_pos hnpos, Nat.add_zero]
          rfl
      · -- the first page is fetched, the loop goes on
        have hc0 : ch.fails (page_of cfg addr) ≤ 1 := by
          have := hcor 0 hmpos
          rwa [Nat.add_zero] at this
        rw [if_neg (by omega)]
        have hlm : len ≤ m := by
          by_contra hcon
          have hmn : m < n := by omega
          obtain ⟨_, h2⟩ := hfail hmn
          rcases h2 with h2 | h2
          · omega
          · obtain ⟨_, h4⟩ := page_of_same hwf addr m (by omega)
            omega
        have hIH := ih (ch.staged cfg (page_of cfg addr) buffers)
          (memcpy buf bpos (ch.staged cfg (page_of cfg addr) buffers)
            (addr % cfg.CFG_PAGESIZE) len)
          (bpos + len) ((page_of cfg addr + 1) * cfg.CFG_PAGESIZE) (retlen + len) (n - len)
          (m - len) (ch.afterTry (page_of cfg addr)) (by omega) (by omega)
          (by
            intro i hi
            refine le_trans (Chip.afterTry_fails_le ch _ _) ?_
            rw [page_of_congr cfg _ _ (hshift (by omega) i)]
            exact hcor _ (by omega))
          (by
            intro hmn
            obtain ⟨h1, h2⟩ := hfail (by omega)
            have e : addr + (len + (m - len)) = addr + m := by omega
            have hs := hshift (by omega) (m - len)
            rw [e] at hs
            refine ⟨?_, ?_⟩
            · rw [page_of_congr cfg _ _ hs, Chip.afterTry_fails_ne ch _ _ ?_]
              · exact h1
              · intro he
                rw [he] at h1
                omega
            · rcases h2 with h2 | h2
              · omega
              · right
                have ha := Nat.mod_mod_of_dvd
                  ((page_of cfg addr + 1) * cfg.CFG_PAGESIZE + (m - len)) hwf.ps_dvd_chip
                have hb := Nat.mod_mod_of_dvd (addr + m) hwf.ps_dvd_chip
                rw [← ha, hs, hb, h2])
          (by
            intro hcc a i hi him ha
            rw [Chip.afterTry_tag_ok]
            exact htag hcc a (len + i) (by omega) (by omega) (by rw [ha, hshift (by omega) i]))
        rw [hIH]
        have hbyte : ∀ a, (ch.afterTry (page_of cfg addr)).byte cfg a = ch.byte cfg a :=
          fun a => Chip.afterTry_byte cfg ch _ a
        have hmod : len < n → ((page_of cfg addr + 1) * cfg.CFG_PAGESIZE + (m - len)) % cfg.CFG_PAGESIZE
            = (addr + m) % cfg.CFG_PAGESIZE := by
          intro hl
          have e : addr + (len + (m - len)) = addr + m := by omega
          have hs := hshift hl (m - len)
          rw [e] at hs
          have ha := Nat.mod_mod_of_dvd ((page_of cfg addr + 1) * cfg.CFG_PAGESIZE + (m - len))
            hwf.ps_dvd_chip
          have hb := Nat.mod_mod_of_dvd (addr + m) hwf.ps_dvd_chip
          rw [← ha, hs, hb]
        have hpage : len < n → page_of cfg ((page_of cfg addr + 1) * cfg.CFG_PAGESIZE + (m - len))
            = page_of cfg (addr + m) := by
          intro hl
          have e : addr + (len + (m - len)) = addr + m := by omega
          have hs := hshift hl (m - len)
          rw [e] at hs
          exact page_of_congr cfg _ _ hs
        have hrun : page_run cfg addr m
            = (page_of cfg addr : Int)
              :: page_run cfg ((page_of cfg addr + 1) * cfg.CFG_PAGESIZE) (m - len) :=
          page_run_step hwf addr m len hmpos (by omega)
        by_cases hmn : m < n
        · have hmn' : m - len < n - len := by omega
          have hmod' := hmod (by omega)
          rw [if_pos hmn, if_pos hmn']
          refine congrArg some (Prod.ext (Prod.ext rfl (funext fun x => ?_)) ?_)
          · simp only [if_pos hmn, if_pos hmn', hmod', memcpy, hbyte]
            have hltm : (addr + m) % cfg.CFG_PAGESIZE < cfg.CFG_PAGESIZE := Nat.mod_lt _ hps
            by_cases hx1 : bpos ≤ x ∧ x < bpos + len
            · rw [if_neg (by omega), if_pos hx1, if_pos (by omega), hsame _ (by omega)]
            · by_cases hx2 : bpos + len ≤ x ∧ x < bpos + len
                  + min (n - len) (m - len + (cfg.CFG_PAGESIZE - (addr + m) % cfg.CFG_PAGESIZE))
              · rw [if_pos hx2, if_pos (by omega)]
                have e : addr + (x - bpos) = addr + (len + (x - (bpos + len))) := by omega
                rw [e]
                exact Chip.byte_mod_chip hwf ch _ _ (hshift (by omega) _)
              · rw [if_neg hx2, if_neg hx1, if_neg (by omega)]
          · simp only [if_pos hmn, if_pos hmn', hpage (by omega), hrun, List.cons_append,
              Chip.afterTries_cons]
        · have hmn' : ¬ (m - len < n - len) := by omega
          rw [if_neg hmn, if_neg hmn']
          have e0 : retlen + len + (n - len) = retlen + n := by omega
          rw [e0]
          refine congrArg some (Prod.ext (Prod.ext rfl (funext fun x => ?_)) ?_)
          · simp only [if_neg hmn, if_neg hmn', memcpy, hbyte]
            by_cases hx1 : bpos ≤ x ∧ x < bpos + len
            · rw [if_neg (by omega), if_pos hx1, if_pos (by omega), hsame _ (by omega)]
            · by_cases hx2 : bpos + len ≤ x ∧ x < bpos + len + (n - len)
              · rw [if_pos hx2, if_pos (by omega)]
                have e : addr + (x - bpos) = addr + (len + (x - (bpos + len))) := by omega
                rw [e]
                exact Chip.byte_mod_chip hwf ch _ _ (hshift (by omega) _)
              · rw [if_neg hx2, if_neg hx1, if_neg (by omega)]
          · simp only [if_neg hmn, if_neg hmn', hrun, List.cons_append, Chip.afterTries_cons]

/-- The write loop on the recording chip. -/
theorem chip_write_loop {cfg : Cfg} (hwf : cfg.WF) (src : Mem) :
    ∀ (fuel : Nat) (buffers : Mem) (bpos addr retlen n : Nat) (ch : Chip),
      n < fuel → ch.wp = false →
      ∃ ch1, ranand_write_loop cfg (chipLayer cfg) src fuel buffers bpos addr n retlen ch
          = some (i32 ((retlen + n : Nat) : Int), ch1)
        ∧ ch1.wp = false ∧ ch1.fails = ch.fails
        ∧ ch1.log = ch.log ++ (page_run cfg addr n).map ChipOp.write
        ∧ (∀ q : Int, (∀ i, i < n → (page_of cfg (addr + i) : Int) ≠ q) →
            ch1.pages q = ch.pages q)
        ∧ (∀ i, i < n → ch1.pages (page_of cfg (addr + i))
            (cfg.CFG_PAGESIZE + cfg.CONFIG_BAD_BLOCK_POS) = 0xff)
        ∧ (addr % cfg.CFG_PAGESIZE + n ≤ cfg.CFG_CHIPSIZE →
            ∀ i, i < n → ch1.byte cfg (addr + i) = src (bpos + i)) := by
  intro fuel
  induction fuel with
  | zero => intro _ _ _ _ n _ hn; omega
  | succ f ih =>
    intro buffers bpos addr retlen n ch hn hwp
    have hps := hwf.ps_pos
    have hlt : addr % cfg.CFG_PAGESIZE < cfg.CFG_PAGESIZE := Nat.mod_lt _ hps
    rcases Nat.eq_zero_or_pos n with hn0 | hnpos
    · subst hn0
      refine ⟨ch, ?_, hwp, rfl, by simp [page_run_zero], fun _ _ => rfl, fun i hi => by omega,
        fun _ i hi => by omega⟩
      rw [ranand_write_loop]
      simp
    · obtain ⟨len, hlen⟩ : ∃ len : Nat, len = min n (cfg.CFG_PAGESIZE - addr % cfg.CFG_PAGESIZE) :=
        ⟨_, rfl⟩
      have hlen1 : 1 ≤ len := by omega
      have hlenn : len ≤ n := by omega
      have hlenp : addr % cfg.CFG_PAGESIZE + len ≤ cfg.CFG_PAGESIZE := by omega
      have hlenI : min (n : Int) ((cfg.CFG_PAGESIZE : Int) - (addr % cfg.CFG_PAGESIZE : Nat))
          = (len : Int) := by omega
      have hsubI : (n : Int) - (len : Int) = ((n - len : Nat) : Int) := by omega
      have hcw : (chipLayer cfg).nfc_check_wp ch = some (0, ch) := by
        show some _ = some _
        rw [hwp]; rfl
      have hstep := write_step hwf (chipLayer cfg) src f buffers bpos addr retlen (n : Int)
        (by exact_mod_cast hnpos) ch ch _ _ hcw (chip_write_page hwf ch addr _)
      rw [hstep, hlenI, hsubI]
      simp only [Int.toNat_ofNat]
      generalize hst : write_staged cfg buffers src (addr % cfg.CFG_PAGESIZE) bpos len = st
      obtain ⟨ch1, hrun, hwp1, hcor1, hlog1, hframe, htags, hbytes⟩ :=
        ih st (bpos + len) ((page_of cfg addr + 1) * cfg.CFG_PAGESIZE) (retlen + len) (n - len)
          (ch.afterWrite cfg (page_of cfg addr) st) (by omega) hwp
      have hshift : len < n → ∀ j,
          ((page_of cfg addr + 1) * cfg.CFG_PAGESIZE + j) % cfg.CFG_CHIPSIZE
            = (addr + (len + j)) % cfg.CFG_CHIPSIZE := by
        intro hl j
        have e : len = cfg.CFG_PAGESIZE - addr % cfg.CFG_PAGESIZE := by omega
        rw [next_congr hwf addr j, e, Nat.add_assoc]
      have hsttag : st (cfg.CFG_PAGESIZE + cfg.CONFIG_BAD_BLOCK_POS) = 0xff := by
        have hb := hwf.badpos
        rw [← hst]
        unfold write_staged memcpy memset
        rw [if_neg (by omega), if_pos (by omega)]
      have hstore : ∀ j, j < cfg.CFG_PAGESIZE + cfg.CFG_PAGE_OOBSIZE →
          (ch.afterWrite cfg (page_of cfg addr) st).pages (page_of cfg addr) j = st j := by
        intro j hj
        simp only [Chip.afterWrite, if_true, if_pos hj]
      have hstore_ne : ∀ q : Int, q ≠ (page_of cfg addr : Int) →
          (ch.afterWrite cfg (page_of cfg addr) st).pages q = ch.pages q := by
        intro q hq
        simp only [Chip.afterWrite, if_neg hq]
      refine ⟨ch1, ?_, hwp1, hcor1, ?_, ?_, ?_, ?_⟩

      · rw [hrun]
        have e0 : retlen + len + (n - len) = retlen + n := by omega
        rw [e0]
      · rw [hlog1, page_run_step hwf addr n len hnpos hlen]
        simp [Chip.afterWrite]
      · intro q hq
        rw [hframe q ?_, hstore_ne q ?_]
        · have := hq 0 hnpos
          rw [Nat.add_zero] at this
          exact fun e => this e.symm
        · intro i hi
          rw [page_of_congr cfg _ _ (hshift (by omega) i)]
          exact hq _ (by omega)
      · intro i hi
        by_cases hex : ∃ i', i' < n - len ∧
            page_of cfg ((page_of cfg addr + 1) * cfg.CFG_PAGESIZE + i') = page_of cfg (addr + i)
        · obtain ⟨i', hi', he⟩ := hex
          rw [← he]
          exact htags i' hi'
        · have hil : i < len := by
            by_contra hcon
            apply hex
            refine ⟨i - len, by omega, ?_⟩
            rw [page_of_congr cfg _ _ (hshift (by omega) (i - len))]
            congr 2; omega
          have hP : page_of cfg (addr + i) = page_of cfg addr :=
            (page_of_same hwf addr i (by omega)).1
          rw [hP, hframe _ ?_, hstore _ (by have := hwf.badpos; omega), hsttag]
          intro i' hi' he
          apply hex
          exact ⟨i', hi', by rw [hP]; exact_mod_cast he⟩
      · intro hfit i hi
        by_cases hil : i < len
        · obtain ⟨hP, ho⟩ := page_of_same hwf addr i (by omega)
          unfold Chip.byte
          rw [hP, ho, hframe _ ?_, hstore _ (by omega), ← hst]
          · unfold write_staged memcpy
            rw [if_pos (by omega)]
            congr 1; omega
          · intro i' hi' he
            have hne := page_of_ne hwf addr (len + i') (by omega) (by omega)
            apply hne
            rw [← page_of_congr cfg _ _ (hshift (by omega) i')]
            exact_mod_cast he
        · have e : addr + i = addr + (len + (i - len)) := by omega
          rw [e, ← Chip.byte_mod_chip hwf ch1 _ _ (hshift (by omega) (i - len))]
          have hz : (page_of cfg addr + 1) * cfg.CFG_PAGESIZE % cfg.CFG_PAGESIZE = 0 :=
            Nat.mul_mod_left _ _
          rw [hbytes (by rw [hz]; omega) (i - len) (by omega)]
          congr 1; omega

theorem Chip.afterReads_good (ps : List Int) : ∀ ch : Chip, (∀ p, p ∈ ps → ch.fails p = 0) →
    (ch.afterReads ps).fails = ch.fails := by
  induction ps with
  | nil => intro ch _; rfl
  | cons p ps ih =>
    intro ch h
    have h0 := Chip.afterRead_good ch p (h p (List.mem_cons_self _ _))
    rw [Chip.afterReads_cons, ih _ (fun q hq => by rw [h0]; exact h q (List.mem_cons_of_mem _ hq)),
      h0]

/-- Every page of `page_run` is the page of one of the bytes. -/
theorem page_run_mem {cfg : Cfg} (hwf : cfg.WF) : ∀ (n addr : Nat) (p : Int),
    p ∈ page_run cfg addr n → ∃ i, i < n ∧ p = (page_of cfg (addr + i) : Int) := by
  intro n
  induction n using Nat.strong_induction_on with
  | _ n ih =>
    intro addr p hp
    rcases Nat.eq_zero_or_pos n with hn0 | hnpos
    · subst hn0
      rw [page_run_zero] at hp
      exact absurd hp (List.not_mem_nil _)
    · have hps := hwf.ps_pos
      have hlt : addr % cfg.CFG_PAGESIZE < cfg.CFG_PAGESIZE := Nat.mod_lt _ hps
      obtain ⟨len, hlen⟩ : ∃ len : Nat, len = min n (cfg.CFG_PAGESIZE - addr % cfg.CFG_PAGESIZE) :=
        ⟨_, rfl⟩
      rw [page_run_step hwf addr n len hnpos hlen, List.mem_cons] at hp
      rcases hp with hp | hp
      · exact ⟨0, hnpos, by rw [hp, Nat.add_zero]⟩
      · obtain ⟨i, hi, he⟩ := ih (n - len) (by omega) _ p hp
        refine ⟨len + i, by omega, ?_⟩
        rw [he]
        congr 1
        apply page_of_congr
        have e : len = cfg.CFG_PAGESIZE - addr % cfg.CFG_PAGESIZE := by omega
        rw [next_congr hwf addr i, e, Nat.add_assoc]

/-- The page of every byte is in `page_run`. -/
theorem page_run_has {cfg : Cfg} (hwf : cfg.WF) : ∀ (n addr i : Nat), i < n →
    (page_of cfg (addr + i) : Int) ∈ page_run cfg addr n := by
  intro n
  induction n using Nat.strong_induction_on with
  | _ n ih =>
    intro addr i hi
    have hnpos : 0 < n := by omega
    have hps := hwf.ps_pos
    have hlt : addr % cfg.CFG_PAGESIZE < cfg.CFG_PAGESIZE := Nat.mod_lt _ hps
    obtain ⟨len, hlen⟩ : ∃ len : Nat, len = min n (cfg.CFG_PAGESIZE - addr % cfg.CFG_PAGESIZE) :=
      ⟨_, rfl⟩
    rw [page_run_step hwf addr n len hnpos hlen, List.mem_cons]
    by_cases hil : i < len
    · left
      rw [(page_of_same hwf addr i (by omega)).1]
    · right
      have h := ih (n - len) (by omega) ((page_of cfg addr + 1) * cfg.CFG_PAGESIZE) (i - len)
        (by omega)
      have e : len = cfg.CFG_PAGESIZE - addr % cfg.CFG_PAGESIZE := by omega
      have hs : ((page_of cfg addr + 1) * cfg.CFG_PAGESIZE + (i - len)) % cfg.CFG_CHIPSIZE
          = (addr + i) % cfg.CFG_CHIPSIZE := by
        rw [next_congr hwf addr (i - len)]
        congr 1; omega
      rw [page_of_congr cfg _ _ hs] at h
      exact h

/-- `ranand_erase` of one good block on the recording chip. -/
theorem chip_erase_one {cfg : Cfg} (hwf : cfg.WF) (ch : Chip) (a fuel : Nat)
    (ha : a % cfg.CFG_BLOCKSIZE = 0) (hwp : ch.wp = false)
    (htag : cfg.CONFIG_BADBLOCK_CHECK = true → ch.tag_ok cfg a) :
    ranand_erase cfg (chipLayer cfg) (fuel + 2) a cfg.CFG_BLOCKSIZE ch
      = some (0, ch.afterErase cfg (i32 ((a >>> cfg.CONFIG_PAGE_SIZE_BIT : Nat) : Int))) := by
  have hbs := hwf.bs_pos
  have hle := hwf.bs_le
  have h1 : a &&& (cfg.CFG_BLOCKSIZE - 1) = 0 := by rw [block_mask_nat hwf]; exact ha
  have h2 : u32 ((cfg.CFG_BLOCKSIZE : Nat) : Int) &&& (cfg.CFG_BLOCKSIZE - 1) = 0 := by
    have := block_mask_int hwf ((cfg.CFG_BLOCKSIZE : Nat) : Int)
    rw [Int.emod_self] at this
    exact_mod_cast this
  have hlen0 : ((cfg.CFG_BLOCKSIZE : Nat) : Int) ≠ 0 := by omega
  have hlen : i32 (((cfg.CFG_BLOCKSIZE : Nat) : Int)
      - (u32 (2 ^ (cfg.CONFIG_PAGE_SIZE_BIT + cfg.CONFIG_NUMPAGE_PER_BLOCK_BIT)) : Nat)) = 0 := by
    rw [erase_blocksize hwf]
    unfold i32; omega
  have hcheck : (chipLayer cfg).nfc_check_wp ch = some (0, ch) := by
    show some ((if ch.wp then (1 : Int) else 0), ch) = some (0, ch)
    rw [hwp]; rfl
  unfold ranand_erase
  rw [if_neg (by rw [h1, h2]; simp), ranand_erase_loop, if_pos hlen0]
  simp only [M.bind_run, hcheck, Option.some_bind, ne_eq, not_true_eq_false, if_false,
    M.ite_run, M.pure_run, hlen, chip_isbad]
  by_cases hc : cfg.CONFIG_BADBLOCK_CHECK = true
  · simp only [hc, if_true, htag hc, Option.some_bind, not_true_eq_false, if_false]
    rw [ranand_erase_loop]
    simp
    rfl
  · simp only [hc, Bool.false_eq_true, if_false, Option.some_bind, not_true_eq_false]
    rw [ranand_erase_loop]
    simp
    rfl

/-- A read of `n` bytes none of whose pages fails twice or is skipped, on the recording
chip. -/
theorem chip_read_all {cfg : Cfg} (hwf : cfg.WF) (ch : Chip) (out : Mem) (addr n fuel : Nat)
    (hfuel : n < fuel) (hn : n < 2147483648)
    (hcor : ∀ i, i < n → ch.fails (page_of cfg (addr + i)) ≤ 1)
    (hbad : cfg.CONFIG_BADBLOCK_CHECK = true →
      ∀ a i, i < n → a % cfg.CFG_CHIPSIZE = (addr + i) % cfg.CFG_CHIPSIZE → ch.tag_ok cfg a) :
    ranand_read cfg (chipLayer cfg) fuel (some out) addr n ch
      = some (((n : Int), fun x => if x < n then ch.byte cfg (addr + x) else out x),
          ch.afterTries (page_run cfg addr n)) := by
  show ranand_read_loop cfg (chipLayer cfg) fuel _ out 0 addr n 0 ch = _
  rw [chip_read_loop hwf fuel _ out 0 addr 0 n n ch hfuel (le_refl _) hcor
    (fun h => absurd h (lt_irrefl _)) (fun hc a i hi _ ha => hbad hc a i hi ha)]
  refine congrArg some (Prod.ext (Prod.ext ?_ (funext fun x => ?_)) ?_)
  · simp only [lt_self_iff_false, if_false, Nat.zero_add]
    exact i32_small _ (by omega) (by omega)
  · simp only [lt_self_iff_false, if_false, Nat.zero_add, Nat.zero_le, true_and, Nat.sub_zero]
  · simp only [lt_self_iff_false, if_false, List.append_nil]

theorem memcmp_eq_true (a b : Mem) (n : Nat) (h : ∀ i, i < n → a i = b i) :
    memcmp_eq a b n = true := by
  unfold memcmp_eq
  rw [List.all_eq_true]
  intro i hi
  rw [List.mem_range] at hi
  simp [h i hi]

/-- The read-modify-write unit of `ranand_erase_write` on the recording chip, for a block
none of whose pages fails a read twice or is marked bad. -/
theorem chip_rmw_unit {cfg : Cfg} (hwf : cfg.WF) (ch : Chip) (src block temp : Mem)
    (f k ba offs : Nat) (count : Int) (hcount : 0 < count)
    (hba : ba % cfg.CFG_BLOCKSIZE = 0)
    (hfuel : cfg.CFG_BLOCKSIZE < f) (hwp : ch.wp = false)
    (hreads : ∀ i, i < cfg.CFG_BLOCKSIZE → ch.fails (page_of cfg (ba + i)) ≤ 1)
    (htags : cfg.CONFIG_BADBLOCK_CHECK = true →
      ∀ a i, i < cfg.CFG_BLOCKSIZE →
        a % cfg.CFG_CHIPSIZE = (ba + i) % cfg.CFG_CHIPSIZE → ch.tag_ok cfg a) :
    ∃ ch1 : Chip,
      erase_write_rmw cfg (chipLayer cfg) f src offs count (k + 1) block temp ba ch
        = some (0, ch1)
      ∧ ch1.wp = false
      ∧ ch1.fails = (ch.afterTries (page_run cfg ba cfg.CFG_BLOCKSIZE)).fails
      ∧ ch1.log = (ch.afterTries (page_run cfg ba cfg.CFG_BLOCKSIZE)).log
          ++ [ChipOp.erase (i32 ((ba >>> cfg.CONFIG_PAGE_SIZE_BIT : Nat) : Int))]
          ++ (page_run cfg ba cfg.CFG_BLOCKSIZE).map ChipOp.write
          ++ (if cfg.RALINK_NAND_UPGRADE_CHECK
              then (page_run cfg ba cfg.CFG_BLOCKSIZE).map ChipOp.read else [])
      ∧ (∀ i, i < cfg.CFG_BLOCKSIZE → ch1.byte cfg (ba + i)
          = if offs % cfg.CFG_BLOCKSIZE ≤ i ∧ (i : Int) < (offs % cfg.CFG_BLOCKSIZE : Nat)
                + min count ((cfg.CFG_BLOCKSIZE : Int) - (offs % cfg.CFG_BLOCKSIZE : Nat))
            then src (i - offs % cfg.CFG_BLOCKSIZE) else ch.byte cfg (ba + i)) := by
  have hbs := hwf.bs_pos
  have hle := hwf.bs_le
  have hps := hwf.ps_pos
  have hpl : offs % cfg.CFG_BLOCKSIZE < cfg.CFG_BLOCKSIZE := Nat.mod_lt _ hbs
  have hmask := blockmask_eq hwf
  have hpiece : offs &&& (cfg.CFG_BLOCKSIZE - 1) = offs % cfg.CFG_BLOCKSIZE :=
    block_mask_nat hwf offs
  obtain ⟨f2, rfl⟩ : ∃ f2, f = f2 + 2 := ⟨f - 2, by omega⟩
  -- the block read
  have hread := chip_read_all hwf ch block ba cfg.CFG_BLOCKSIZE (f2 + 2) hfuel (by omega)
    hreads htags
  generalize hblk : (fun x => if x < cfg.CFG_BLOCKSIZE then ch.byte cfg (ba + x) else block x)
    = blk at hread
  have hc1z : ∀ i, i < cfg.CFG_BLOCKSIZE →
      (ch.afterTries (page_run cfg ba cfg.CFG_BLOCKSIZE)).fails (page_of cfg (ba + i)) = 0 :=
    fun i hi => Chip.afterTries_zero _ ch _ (page_run_has hwf _ ba i hi) (hreads i hi)
  generalize hc1 : ch.afterTries (page_run cfg ba cfg.CFG_BLOCKSIZE) = c1 at hread hc1z ⊢
  have hc1p : c1.pages = ch.pages := by rw [← hc1]; exact (Chip.afterTries_pages _ ch).1
  have hc1w : c1.wp = false := by rw [← hc1, (Chip.afterTries_pages _ ch).2]; exact hwp
  -- the erase
  have herase := chip_erase_one hwf c1 ba f2 hba hc1w
    (fun hc => by
      have := htags hc ba 0 hbs rfl
      unfold Chip.tag_ok at this ⊢
      rw [hc1p]; exact this)
  generalize hc2 : c1.afterErase cfg (i32 ((ba >>> cfg.CONFIG_PAGE_SIZE_BIT : Nat) : Int)) = c2
    at herase
  have hc2w : c2.wp = false := by rw [← hc2]; exact hc1w
  have hc2f : c2.fails = c1.fails := by rw [← hc2]; rfl
  have hc2l : c2.log = c1.log
      ++ [ChipOp.erase (i32 ((ba >>> cfg.CONFIG_PAGE_SIZE_BIT : Nat) : Int))] := by
    rw [← hc2]
    rfl
  have hc2t : ∀ q : Int, ch.pages q (cfg.CFG_PAGESIZE + cfg.CONFIG_BAD_BLOCK_POS) % 256 = 0xff →
      c2.pages q (cfg.CFG_PAGESIZE + cfg.CONFIG_BAD_BLOCK_POS) % 256 = 0xff := by
    intro q hq
    rw [← hc2]
    show (if _ then (fun _ => 0xff) else c1.pages q) _ % 256 = 0xff
    split
    · rfl
    · rw [hc1p]; exact hq
  -- the image
  generalize himg : memcpy blk (offs % cfg.CFG_BLOCKSIZE) src 0
    (min count ((cfg.CFG_BLOCKSIZE : Int) - (offs % cfg.CFG_BLOCKSIZE : Nat))).toNat = img
  have himgv : ∀ i, i < cfg.CFG_BLOCKSIZE → img i
      = if offs % cfg.CFG_BLOCKSIZE ≤ i ∧ (i : Int) < (offs % cfg.CFG_BLOCKSIZE : Nat)
            + min count ((cfg.CFG_BLOCKSIZE : Int) - (offs % cfg.CFG_BLOCKSIZE : Nat))
        then src (i - offs % cfg.CFG_BLOCKSIZE) else ch.byte cfg (ba + i) := by
    intro i hi
    rw [← himg, ← hblk]
    unfold memcpy
    have hmin : 0 ≤ min count ((cfg.CFG_BLOCKSIZE : Int) - (offs % cfg.CFG_BLOCKSIZE : Nat)) := by
      omega
    by_cases hx : offs % cfg.CFG_BLOCKSIZE ≤ i ∧ i < offs % cfg.CFG_BLOCKSIZE
        + (min count ((cfg.CFG_BLOCKSIZE : Int) - (offs % cfg.CFG_BLOCKSIZE : Nat))).toNat
    · rw [if_pos hx, if_pos (by omega), Nat.zero_add]
    · rw [if_neg hx, if_neg (by omega)]
      show (if i < cfg.CFG_BLOCKSIZE then _ else _) = _
      rw [if_pos hi]
  -- the write-back
  obtain ⟨c3, hwrite, hc3w, hc3f, hc3l, hframe, hwtags, hbytes⟩ :=
    chip_write_loop hwf img (f2 + 2) (chipLayer cfg).uninit 0 ba 0 cfg.CFG_BLOCKSIZE c2 hfuel hc2w
  have hbaps : ba % cfg.CFG_PAGESIZE = 0 := by
    have hd : cfg.CFG_PAGESIZE ∣ cfg.CFG_BLOCKSIZE := by
      rw [hwf.pagesize, hwf.blocksize, Nat.pow_add]
      exact Nat.dvd_mul_right _ _
    exact Nat.mod_eq_zero_of_dvd (Nat.dvd_trans hd (Nat.dvd_of_mod_eq_zero hba))
  have hbytes1 := hbytes (by
    rw [hbaps, Nat.zero_add]
    exact Nat.le_of_dvd hwf.chip_pos (by
      obtain ⟨kk, hk⟩ := hwf.chipsize
      rw [hk]; exact Nat.dvd_mul_left _ _))
  -- marker bytes after the write-back
  have hc3t : cfg.CONFIG_BADBLOCK_CHECK = true → ∀ a i, i < cfg.CFG_BLOCKSIZE →
      a % cfg.CFG_CHIPSIZE = (ba + i) % cfg.CFG_CHIPSIZE → c3.tag_ok cfg a := by
    intro hc a i hi ha
    have h0 := htags hc a i hi ha
    unfold Chip.tag_ok at h0 ⊢
    by_cases hex : ∃ j, j < cfg.CFG_BLOCKSIZE ∧ (page_of cfg (ba + j) : Int)
        = i32 ((a >>> cfg.CONFIG_PAGE_SIZE_BIT : Nat) : Int)
    · obtain ⟨j, hj, he⟩ := hex
      rw [← he, hwtags j hj]
    · rw [hframe _ (fun j hj he => hex ⟨j, hj, he⟩)]
      exact hc2t _ h0
  have hc3reads : ∀ i, i < cfg.CFG_BLOCKSIZE → c3.fails (page_of cfg (ba + i)) = 0 := by
    intro i hi; rw [hc3f, hc2f]; exact hc1z i hi
  have hwr : ranand_write cfg (chipLayer cfg) (f2 + 2) (some img) ba cfg.CFG_BLOCKSIZE c2
      = some ((cfg.CFG_BLOCKSIZE : Int), c3) := by
    show ranand_write_loop cfg (chipLayer cfg) img (f2 + 2) _ 0 ba _ 0 c2 = _
    rw [hwrite, Nat.zero_add, i32_small _ (by omega) (by omega)]
  have hfinal : ∀ i, i < cfg.CFG_BLOCKSIZE → c3.byte cfg (ba + i)
      = if offs % cfg.CFG_BLOCKSIZE ≤ i ∧ (i : Int) < (offs % cfg.CFG_BLOCKSIZE : Nat)
            + min count ((cfg.CFG_BLOCKSIZE : Int) - (offs % cfg.CFG_BLOCKSIZE : Nat))
        then src (i - offs % cfg.CFG_BLOCKSIZE) else ch.byte cfg (ba + i) := by
    intro i hi
    rw [hbytes1 i hi, Nat.zero_add, himgv i hi]
  have h10 : ¬ ((0 : Int) = 1) := by decide
  rw [erase_write_rmw]
  simp only [M.bind_run, hmask, hpiece, hread, Option.some_bind, ne_eq, not_true_eq_false,
    if_false, M.ite_run, himg, herase, M.pure_run, hwr, h10, and_false]
  by_cases hup : cfg.RALINK_NAND_UPGRADE_CHECK = true
  · have hrb := chip_read_all hwf c3 temp ba cfg.CFG_BLOCKSIZE (f2 + 2) hfuel (by omega)
      (fun i hi => by rw [hc3reads i hi]; omega) hc3t
    have hgoodrun : ∀ p, p ∈ page_run cfg ba cfg.CFG_BLOCKSIZE → c3.fails p = 0 := by
      intro p hp
      obtain ⟨i, hi, he⟩ := page_run_mem hwf _ _ p hp
      rw [he]; exact hc3reads i hi
    rw [Chip.afterTries_good _ c3 hgoodrun] at hrb
    have hcmp : memcmp_eq img
        (fun x => if x < cfg.CFG_BLOCKSIZE then c3.byte cfg (ba + x) else temp x)
        cfg.CFG_BLOCKSIZE = true := by
      apply memcmp_eq_true
      intro i hi
      show img i = if i < cfg.CFG_BLOCKSIZE then _ else _
      rw [if_pos hi, hbytes1 i hi, Nat.zero_add]
    refine ⟨c3.afterReads (page_run cfg ba cfg.CFG_BLOCKSIZE), ?_, ?_, ?_, ?_, ?_⟩
    · simp only [hup, if_true, hrb, Option.some_bind, not_true_eq_false, if_false, hcmp]
    · rw [(Chip.afterReads_pages _ c3).2]; exact hc3w
    · rw [← hc2f, ← hc3f]
      exact Chip.afterReads_good _ c3 hgoodrun
    · rw [Chip.afterReads_log, hc3l, hc2l, if_pos hup]
    · intro i hi
      have : (c3.afterReads (page_run cfg ba cfg.CFG_BLOCKSIZE)).byte cfg (ba + i)
          = c3.byte cfg (ba + i) := by
        unfold Chip.byte
        rw [(Chip.afterReads_pages _ c3).1]
      rw [this]; exact hfinal i hi
  · refine ⟨c3, ?_, hc3w, by rw [hc3f, hc2f], ?_, hfinal⟩
    · simp only [hup, Bool.false_eq_true, if_false]
    · rw [hc3l, hc2l, if_neg hup, List.append_nil]

theorem hang_inl_int_st : ra_inl hangDev Reg.NFC_INT_ST true = some (3, true) := rfl

theorem hang_inl_status : ra_inl hangDev Reg.NFC_STATUS true = some (4, true) := rfl

theorem hang_inl_ctrl : ra_inl hangDev Reg.NFC_CTRL true = some (0, true) := rfl

theorem hang_outl (r : Reg) (v : Nat) : ra_outl hangDev r v true = some ((), true) := by
  unfold ra_outl
  show some ((), if r = Reg.NFC_CMD1 ∧ v % 4294967296 = 0x8050 then true else true) = _
  split <;> rfl

theorem hang_udelay (us : Int) : udelay hangDev us true = some ((), true) := rfl

theorem hang_poll (fuel : Nat) : ∀ (retry : Int),
    read_status_poll sampleCfg hangDev fuel retry true = none
      ∨ read_status_poll sampleCfg hangDev fuel retry true = some (3, true) := by
  induction fuel with
  | zero => intro retry; left; rfl
  | succ n ih =>
    intro retry
    rw [read_status_poll]
    simp only [M.bind_run, hang_inl_status, hang_inl_int_st, hang_udelay, Option.some_bind,
      M.ite_run, M.pure_run]
    split_ifs
    · exact ih _
    · right; rfl

/-- Once the controller hangs none of the four functions of the recovery chain returns,
whatever the fuel. -/
theorem hang_chain (fuel : Nat) :
    nfc_read_status sampleCfg hangDev fuel true = none
    ∧ (∀ z, nfc_wait_ready sampleCfg hangDev fuel z true = none)
    ∧ nfc_chip_reset sampleCfg hangDev fuel true = none
    ∧ nfc_all_reset sampleCfg hangDev fuel true = none := by
  induction fuel with
  | zero => exact ⟨rfl, fun _ => rfl, rfl, rfl⟩
  | succ n ih =>
    obtain ⟨hrs, hwr, hcr, har⟩ := ih
    refine ⟨?_, ?_, ?_, ?_⟩
    · rw [nfc_read_status]
      simp only [M.bind_run, CLEAR_INT_STATUS, hang_inl_int_st, hang_outl, Option.some_bind]
      rcases hang_poll n READ_STATUS_RETRY with h | h
      · rw [h]; rfl
      · rw [h]
        simp only [Option.some_bind, M.ite_run, M.bind_run, har]
        rfl
    · intro z
      rw [nfc_wait_ready]
      simp only [M.bind_run, hang_udelay, Option.some_bind]
      cases n with
      | zero => rfl
      | succ m =>
        have hdone : NFC_TRANS_DONE sampleCfg hangDev true = some (1, true) := rfl
        have hc1 : (do
            let x ← NFC_TRANS_DONE sampleCfg hangDev
            pure (decide (x = 0)) : M Bool Bool) true = some (false, true) := rfl
        have hc2 : (do
            let x ← nfc_device_ready hangDev
            pure (decide (x = 0)) : M Bool Bool) true = some (false, true) := rfl
        rw [pollWhile_false _ _ m _ true true hc1]
        simp only [Option.some_bind, hdone, M.ite_run, M.bind_run]
        rw [pollWhile_false _ _ m _ true true hc2]
        simp only [Option.some_bind, hrs]
        rfl
    · rw [nfc_chip_reset]
      simp only [M.bind_run, hang_outl, Option.some_bind, hwr]
      rfl
    · rw [nfc_all_reset]
      simp only [M.bind_run, CLEAR_INT_STATUS, hang_inl_ctrl, hang_inl_int_st, hang_outl,
        Option.some_bind]
      cases n with
      | zero => rfl
      | succ m =>
        have hc1 : (do
            let x ← ra_inl hangDev Reg.NFC_INT_ST
            pure (decide (x &&& 0x02 ≠ 0x02)) : M Bool Bool) true = some (false, true) := rfl
        have hc2 : (do
            let x ← ra_inl hangDev Reg.NFC_STATUS
            pure (decide (x &&& 0x1 ≠ 0x0)) : M Bool Bool) true = some (false, true) := rfl
        rw [pollWhile_false _ _ m _ true true hc1]
        simp only [Option.some_bind, M.ite_run, M.bind_run]
        rw [pollWhile_false _ _ m _ true true hc2]
        simp only [Option.some_bind, hcr]
        rfl

theorem hang_xfer (k : Nat) :
    write_page_xfer sampleCfg hangDev (k + 8) bytesFF0001 (chip_page sampleCfg 3) false
      = some (0, false) := rfl

theorem hang_verify (k : Nat) :
    nfc_ecc_verify sampleCfg hangDev (k + 8) bytesFF0001 (chip_page sampleCfg 3)
      FlMode.FL_WRITING false = some (-1, false) := rfl

theorem hang_push (k : Nat) (b : Mem) :
    _ra_nand_push_data sampleCfg hangDev (k + 2) b 1 true = some (1, true) := rfl

/-- The tag write on the hanging controller does not return. -/
theorem hang_write_oob (fuel : Nat) (page : Int) (b : Mem) :
    nfc_write_oob sampleCfg hangDev fuel page sampleCfg.CONFIG_BAD_BLOCK_POS b 1 false
      = none := by
  unfold nfc_write_oob nfc_write_raw_data
  have hclr : CLEAR_INT_STATUS hangDev false = some ((), false) := rfl
  have hcmd : ra_outl hangDev Reg.NFC_CMD1 0x08050 false = some ((), true) := rfl
  simp only [M.bind_run, hclr, hcmd, hang_outl, Option.some_bind]
  rcases fuel with _ | _ | k
  · rfl
  · rfl
  · rw [hang_push k b]
    simp only [Option.some_bind, ne_eq, not_true_eq_false, if_false, M.bind_run,
      (hang_chain (k + 1 + 1)).2.1 1]
    rfl

end Basics

section Claims

variable {σ : Type}

/-- C1: when `offs` or `len` is not a multiple of the block size, `ranand_erase` returns -1
and leaves the hardware state as it found it, whatever the page layer is; in particular,
linked with the driver's own functions over a device that logs every access, it returns -1
with the device state and the access log unchanged: no register is read or written. -/
theorem C1_ranand_erase_misaligned (cfg : Cfg) (hwf : cfg.WF) (offs : Nat) (len : Int)
    (h : offs % cfg.CFG_BLOCKSIZE ≠ 0 ∨ len % (cfg.CFG_BLOCKSIZE : Int) ≠ 0) :
    (∀ (L : PageLayer σ) (fuel : Nat) (s : σ), ranand_erase cfg L fuel offs len s = some (-1, s))
    ∧ ∀ (dev : Dev σ) (malloc : Nat → M (σ × List Access) (Option Mem)) (uninit : Mem)
        (fuel fuel1 : Nat) (s : σ) (log : List Access),
        ranand_erase cfg (nfcLayer cfg (logDev dev) fuel1 malloc uninit) fuel offs len (s, log)
          = some (-1, (s, log)) := by
  have key : ∀ {τ : Type} (L : PageLayer τ) (fuel : Nat) (s : τ),
      ranand_erase cfg L fuel offs len s = some (-1, s) := by
    intro τ L fuel s
    have hc : offs &&& (cfg.CFG_BLOCKSIZE - 1) ≠ 0 ∨ u32 len &&& (cfg.CFG_BLOCKSIZE - 1) ≠ 0 := by
      rcases h with h | h
      · left; rw [block_mask_nat hwf]; exact h
      · right
        intro h0
        apply h
        rw [← block_mask_int hwf, h0]; rfl
    unfold ranand_erase
    rw [if_pos hc]; rfl
  exact ⟨fun L fuel s => key L fuel s, fun dev malloc uninit fuel fuel1 s log => key _ fuel _⟩

/-- C1 at a concrete input: offset 1 is not a multiple of the 8-byte block. -/
theorem C1_ranand_erase_misaligned_witness :
    (1 % sampleCfg.CFG_BLOCKSIZE ≠ 0 ∨ (8 : Int) % (sampleCfg.CFG_BLOCKSIZE : Int) ≠ 0)
    ∧ ranand_erase sampleCfg (flashLayer sampleCfg) 5 1 8 blankFlash = some (-1, blankFlash) :=
  ⟨Or.inl (by decide),
    (C1_ranand_erase_misaligned sampleCfg sampleCfg_wf 1 8 (Or.inl (by decide))).1
      (flashLayer sampleCfg) 5 blankFlash⟩

/-- C2: for every caller buffer, start address `addr` and length `n ≥ 1`, over any page layer
on which (along the run) the write-protect check reports off and every page write returns
0 leaving the staged buffer as it was, `ranand_write` returns `n` and its effect is that of
issuing, in order, the page writes of `write_plan`: the `k`-th goes to page
`(page of (addr mod chip_size) + k) mod pages_per_chip` with the image `write_image k`.
Caller byte `i` is staged in the image number `(addr mod page_size + i) / page_size`, which
goes to the page holding address `addr + i`, at offset `(addr + i) mod page_size`; two
different caller bytes never share a position, and every byte of an image that is not such
a position is 0xFF.  With intra-page offset
`page_size - 1` and `n = 2` there are exactly two page writes, the first carrying byte 0
at offset `page_size - 1`, the second byte 1 at offset 0. -/
theorem C2_ranand_write_pages (cfg : Cfg) (hwf : cfg.WF) (L : PageLayer σ) (Inv : σ → Prop)
    (src : Mem) (addr n fuel : Nat) (s : σ)
    (hn : 1 ≤ n) (hmax : n < 2147483648) (hfuel : n < fuel) (hinv : Inv s)
    (hwp : ∀ t, Inv t → ∃ t1, L.nfc_check_wp t = some (0, t1) ∧ Inv t1)
    (hwr : ∀ b p t, Inv t → ∃ t1, L.nfc_write_page b p t = some ((0, b), t1) ∧ Inv t1) :
    (∃ s1, ranand_write cfg L fuel (some src) addr n s = some ((n : Int), s1)
      ∧ issue_page_writes L (write_plan cfg L.uninit src addr 0 n) s = some ((), s1))
    ∧ (∀ i, i < n →
        write_image cfg L.uninit src addr 0 n ((addr % cfg.CFG_PAGESIZE + i) / cfg.CFG_PAGESIZE)
          ((addr + i) % cfg.CFG_PAGESIZE) = src i
        ∧ write_page_index cfg addr ((addr % cfg.CFG_PAGESIZE + i) / cfg.CFG_PAGESIZE)
          = page_of cfg (addr + i))
    ∧ (∀ i j, (addr % cfg.CFG_PAGESIZE + i) / cfg.CFG_PAGESIZE
          = (addr % cfg.CFG_PAGESIZE + j) / cfg.CFG_PAGESIZE →
        (addr + i) % cfg.CFG_PAGESIZE = (addr + j) % cfg.CFG_PAGESIZE → i = j)
    ∧ (∀ k j, j < cfg.CFG_PAGESIZE + cfg.CFG_PAGE_OOBSIZE →
        (¬ ∃ i, i < n ∧ (addr % cfg.CFG_PAGESIZE + i) / cfg.CFG_PAGESIZE = k
          ∧ (addr + i) % cfg.CFG_PAGESIZE = j) →
        write_image cfg L.uninit src addr 0 n k j = 0xff)
    ∧ (addr % cfg.CFG_PAGESIZE = cfg.CFG_PAGESIZE - 1 → n = 2 →
        write_count cfg addr n = 2
        ∧ write_image cfg L.uninit src addr 0 n 0 (cfg.CFG_PAGESIZE - 1) = src 0
        ∧ write_image cfg L.uninit src addr 0 n 1 0 = src 1) := by
  have hps := hwf.ps_pos
  refine ⟨?_, fun i hi => ⟨write_image_at hwf _ src addr n i hi, write_page_index_at hwf addr i⟩,
    ?_, fun k j hj hno => write_image_erased hwf _ src addr n k j hj hno, ?_⟩
  · obtain ⟨s1, hrun, hplan, _⟩ :=
      write_loop_plan hwf L Inv L.uninit src hwp hwr fuel L.uninit 0 addr 0 n s hfuel hinv
        (fun _ _ => rfl)
    refine ⟨s1, ?_, hplan⟩
    show ranand_write_loop cfg L src fuel _ 0 addr n 0 s = _
    rw [hrun, Nat.zero_add, i32_small _ (by omega) (by omega)]
  · intro i j hq hr
    rw [← Nat.mod_add_mod addr _ i, ← Nat.mod_add_mod addr _ j] at hr
    have h1 := Nat.div_add_mod (addr % cfg.CFG_PAGESIZE + i) cfg.CFG_PAGESIZE
    have h2 := Nat.div_add_mod (addr % cfg.CFG_PAGESIZE + j) cfg.CFG_PAGESIZE
    rw [hq, hr] at h1
    omega
  · intro ho h2
    subst h2
    refine ⟨?_, ?_, ?_⟩
    · unfold write_count
      rw [if_neg (by omega), ho]
      have e : cfg.CFG_PAGESIZE - 1 + 2 - 1 = 0 + cfg.CFG_PAGESIZE := by omega
      rw [e, Nat.add_div_right _ hps, Nat.zero_div]
    · have h := write_image_at hwf L.uninit src addr 2 0 (by omega)
      rw [Nat.add_zero, Nat.add_zero, ho, Nat.div_eq_of_lt (by omega)] at h
      exact h
    · have h := write_image_at hwf L.uninit src addr 2 1 (by omega)
      have e1 : (addr + 1) % cfg.CFG_PAGESIZE = 0 := by
        rw [← Nat.mod_add_mod, ho]
        have e : cfg.CFG_PAGESIZE - 1 + 1 = cfg.CFG_PAGESIZE := by omega
        rw [e, Nat.mod_self]
      have e2 : (addr % cfg.CFG_PAGESIZE + 1) / cfg.CFG_PAGESIZE = 1 := by
        rw [ho]
        have e : cfg.CFG_PAGESIZE - 1 + 1 = cfg.CFG_PAGESIZE := by omega
        rw [e, Nat.div_self hps]
      rw [e1, e2] at h
      exact h

/-- C2 at a concrete input: two bytes written at address 3 (intra-page offset
page_size - 1) of a blank `sampleCfg` chip: two page writes, the first image carrying
byte 0 at offset 3, the second carrying byte 1 at offset 0, everything else 0xFF. -/
theorem C2_ranand_write_pages_witness :
    (∃ s1, ranand_write sampleCfg (flashLayer sampleCfg) 5 (some countBytes) 3 (2 : Nat)
          blankFlash = some (((2 : Nat) : Int), s1)
      ∧ issue_page_writes (flashLayer sampleCfg)
          (write_plan sampleCfg (flashLayer sampleCfg).uninit countBytes 3 0 2) blankFlash
          = some ((), s1))
    ∧ window (write_image sampleCfg (flashLayer sampleCfg).uninit countBytes 3 0 2 0) 8
        = [255, 255, 255, 1, 255, 255, 255, 255]
    ∧ window (write_image sampleCfg (flashLayer sampleCfg).uninit countBytes 3 0 2 1) 8
        = [2, 255, 255, 255, 255, 255, 255, 255]
    ∧ write_count sampleCfg 3 2 = 2 :=
  ⟨(C2_ranand_write_pages sampleCfg sampleCfg_wf (flashLayer sampleCfg)
      (fun t => t.wp = false) countBytes 3 2 5 blankFlash (by decide) (by decide) (by decide) rfl
      (fun t ht => ⟨t, by show some _ = some _; rw [ht]; rfl, ht⟩)
      (fun b p t ht => ⟨t.store sampleCfg (chip_page sampleCfg p) b, rfl, ht⟩)).1,
    by decide, by decide, by decide⟩

/-- C3 (amended): over the flash model (a page write stores the staged page-plus-OOB image, a
page read returns the stored image), with write-protect off, for every `n` and `addr`
such that the range does not wrap onto itself (`addr mod page_size + n ≤ chip_size`), no
page of the range fails its read and no address aliasing into the range carries a
bad-block tag, `ranand_write(src, addr, n)` returns `n` and the following
`ranand_read(out, addr, n)` returns `n` and leaves `out[i] = src[i]` for every `i < n`
(bytes of `out` from `n` on are untouched). -/
theorem C3_write_read_round_trip (cfg : Cfg) (hwf : cfg.WF) (fl : Flash) (src out : Mem)
    (addr n fuel : Nat) (hfuel : n < fuel) (hn : n < 2147483648) (hwp : fl.wp = false)
    (hcor : ∀ i, i < n → fl.corrupt (page_of cfg (addr + i)) = false)
    (hfit : addr % cfg.CFG_PAGESIZE + n ≤ cfg.CFG_CHIPSIZE)
    (hbad : cfg.CONFIG_BADBLOCK_CHECK = true →
      ∀ a i, i < n → a % cfg.CFG_CHIPSIZE = (addr + i) % cfg.CFG_CHIPSIZE → fl.tag_ok cfg a) :
    ∃ fl1, ranand_write cfg (flashLayer cfg) fuel (some src) addr n fl = some ((n : Int), fl1)
      ∧ ranand_read cfg (flashLayer cfg) fuel (some out) addr n fl1
          = some (((n : Int), fun x => if x < n then src x else out x), fl1) := by
  obtain ⟨fl1, hrun, _, hcor1, hframe, htags, hbytes⟩ :=
    flash_write_loop hwf src fuel (flashLayer cfg).uninit 0 addr 0 n fl hfuel hwp
  have hi : i32 ((n : Nat) : Int) = n := i32_small _ (by omega) (by omega)
  refine ⟨fl1, ?_, ?_⟩
  · show ranand_write_loop cfg (flashLayer cfg) src fuel _ 0 addr n 0 fl = _
    rw [hrun, Nat.zero_add, hi]
  · show ranand_read_loop cfg (flashLayer cfg) fuel _ out 0 addr n 0 fl1 = _
    rw [flash_read_loop hwf fl1 fuel _ out 0 addr 0 n n hfuel (le_refl _)
      (by intro i hi; rw [hcor1]; exact hcor i hi) (by intro h; omega)
      (by
        intro hc a i hi ha
        by_cases hex : ∃ i', i' < n ∧
            (page_of cfg (addr + i') : Int) = i32 ((a >>> cfg.CONFIG_PAGE_SIZE_BIT : Nat) : Int)
        · obtain ⟨i', hi', he⟩ := hex
          unfold Flash.tag_ok
          rw [← he, htags i' hi']
        · have := hbad hc a i hi ha
          unfold Flash.tag_ok at this ⊢
          rw [hframe _ (fun i' hi' he => hex ⟨i', hi', he⟩)]
          exact this)]
    rw [if_neg (by omega), Nat.zero_add, hi]
    refine congrArg some (Prod.ext (Prod.ext rfl (funext fun x => ?_)) rfl)
    simp only [if_neg (lt_irrefl n), Nat.zero_add, Nat.zero_le, true_and, Nat.sub_zero]
    by_cases hx : x < n
    · rw [if_pos hx, if_pos hx, hbytes hfit x hx, Nat.zero_add]
    · rw [if_neg hx, if_neg hx]

/-- C3 (amended) at a concrete input: six bytes written at address 3 of a blank `sampleCfg`
chip, spanning three pages. -/
theorem C3_write_read_round_trip_witness :
    (3 % sampleCfg.CFG_PAGESIZE + 6 ≤ sampleCfg.CFG_CHIPSIZE)
    ∧ ∃ fl1, ranand_write sampleCfg (flashLayer sampleCfg) 10 (some countBytes) 3 (6 : Nat)
          blankFlash = some ((6 : Int), fl1)
      ∧ ranand_read sampleCfg (flashLayer sampleCfg) 10 (some (fun _ => 0)) 3 (6 : Nat) fl1
          = some (((6 : Int), fun x => if x < 6 then countBytes x else 0), fl1) :=
  ⟨by decide,
    C3_write_read_round_trip sampleCfg sampleCfg_wf blankFlash countBytes (fun _ => 0) 3 6 10
      (by decide) (by decide) rfl (fun _ _ => rfl) (by decide)
      (fun _ a i _ _ => by unfold Flash.tag_ok; rfl)⟩

/-- C3 (counterexample): on a chip of 8 bytes, writing the 9 bytes 1..9 at address 0 and
reading 9 bytes back returns 9 both times, but the data read is 9 FF FF FF 5 6 7 8 9: the
ninth byte wrapped to page 0 and replaced the first four. -/
theorem C3_round_trip_fails_past_chip_size :
    ((ranand_write oneBlockCfg (flashLayer oneBlockCfg) 12 (some countBytes) 0 9 blankFlash).bind
      fun w => (ranand_read oneBlockCfg (flashLayer oneBlockCfg) 12 (some (fun _ => 0)) 0 9 w.2).map
        fun r => (w.1, r.1.1, window r.1.2 9))
          = some (9, 9, [9, 255, 255, 255, 5, 6, 7, 8, 9])
    ∧ window countBytes 9 = [1, 2, 3, 4, 5, 6, 7, 8, 9] := by
  constructor <;> decide

/-- Supplement to C4: the retry matters.  When page 1 fails one read only, the retry
succeeds and the same call goes on to page 2 and returns 12; when it fails three reads the
call still stops after the second. -/
theorem ranand_read_retries_once :
    ((ranand_read sampleCfg (chipLayer sampleCfg) 20 (some (fun _ => 0)) 0 12
          (dataChip 1)).map fun r => (r.1.1, window r.1.2 12, r.2.log))
        = some (12, [0, 1, 2, 3, 16, 17, 18, 19, 32, 33, 34, 35],
            [ChipOp.read 0, ChipOp.read 1, ChipOp.read 1, ChipOp.read 2])
    ∧ ((ranand_read sampleCfg (chipLayer sampleCfg) 20 (some (fun _ => 0)) 0 12
          (dataChip 3)).map fun r => (r.1.1, r.2.log, r.2.fails 1))
        = some (-1, [ChipOp.read 0, ChipOp.read 1, ChipOp.read 1], 1) := by
  constructor <;> decide

/-- C5 (code evaluated at the failing input): with bad-block checking compiled in, on an
unprotected chip whose every bad-block tag differs from 0xFF, `ranand_erase(0, 8)` (one
aligned block) does not return for any amount of fuel: every iteration counts a skipped
block and moves on without decrementing `len`. -/
theorem C5_erase_all_bad_never_returns (fuel : Nat) :
    (0 : Nat) % sampleCfg.CFG_BLOCKSIZE = 0 ∧ (8 : Int) % (sampleCfg.CFG_BLOCKSIZE : Int) = 0
    ∧ ranand_erase sampleCfg (flashLayer sampleCfg) fuel 0 8 allBadFlash = none := by
  refine ⟨by decide, by decide, ?_⟩
  unfold ranand_erase
  rw [if_neg (by decide)]
  exact allBad_erase_loop fuel 0 0

/-- Supplement to C5: on an unprotected chip, when the first `m` blocks from the
block-aligned `offs` hold `g` good blocks and the last of them is good, `ranand_erase(offs,
g * CFG_BLOCKSIZE)` returns, and its value is the number `m - g` of bad blocks skipped. -/
theorem ranand_erase_returns_skipped {cfg : Cfg} (hwf : cfg.WF) (fl : Flash)
    (hwp : fl.wp = false) (offs m g : Nat) (hoffs : offs < 4294967296)
    (hal : offs % cfg.CFG_BLOCKSIZE = 0)
    (hg : g * cfg.CFG_BLOCKSIZE < 2147483648) (hm : m < 2147483648)
    (hcount : (List.range m).countP (fun i => !(cfg.CONFIG_BADBLOCK_CHECK &&
      !decide (fl.tag_ok cfg ((offs + i * cfg.CFG_BLOCKSIZE) % 4294967296)))) = g)
    (hlast : m = 0 ∨ (cfg.CONFIG_BADBLOCK_CHECK &&
      !decide (fl.tag_ok cfg ((offs + (m - 1) * cfg.CFG_BLOCKSIZE) % 4294967296))) = false) :
    ∃ fl1, ranand_erase cfg (flashLayer cfg) (m + 1) offs ((g * cfg.CFG_BLOCKSIZE : Nat) : Int) fl
      = some (((m - g : Nat) : Int), fl1) := by
  have hbs := hwf.bs_pos
  have h1 : offs &&& (cfg.CFG_BLOCKSIZE - 1) = 0 := by rw [block_mask_nat hwf]; exact hal
  have h2 : u32 ((g * cfg.CFG_BLOCKSIZE : Nat) : Int) &&& (cfg.CFG_BLOCKSIZE - 1) = 0 := by
    have := block_mask_int hwf ((g * cfg.CFG_BLOCKSIZE : Nat) : Int)
    have e : ((g * cfg.CFG_BLOCKSIZE : Nat) : Int) % (cfg.CFG_BLOCKSIZE : Int) = 0 := by
      push_cast; exact Int.mul_emod_left _ _
    rw [e] at this
    exact_mod_cast this
  unfold ranand_erase
  rw [if_neg (by rw [h1, h2]; simp)]
  obtain ⟨s1, hs1, _⟩ := erase_loop_counts hwf (flashLayer cfg)
    (fun t => t.wp = false ∧ (cfg.CONFIG_BADBLOCK_CHECK = true →
      ∀ b, b % cfg.CFG_BLOCKSIZE = 0 → (t.tag_ok cfg b ↔ fl.tag_ok cfg b)))
    (fun a => cfg.CONFIG_BADBLOCK_CHECK && !decide (fl.tag_ok cfg a))
    (by
      intro t ht
      refine ⟨t, ?_, ht⟩
      show some ((if t.wp then (1 : Int) else 0), t) = some (0, t)
      rw [ht.1]; rfl)
    (by
      intro hc a t ha _ ht
      refine ⟨t, ?_, ht⟩
      rw [flash_isbad, hc]
      have := ht.2 hc a ha
      by_cases h : fl.tag_ok cfg a
      · simp [h, this.mpr h]
      · have h' : ¬ t.tag_ok cfg a := fun x => h (this.mp x)
        simp [h, h'])
    (by intro hc a; simp [hc])
    (by
      intro a t ha _ hgood ht
      refine ⟨t.erase cfg (i32 ((a >>> cfg.CONFIG_PAGE_SIZE_BIT : Nat) : Int)), rfl, ht.1, ?_⟩
      intro hc b hb
      have hga : fl.tag_ok cfg a := by
        simp only [hc, Bool.true_and, Bool.not_eq_false', decide_eq_true_eq] at hgood
        exact hgood
      rw [erase_keeps_tags hwf t a b ha hb ((ht.2 hc a ha).mpr hga)]
      exact ht.2 hc b hb)
    m offs g 0 fl hal ⟨hwp, fun _ _ _ => Iff.rfl⟩ hg (le_refl _) (by omega) hcount hlast
  rw [Nat.mod_eq_of_lt hoffs, Int.zero_add] at hs1
  exact ⟨s1, hs1⟩

theorem ranand_erase_returns_skipped_witness :
    ∃ fl1, ranand_erase sampleCfg (flashLayer sampleCfg) 3 8 8 skipFlash = some (1, fl1) :=
  ranand_erase_returns_skipped sampleCfg_wf skipFlash rfl 8 2 1 (by decide) (by decide)
    (by decide) (by decide) (by decide) (by decide)

/-- C6 (code evaluated at the failing input): on a chip whose block 0 carries the tag 0x33
at the bad-block-marker offset of its first page (page 0) and 0xFF on its second page,
`ranand_block_isbad(0)` reports bad (1) but `ranand_block_isbad(4)`, an offset inside the
same 8-byte block, reports good (0): the probe reads the tag of the page holding `offs`,
not of the first page of its block. -/
theorem C6_block_isbad_probes_own_page :
    markedFlash.pages 0 (sampleCfg.CFG_PAGESIZE + sampleCfg.CONFIG_BAD_BLOCK_POS) = 0x33
    ∧ (4 : Nat) / sampleCfg.CFG_BLOCKSIZE = 0
    ∧ (ranand_block_isbad sampleCfg (flashLayer sampleCfg) 0 markedFlash).map Prod.fst = some 1
    ∧ (ranand_block_isbad sampleCfg (flashLayer sampleCfg) 4 markedFlash).map Prod.fst
        = some 0 := by
  refine ⟨?_, ?_, ?_, ?_⟩ <;> decide

/-- C7 (amended): a unit of `ranand_erase_write` that is shorter than one block, or, when
bad-block checking is not compiled in, not block-aligned, takes the read-modify-write
path.  On the recording chip, when the chip is not write-protected, every page of the block
`[offs - offs mod block_size, + block_size)` is read successfully (at once, or on its single
retry) and no bad-block probe of the block reports bad, the unit reads the pages of that
block, erases it, and writes the same pages back (then reads them again when the read-back
check is compiled in), and nothing else; afterwards the block holds the bytes it held before
the call with exactly the bytes
`[offs mod block_size, offs mod block_size + min(count, block_size - offs mod block_size))`
replaced by the next source bytes, and the loop goes on with the rest of the source.  With
bad-block checking compiled in, a unit whose offset is not block-aligned is rejected with
-1 before any access. -/
theorem C7_erase_write_rmw_unit (cfg : Cfg) (hwf : cfg.WF) (ch : Chip) (src : Mem)
    (f bpos offs : Nat) (count : Int)
    (hcount : 0 < count) (hoffs : offs < 4294967296)
    (hpath : (cfg.CONFIG_BADBLOCK_CHECK = false
        ∧ (offs % cfg.CFG_BLOCKSIZE ≠ 0 ∨ count < cfg.CFG_BLOCKSIZE))
      ∨ (cfg.CONFIG_BADBLOCK_CHECK = true ∧ offs % cfg.CFG_BLOCKSIZE = 0
        ∧ count < cfg.CFG_BLOCKSIZE))
    (hfuel : cfg.CFG_BLOCKSIZE < f) (hwp : ch.wp = false)
    (hreads : ∀ i, i < cfg.CFG_BLOCKSIZE →
      ch.fails (page_of cfg (offs - offs % cfg.CFG_BLOCKSIZE + i)) ≤ 1)
    (htags : cfg.CONFIG_BADBLOCK_CHECK = true →
      ∀ a i, i < cfg.CFG_BLOCKSIZE →
        a % cfg.CFG_CHIPSIZE = (offs - offs % cfg.CFG_BLOCKSIZE + i) % cfg.CFG_CHIPSIZE →
        ch.tag_ok cfg a) :
    (∃ ch1 : Chip,
      ranand_erase_write_loop cfg (chipLayer cfg) src (f + 1) bpos offs count ch
        = ranand_erase_write_loop cfg (chipLayer cfg) src f
            (bpos + (min count ((cfg.CFG_BLOCKSIZE : Int) - (offs % cfg.CFG_BLOCKSIZE : Nat))).toNat)
            (u32 ((offs : Int) + min count ((cfg.CFG_BLOCKSIZE : Int) - (offs % cfg.CFG_BLOCKSIZE : Nat))))
            (count - min count ((cfg.CFG_BLOCKSIZE : Int) - (offs % cfg.CFG_BLOCKSIZE : Nat))) ch1
      ∧ ch1.log
          = (ch.afterTries (page_run cfg (offs - offs % cfg.CFG_BLOCKSIZE) cfg.CFG_BLOCKSIZE)).log
          ++ [ChipOp.erase (i32 (((offs - offs % cfg.CFG_BLOCKSIZE)
                >>> cfg.CONFIG_PAGE_SIZE_BIT : Nat) : Int))]
          ++ (page_run cfg (offs - offs % cfg.CFG_BLOCKSIZE) cfg.CFG_BLOCKSIZE).map ChipOp.write
          ++ (if cfg.RALINK_NAND_UPGRADE_CHECK
              then (page_run cfg (offs - offs % cfg.CFG_BLOCKSIZE) cfg.CFG_BLOCKSIZE).map
                ChipOp.read
              else [])
      ∧ (∀ i, i < cfg.CFG_BLOCKSIZE →
          ch1.byte cfg (offs - offs % cfg.CFG_BLOCKSIZE + i)
            = if offs % cfg.CFG_BLOCKSIZE ≤ i ∧ (i : Int) < (offs % cfg.CFG_BLOCKSIZE : Nat)
                  + min count ((cfg.CFG_BLOCKSIZE : Int) - (offs % cfg.CFG_BLOCKSIZE : Nat))
              then src (bpos + (i - offs % cfg.CFG_BLOCKSIZE))
              else ch.byte cfg (offs - offs % cfg.CFG_BLOCKSIZE + i))
      ∧ ch1.wp = false)
    ∧ (∀ op, op ∈ (ch.afterTries
          (page_run cfg (offs - offs % cfg.CFG_BLOCKSIZE) cfg.CFG_BLOCKSIZE)).log →
        op ∈ ch.log ∨ ∃ i, i < cfg.CFG_BLOCKSIZE
          ∧ op = ChipOp.read (page_of cfg (offs - offs % cfg.CFG_BLOCKSIZE + i)))
    ∧ ((∀ i, i < cfg.CFG_BLOCKSIZE →
          ch.fails (page_of cfg (offs - offs % cfg.CFG_BLOCKSIZE + i)) = 0) →
        (ch.afterTries (page_run cfg (offs - offs % cfg.CFG_BLOCKSIZE) cfg.CFG_BLOCKSIZE)).log
          = ch.log
            ++ (page_run cfg (offs - offs % cfg.CFG_BLOCKSIZE) cfg.CFG_BLOCKSIZE).map ChipOp.read)
    ∧ (∀ p, p ∈ page_run cfg (offs - offs % cfg.CFG_BLOCKSIZE) cfg.CFG_BLOCKSIZE →
        ∃ i, i < cfg.CFG_BLOCKSIZE
          ∧ p = (page_of cfg (offs - offs % cfg.CFG_BLOCKSIZE + i) : Int))
    ∧ (cfg.CONFIG_BADBLOCK_CHECK = true → ∀ (t : Chip) (o : Nat), o % cfg.CFG_BLOCKSIZE ≠ 0 →
        ranand_erase_write_loop cfg (chipLayer cfg) src (f + 1) bpos o count t = some (-1, t)) := by
  have hbs := hwf.bs_pos
  have hpl : offs % cfg.CFG_BLOCKSIZE < cfg.CFG_BLOCKSIZE := Nat.mod_lt _ hbs
  have hmask := blockmask_eq hwf
  have hpiece : offs &&& (cfg.CFG_BLOCKSIZE - 1) = offs % cfg.CFG_BLOCKSIZE := block_mask_nat hwf offs
  have hstart := block_start hwf offs hoffs
  have hba : (offs - offs % cfg.CFG_BLOCKSIZE) % cfg.CFG_BLOCKSIZE = 0 := by
    have := Nat.mod_add_div offs cfg.CFG_BLOCKSIZE
    have e : offs - offs % cfg.CFG_BLOCKSIZE = cfg.CFG_BLOCKSIZE * (offs / cfg.CFG_BLOCKSIZE) := by
      omega
    rw [e, Nat.mul_mod_right]
  refine ⟨?_, ?_, ?_, fun p hp => page_run_mem hwf _ _ p hp, ?_⟩
  · obtain ⟨f1, rfl⟩ : ∃ f1, f = f1 + 1 := ⟨f - 1, by omega⟩
    obtain ⟨ch1, hrun, hw1, _, hl1, hb1⟩ := chip_rmw_unit hwf ch (fun i => src (bpos + i))
      (fun _ => 0) (fun _ => 0) (f1 + 1) f1 (offs - offs % cfg.CFG_BLOCKSIZE) offs count hcount
      hba hfuel hwp hreads htags
    refine ⟨ch1, ?_, hl1, hb1, hw1⟩
    rw [ranand_erase_write_loop]
    simp only [hmask, hpiece, hstart]
    have hc1 : ¬ (cfg.CONFIG_BADBLOCK_CHECK = true ∧ offs % cfg.CFG_BLOCKSIZE ≠ 0) := by
      rcases hpath with ⟨h1, _⟩ | ⟨_, h2, _⟩
      · rw [h1]; simp
      · simp [h2]
    have hc2 : (cfg.CONFIG_BADBLOCK_CHECK = false ∧ offs % cfg.CFG_BLOCKSIZE ≠ 0)
        ∨ count < (cfg.CFG_BLOCKSIZE : Int) := by
      rcases hpath with ⟨h1, h2 | h2⟩ | ⟨_, _, h3⟩
      · exact Or.inl ⟨h1, h2⟩
      · exact Or.inr h2
      · exact Or.inr h3
    have hmalloc : ∀ t : Chip, (chipLayer cfg).malloc cfg.CFG_BLOCKSIZE t
        = some (some (fun _ => 0), t) := fun _ => rfl
    rw [if_pos hcount, if_neg hc1, if_pos hc2]
    simp only [M.bind_run, hmalloc, Option.some_bind, hrun, ne_eq, not_true_eq_false, if_false]
  · intro op hop
    rcases Chip.afterTries_log_mem _ ch op hop with h | ⟨p, hp, he⟩
    · exact Or.inl h
    · obtain ⟨i, hi, hpi⟩ := page_run_mem hwf _ _ p hp
      exact Or.inr ⟨i, hi, by rw [he, hpi]⟩
  · intro h0
    rw [Chip.afterTries_good _ ch, Chip.afterReads_log]
    intro p hp
    obtain ⟨i, hi, he⟩ := page_run_mem hwf _ _ p hp
    rw [he]
    exact h0 i hi
  · intro hc t o ho
    rw [ranand_erase_write_loop]
    simp only [hmask, block_mask_nat hwf o]
    rw [if_pos hcount, if_pos ⟨hc, ho⟩]
    rfl

/-- C7 (amended) at a concrete input: three bytes written at offset 0 of `dataChip 1`, whose
block 0 (pages 0 and 1) holds 0 1 2 3 16 17 18 19 and whose page 1 fails its first read.
The unit reads page 0, reads page 1 twice, erases block 0 and writes pages 0 and 1: the
block ends as 1 2 3 3 16 17 18 19, and the whole call returns 0. -/
theorem C7_erase_write_rmw_unit_witness :
    (∀ i, i < sampleCfg.CFG_BLOCKSIZE →
      (dataChip 1).fails (page_of sampleCfg (0 - 0 % sampleCfg.CFG_BLOCKSIZE + i)) ≤ 1)
    ∧ window (fun i => (dataChip 1).byte sampleCfg i) 8 = [0, 1, 2, 3, 16, 17, 18, 19]
    ∧ (∃ ch1 : Chip,
        ranand_erase_write_loop sampleCfg (chipLayer sampleCfg) countBytes (20 + 1) 0 0 3
            (dataChip 1)
          = ranand_erase_write_loop sampleCfg (chipLayer sampleCfg) countBytes 20 3 3 0 ch1
        ∧ ch1.log = [ChipOp.read 0, ChipOp.read 1, ChipOp.read 1, ChipOp.erase 0,
            ChipOp.write 0, ChipOp.write 1]
        ∧ window (fun i => ch1.byte sampleCfg i) 8 = [1, 2, 3, 3, 16, 17, 18, 19])
    ∧ ((ranand_erase_write sampleCfg (chipLayer sampleCfg) 30 countBytes 0 3 (dataChip 1)).map
        fun r => (r.1, window (fun i => r.2.byte sampleCfg i) 8, r.2.log))
      = some (0, [1, 2, 3, 3, 16, 17, 18, 19],
          [ChipOp.read 0, ChipOp.read 1, ChipOp.read 1, ChipOp.erase 0,
            ChipOp.write 0, ChipOp.write 1]) := by
  refine ⟨by decide, by decide, ?_, by decide⟩
  obtain ⟨⟨ch1, h1, hlog, hbytes, _⟩, _⟩ :=
    C7_erase_write_rmw_unit sampleCfg sampleCfg_wf (dataChip 1) countBytes 20 0 0 3
      (by decide) (by decide) (Or.inr ⟨rfl, by decide, by decide⟩) (by decide) rfl (by decide)
      (fun _ a i _ _ => by unfold Chip.tag_ok; rfl)
  have b0 : ch1.byte sampleCfg 0 = 1 := (hbytes 0 (by decide)).trans (by decide)
  have b1 : ch1.byte sampleCfg 1 = 2 := (hbytes 1 (by decide)).trans (by decide)
  have b2 : ch1.byte sampleCfg 2 = 3 := (hbytes 2 (by decide)).trans (by decide)
  have b3 : ch1.byte sampleCfg 3 = 3 := (hbytes 3 (by decide)).trans (by decide)
  have b4 : ch1.byte sampleCfg 4 = 16 := (hbytes 4 (by decide)).trans (by decide)
  have b5 : ch1.byte sampleCfg 5 = 17 := (hbytes 5 (by decide)).trans (by decide)
  have b6 : ch1.byte sampleCfg 6 = 18 := (hbytes 6 (by decide)).trans (by decide)
  have b7 : ch1.byte sampleCfg 7 = 19 := (hbytes 7 (by decide)).trans (by decide)
  refine ⟨ch1, h1, hlog.trans (by decide), ?_⟩
  show [ch1.byte sampleCfg 0, ch1.byte sampleCfg 1, ch1.byte sampleCfg 2, ch1.byte sampleCfg 3,
    ch1.byte sampleCfg 4, ch1.byte sampleCfg 5, ch1.byte sampleCfg 6, ch1.byte sampleCfg 7] = _
  rw [b0, b1, b2, b3, b4, b5, b6, b7]

/-- C7 (counterexample): two units on which the block read, the erase and the write-back
all succeed, and the block is not left as the claim says.  (1) With bad-block checking
compiled in, the unit at offset 1 (not block-aligned) of a blank chip is not
read-modify-written: `ranand_erase_write` returns -1 and leaves the chip as it was.
(2) On `markedChip 3`, whose block 1 (pages 2 and 3) holds 32..35 and 48..51 and whose page
3 carries the byte 0x33 at the bad-block-marker offset while the first page of the block
carries 0xFF, the unit `(offs = 8, count = 3)` returns 0 after reading pages 2 and 5,
erasing block 1 and writing pages 2 and 3: page 3 ends with the bytes 80..83 that page 5
held, not with its own 48..51. -/
theorem C7_unit_rejected_or_block_not_preserved :
    (ranand_erase_write sampleCfg (flashLayer sampleCfg) 20 countBytes 1 2 blankFlash
        = some (-1, blankFlash)
      ∧ 1 % sampleCfg.CFG_BLOCKSIZE ≠ 0
      ∧ (ranand_read sampleCfg (flashLayer sampleCfg) 20 (some (fun _ => 0)) 0 8 blankFlash).map
          (fun r => r.1.1) = some 8
      ∧ (ranand_erase sampleCfg (flashLayer sampleCfg) 20 0 8 blankFlash).map Prod.fst = some 0
      ∧ (ranand_write sampleCfg (flashLayer sampleCfg) 20 (some countBytes) 0 8 blankFlash).map
          Prod.fst = some 8)
    ∧ ((markedChip 3).pages 3 (sampleCfg.CFG_PAGESIZE + sampleCfg.CONFIG_BAD_BLOCK_POS) = 0x33
      ∧ (markedChip 3).pages 2 (sampleCfg.CFG_PAGESIZE + sampleCfg.CONFIG_BAD_BLOCK_POS) = 0xff
      ∧ window ((markedChip 3).pages 2) 4 = [32, 33, 34, 35]
      ∧ window ((markedChip 3).pages 3) 4 = [48, 49, 50, 51]
      ∧ window ((markedChip 3).pages 5) 4 = [80, 81, 82, 83]
      ∧ ((ranand_read sampleCfg (chipLayer sampleCfg) 30 (some (fun _ => 0)) 8 8
            (markedChip 3)).map fun r => (r.1.1, window r.1.2 8, r.2.log))
          = some (8, [32, 33, 34, 35, 80, 81, 82, 83], [ChipOp.read 2, ChipOp.read 5])
      ∧ ((ranand_erase sampleCfg (chipLayer sampleCfg) 30 8 8 (markedChip 3)).map
            fun r => (r.1, r.2.log)) = some (0, [ChipOp.erase 2])
      ∧ ((ranand_write sampleCfg (chipLayer sampleCfg) 30 (some countBytes) 8 8
            (markedChip 3)).map fun r => (r.1, r.2.log))
          = some (8, [ChipOp.write 2, ChipOp.write 3])
      ∧ ((ranand_erase_write sampleCfg (chipLayer sampleCfg) 30 countBytes 8 3
            (markedChip 3)).map
          fun r => (r.1, window (r.2.pages 2) 4, window (r.2.pages 3) 4, r.2.log))
        = some (0, [1, 2, 3, 35], [80, 81, 82, 83],
            [ChipOp.read 2, ChipOp.read 5, ChipOp.erase 2, ChipOp.write 2, ChipOp.write 3])) := by
  refine ⟨⟨rfl, by decide, by decide, by decide, by decide⟩,
    by decide, by decide, by decide, by decide, by decide, by decide, by decide, by decide,
    by decide⟩

/-- The read-modify-write unit after a bad-block skip: block 1 of `skipFlash` is marked bad,
so `ranand_erase(8, 8)` skips it, erases block 2 instead and returns 1;
`ranand_erase_write` then retries on block 2, reads it back erased, and writes
01 02 03 FF .. FF: the bytes 67 and 80..83 that block 2 held are not preserved. -/
theorem erase_write_rmw_after_bad_block_skip :
    ((ranand_erase_write sampleCfg (flashLayer sampleCfg) 30 countBytes 8 3 skipFlash).map
      fun r => (r.1, window (r.2.pages 4) 4, window (r.2.pages 5) 4))
        = some (0, [1, 2, 3, 255], [255, 255, 255, 255])
    ∧ window (skipFlash.pages 4) 4 = [64, 65, 66, 67]
    ∧ window (skipFlash.pages 5) 4 = [80, 81, 82, 83]
    ∧ ((ranand_erase sampleCfg (flashLayer sampleCfg) 30 8 8 skipFlash).map
      fun r => (r.1, window (r.2.pages 4) 4, window (r.2.pages 5) 4))
        = some (1, [255, 255, 255, 255], [255, 255, 255, 255]) := by
  refine ⟨?_, ?_, ?_, ?_⟩ <;> decide

/-- C8 (code evaluated at the failing input): `nfc_write_page(buf, 3)` on a controller that
completes the page transfer (status 0), delivers a read-back that fails the WRITE-mode ECC
verification (-1), and hangs once the opcode 0x8050 of the tag write has reached CMD1: the
tag write `nfc_write_oob(2, CONFIG_BAD_BLOCK_POS, &0x33, 1)` does not return, and neither
does `nfc_write_page`, whatever the amount of fuel; it never returns -2. -/
theorem C8_write_page_hangs_in_tag_write (fuel : Nat) :
    nfc_write_page sampleCfg hangDev fuel bytesFF0001 3 false = none
    ∧ write_page_xfer sampleCfg hangDev (fuel + 8) bytesFF0001 (chip_page sampleCfg 3) false
        = some (0, false)
    ∧ charInt (0 % 256) &&& sampleCfg.NAND_STATUS_FAIL = 0
    ∧ nfc_ecc_verify sampleCfg hangDev (fuel + 8) bytesFF0001 (chip_page sampleCfg 3)
        FlMode.FL_WRITING false = some (-1, false)
    ∧ block_first_page sampleCfg (chip_page sampleCfg 3) = 2
    ∧ nfc_write_oob sampleCfg hangDev fuel (block_first_page sampleCfg (chip_page sampleCfg 3))
        sampleCfg.CONFIG_BAD_BLOCK_POS
        (fun i => poke bytesFF0001 (sampleCfg.CFG_PAGESIZE + sampleCfg.CONFIG_BAD_BLOCK_POS) 0x33
          (sampleCfg.CFG_PAGESIZE + sampleCfg.CONFIG_BAD_BLOCK_POS + i)) 1 false = none
    ∧ nfc_wait_ready sampleCfg hangDev fuel 1 true = none := by
  refine ⟨?_, hang_xfer fuel, by decide, hang_verify fuel, by decide, hang_write_oob fuel _ _,
    (hang_chain fuel).2.1 1⟩
  rcases fuel with _ | _ | _ | _ | _ | _ | _ | _ | k
  · rfl
  · rfl
  · rfl
  · rfl
  · rfl
  · rfl
  · rfl
  · rfl
  · unfold nfc_write_page
    simp only [M.bind_run, hang_xfer k, Option.some_bind]
    rw [if_neg (by decide)]
    simp only [M.bind_run, hang_verify k, Option.some_bind]
    rw [if_pos (by decide)]
    simp only [M.bind_run, hang_write_oob, Option.none_bind]

/-- Supplement to C8: when the data transfer of `nfc_write_page` succeeds, the WRITE-mode ECC
verification returns a failure code and the tag write returns, `nfc_write_page` has issued
exactly the OOB write of the one byte 0x33 at the bad-block-marker offset to the page
`p0 = p - p % pages_per_block` (`p` the chip-masked page index; `p0` is a multiple of the
pages per block with `p0 ≤ p < p0 + pages_per_block`) and returns -2 whatever that OOB
write returns; a failed data transfer returns -1 instead. -/
theorem write_page_marks_block (cfg : Cfg) (hwf : cfg.WF) (dev : Dev σ) (fuel : Nat)
    (buf : Mem) (page : Int) (s s1 s2 s3 : σ) (st : Nat) (v w : Int)
    (hxfer : write_page_xfer cfg dev fuel buf (chip_page cfg page) s = some (st, s1))
    (hok : charInt (st % 256) &&& cfg.NAND_STATUS_FAIL = 0)
    (hver : nfc_ecc_verify cfg dev fuel buf (chip_page cfg page) FlMode.FL_WRITING s1
      = some (v, s2))
    (hfail : v ≠ 0)
    (htag : nfc_write_oob cfg dev fuel (block_first_page cfg (chip_page cfg page))
      cfg.CONFIG_BAD_BLOCK_POS
      (fun i => poke buf (cfg.CFG_PAGESIZE + cfg.CONFIG_BAD_BLOCK_POS) 0x33
        (cfg.CFG_PAGESIZE + cfg.CONFIG_BAD_BLOCK_POS + i)) 1 s2 = some (w, s3)) :
    nfc_write_page cfg dev fuel buf page s
        = some ((-2, poke buf (cfg.CFG_PAGESIZE + cfg.CONFIG_BAD_BLOCK_POS) 0x33), s3)
      ∧ poke buf (cfg.CFG_PAGESIZE + cfg.CONFIG_BAD_BLOCK_POS) 0x33
          (cfg.CFG_PAGESIZE + cfg.CONFIG_BAD_BLOCK_POS + 0) = 0x33
      ∧ block_first_page cfg (chip_page cfg page)
          % ((cfg.CFG_BLOCKSIZE / cfg.CFG_PAGESIZE : Nat) : Int) = 0
      ∧ block_first_page cfg (chip_page cfg page) ≤ chip_page cfg page
      ∧ chip_page cfg page < block_first_page cfg (chip_page cfg page)
          + ((cfg.CFG_BLOCKSIZE / cfg.CFG_PAGESIZE : Nat) : Int)
      ∧ ∀ (t t1 : σ) (st1 : Nat),
          write_page_xfer cfg dev fuel buf (chip_page cfg page) t = some (st1, t1) →
          charInt (st1 % 256) &&& cfg.NAND_STATUS_FAIL ≠ 0 →
          nfc_write_page cfg dev fuel buf page t = some ((-1, buf), t1) := by
  have hspec := block_first_page_spec cfg hwf page
  refine ⟨?_, ?_, hspec.2.1, hspec.2.2.1, hspec.2.2.2, ?_⟩
  · have hv : u32 v % 256 ≠ 0 := by
      rcases nfc_ecc_verify_codes _ _ _ _ _ _ _ _ _ hver with h | h | h
      · exact absurd h hfail
      · subst h; decide
      · subst h; decide
    unfold nfc_write_page
    simp only [M.bind_run, hxfer, Option.some_bind, hok, ne_eq, not_true_eq_false, if_false,
      hver, hv, not_false_eq_true, if_true, htag, M.pure_run]
  · simp [poke]
  · intro t t1 st1 h1 h2
    unfold nfc_write_page
    simp only [M.bind_run, h1, Option.some_bind, h2, ne_eq, not_false_eq_true, if_true,
      M.pure_run]

/-- Supplement to C8 at a concrete input: page 3 of `sampleCfg` on a controller whose ECC
register never matches the read-back page and which never hangs; the tag goes to page 2, the
first page of block 1.  On the logging controller the call writes the opcodes 0x8000 (page
program), 0x70 (status), 0 and 0x70 twice (the two read-backs), then 0x8050 (OOB program) and
0x70 to CMD1; the last bus address is `2 << 8 = 512` and the last data word is 0x33. -/
theorem write_page_marks_block_witness :
    write_page_xfer sampleCfg readyDev 20 bytesFF0001 (chip_page sampleCfg 3) ()
        = some (0, ())
    ∧ nfc_ecc_verify sampleCfg readyDev 20 bytesFF0001 (chip_page sampleCfg 3)
        FlMode.FL_WRITING () = some (-1, ())
    ∧ block_first_page sampleCfg (chip_page sampleCfg 3) = 2
    ∧ nfc_write_oob sampleCfg readyDev 20 2 0 (fun i => poke bytesFF0001 4 0x33 (4 + i)) 1 ()
        = some (0, ())
    ∧ nfc_write_page sampleCfg readyDev 20 bytesFF0001 3 ()
        = some ((-2, poke bytesFF0001 4 0x33), ())
    ∧ ((nfc_write_page sampleCfg (logDev readyDev) 20 bytesFF0001 3 ((), [])).map
        fun r => (r.1.1, cmd1Writes r.2.2, addrWrites r.2.2, dataWrites r.2.2))
      = some (-2, [0x8000, 0x70, 0, 0x70, 0, 0x70, 0x8050, 0x70], [768, 768, 768, 512],
          [255, 1, 0x33]) :=
  ⟨by rfl, by rfl, by decide, by rfl,
    (write_page_marks_block sampleCfg sampleCfg_wf readyDev 20 bytesFF0001 3 () () () ()
      0 (-1) 0 (by rfl) (by decide) (by rfl) (by decide) (by rfl)).1, by decide⟩

/-- C9 (code evaluated at the failing input): built without RW_DATA_BY_BYTE, with the
TX-buffer-ready bit set on every poll, `_ra_nand_push_data(buf, 2)` writes one word to DATA
and returns 6, and `_ra_nand_push_data(buf, 3)` writes one word and returns 11: the return
value is neither `len` nor `min(len, 4 * words)`.  `_ra_nand_pull_data` returns 3 for
length 3 on the same device. -/
theorem C9_push_data_return_value :
    ((_ra_nand_push_data sampleCfg (logDev readyDev) 10 bytesFF0001 2 ((), [])).map
        fun r => (r.1, (dataWrites r.2.2).length)) = some (6, 1)
    ∧ ((_ra_nand_push_data sampleCfg (logDev readyDev) 10 bytesFF0001 3 ((), [])).map
        fun r => (r.1, (dataWrites r.2.2).length)) = some (11, 1)
    ∧ ((_ra_nand_pull_data sampleCfg (logDev readyDev) 10 bytesFF0001 3 ((), [])).map
        fun r => (r.1.1, (dataReads r.2.2).length)) = some (3, 1) := by
  refine ⟨?_, ?_, ?_⟩ <;> decide

/-- Supplement to C9: for every device, buffer and length `len >= 0`, `_ra_nand_pull_data`
returns, and its value is `min(len, 4 * words)` for the number of words it read from DATA
(so `len` when the RX-buffer-ready bit is set on every poll); `_ra_nand_push_data` does the
same for the words it wrote to DATA in a build with RW_DATA_BY_BYTE, or when `len` is a
multiple of 4. -/
theorem data_transfer_returns_moved (cfg : Cfg) (dev : Dev σ) (buf : Mem) (len : Int) (s : σ)
    (hlen : 0 ≤ len) :
    (∃ (r : Int) (out : Mem) (s1 : σ) (log : List Access),
      _ra_nand_pull_data cfg (logDev dev) (len.toNat + 1003) buf len (s, [])
        = some ((r, out), (s1, log))
      ∧ r = min len (4 * ((dataReads log).length : Int))
      ∧ ((∀ t, (dev.inl Reg.NFC_INT_ST t).1 % 4294967296 &&& cfg.INT_ST_RX_BUF_RDY ≠ 0) →
          r = len))
    ∧ ((cfg.RW_DATA_BY_BYTE = true ∨ len % 4 = 0) →
      ∃ (r : Int) (s1 : σ) (log : List Access),
        _ra_nand_push_data cfg (logDev dev) (len.toNat + 1003) buf len (s, [])
          = some (r, (s1, log))
        ∧ r = min len (4 * ((dataWrites log).length : Int))
        ∧ ((∀ t, (dev.inl Reg.NFC_INT_ST t).1 % 4294967296 &&& cfg.INT_ST_TX_BUF_RDY ≠ 0) →
            r = len)) := by
  constructor
  · obtain ⟨r, out, s1, new, h, hr, hall⟩ := pull_loop_returns_moved cfg dev
      (len.toNat + 1003) buf 0 len READ_STATUS_RETRY s [] (by decide)
      (by unfold READ_STATUS_RETRY; omega)
    refine ⟨r, out, s1, new, ?_, ?_, ?_⟩
    · simpa [_ra_nand_pull_data] using h
    · rw [hr]; push_cast; omega
    · intro hre; rw [hall hre]; push_cast; omega
  · intro hmode
    obtain ⟨r, s1, new, h, hr, hall⟩ := push_loop_returns_moved cfg dev buf
      (len.toNat + 1003) 0 0 len 528 s [] (by decide) hmode (by omega)
    refine ⟨r, s1, new, ?_, ?_, ?_⟩
    · simpa [_ra_nand_push_data] using h
    · rw [hr]; omega
    · intro hre; rw [hall hre]; omega

theorem data_transfer_returns_moved_witness :
    (0 : Int) ≤ 3
    ∧ (∃ (r : Int) (out : Mem) (s1 : Unit) (log : List Access),
      _ra_nand_pull_data sampleCfg (logDev readyDev) 1006 bytesFF0001 3 ((), [])
        = some ((r, out), (s1, log))
      ∧ r = min 3 (4 * ((dataReads log).length : Int))
      ∧ ((∀ t, (readyDev.inl Reg.NFC_INT_ST t).1 % 4294967296
            &&& sampleCfg.INT_ST_RX_BUF_RDY ≠ 0) → r = 3)) :=
  ⟨by decide, (data_transfer_returns_moved sampleCfg readyDev bytesFF0001 3 () (by decide)).1⟩

/-- C10 (code evaluated at the failing input): with the TX-buffer-ready bit always set,
pushing the five bytes FF 00 00 00 01 without RW_DATA_BY_BYTE writes the words 0xFF and
0xFF to DATA, so the second word does not carry b[4] = 1 in bits 0..7, and pulling those
two words back with length 5 yields FF 00 00 00 FF; pushing the eight bytes
01 00 00 00 02 00 00 00 with RW_DATA_BY_BYTE writes the words 1 and 3. -/
theorem C10_push_words_diverge :
    ((_ra_nand_push_data sampleCfg (logDev readyDev) 10 bytesFF0001 5 ((), [])).map
        fun r => dataWrites r.2.2) = some [255, 255]
    ∧ ((_ra_nand_pull_data sampleCfg fifoDev 10 (fun _ => 0) 5 [255, 255]).map
        fun r => (r.1.1, window r.1.2 5)) = some (5, [255, 0, 0, 0, 255])
    ∧ window bytesFF0001 5 = [255, 0, 0, 0, 1]
    ∧ ((_ra_nand_push_data byteCfg (logDev readyDev) 10 bytes010002 8 ((), [])).map
        fun r => dataWrites r.2.2) = some [1, 3] := by
  refine ⟨?_, ?_, ?_, ?_⟩ <;> decide

/-- C11 (amended): in READ mode `nfc_ecc_verify` reads the ECC register once and returns 0
when the value `e` read is zero, or when each of its first CONFIG_ECC_BYTES bytes (least
significant first) equals the buffer byte at index `page_size + CONFIG_ECC_OFFSET + i`;
otherwise it returns -1. -/
theorem C11_ecc_verify_read (cfg : Cfg) (hwf : cfg.WF) (hbytes : cfg.CONFIG_ECC_BYTES ≤ 4)
    (dev : Dev σ) (fuel : Nat) (buf : Mem) (page : Int) (s : σ) :
    nfc_ecc_verify cfg dev (fuel + 1) buf page FlMode.FL_READING s
      = some (if (dev.inl Reg.NFC_ECC s).1 % 4294967296 = 0
            ∨ ∀ i, i < cfg.CONFIG_ECC_BYTES →
                buf (cfg.CFG_PAGESIZE + cfg.CONFIG_ECC_OFFSET + i) % 256
                  = (dev.inl Reg.NFC_ECC s).1 % 4294967296 / 2 ^ (8 * i) % 256
          then 0 else -1, (dev.inl Reg.NFC_ECC s).2) := by
  rw [nfc_ecc_verify]
  unfold ecc_check
  simp only [M.bind_run, ra_inl_some, Option.some_bind, M.ite_run, M.pure_run, ← hwf.pagesize,
    List.all_eq_true, List.mem_range, decide_eq_true_eq, Nat.add_assoc]
  by_cases h0 : (dev.inl Reg.NFC_ECC s).1 % 4294967296 = 0
  · simp [h0]
  · have _ := hbytes
    simp only [h0, if_false, false_or]
    split_ifs <;> rfl

theorem C11_ecc_verify_read_witness :
    sampleCfg.CONFIG_ECC_BYTES ≤ 4
    ∧ nfc_ecc_verify sampleCfg (eccDev 0x01020304) 1 (fun i => if 5 ≤ i then 9 - i else 0) 0
        FlMode.FL_READING () = some (0, ()) :=
  ⟨by decide, (C11_ecc_verify_read sampleCfg sampleCfg_wf (by decide) (eccDev 0x01020304) 0
    (fun i => if 5 ≤ i then 9 - i else 0) 0 ()).trans (by decide)⟩

/-- C11 (counterexample): with CONFIG_ECC_BYTES = 3 and the ECC register reading 0x01000000
over a buffer of zero bytes, the three bytes compared agree, so `nfc_ecc_verify` returns 0
in READ mode although the register value is not zero and its fourth byte (1) differs from
the stored byte at index `page_size + CONFIG_ECC_OFFSET + 3` (0). -/
theorem C11_fourth_ecc_byte_not_compared :
    nfc_ecc_verify sampleCfg (eccDev 0x01000000) 1 (fun _ => 0) 0 FlMode.FL_READING ()
        = some (0, ())
    ∧ ¬ ((0x01000000 : Nat) = 0
        ∨ ∀ i, i < 4 → (fun _ => 0 : Mem) (sampleCfg.CFG_PAGESIZE + sampleCfg.CONFIG_ECC_OFFSET + i)
            % 256 = 0x01000000 / 2 ^ (8 * i) % 256) := by
  constructor
  · decide
  · decide

/-- C12 (code evaluated at the failing input): on the chip of `sampleCfg` (32 bytes, pages of
4 bytes, so 8 pages) the page argument 8 is left at 8 by `page & (CFG_CHIPSIZE - 1)`, which
is not below `chip_size / page_size = 8`; `nfc_read_page` and `nfc_write_page` build their
bus address from it: `8 << 8 = 2048` is what they write to the ADDRESS register (the page
write, its two read-backs and the marker write each write it once; both calls end in an ECC
failure on this controller, which plays no part in the address). -/
theorem C12_page_mask_keeps_page_past_chip :
    chip_page sampleCfg 8 = 8
    ∧ sampleCfg.CFG_CHIPSIZE / sampleCfg.CFG_PAGESIZE = 8
    ∧ ((nfc_read_page sampleCfg (logDev readyDev) 8 (fun _ => 0) 8 ((), [])).map
        fun r => (r.1.1, addrWrites r.2.2)) = some (-2, [2048])
    ∧ ((nfc_write_page sampleCfg (logDev readyDev) 8 (fun _ => 0) 8 ((), [])).map
        fun r => (r.1.1, addrWrites r.2.2)) = some (-2, [2048, 2048, 2048, 2048]) := by
  refine ⟨?_, ?_, ?_, ?_⟩ <;> decide

/-- Supplement to C12: the mask `page & (CFG_CHIPSIZE - 1)` confines the page index to
`[0, CFG_CHIPSIZE)`, the range of byte addresses. -/
theorem chip_page_lt_chipsize {cfg : Cfg} (hwf : cfg.WF) (page : Int) :
    0 ≤ chip_page cfg page ∧ chip_page cfg page < (cfg.CFG_CHIPSIZE : Int) := by
  unfold chip_page
  have h1 := hwf.chip_pos
  have h2 := hwf.chipmax
  have hm : u32 ((cfg.CFG_CHIPSIZE : Int) - 1) = cfg.CFG_CHIPSIZE - 1 := by
    have := u32_small ((cfg.CFG_CHIPSIZE : Int) - 1) (by omega) (by omega)
    omega
  rw [hm]
  have : u32 page &&& (cfg.CFG_CHIPSIZE - 1) ≤ cfg.CFG_CHIPSIZE - 1 := Nat.and_le_right
  omega

/-- C13 (code evaluated at the failing input): on a controller whose INTERRUPT_STATUS always
reads 3 and whose STATUS always reads 4, the RX-ready poll of `nfc_read_status` times out,
the `nfc_all_reset` it calls reaches `nfc_chip_reset`, whose `nfc_wait_ready` calls
`nfc_read_status` again, which times out again and resets again: the call does not return,
whatever the amount of fuel. -/
theorem C13_read_status_reset_recursion (fuel : Nat) :
    nfc_read_status sampleCfg stuckDev fuel () = none
    ∧ nfc_all_reset sampleCfg stuckDev fuel () = none
    ∧ nfc_wait_ready sampleCfg stuckDev fuel 0 () = none :=
  ⟨(stuck_chain fuel).1 (), (stuck_chain fuel).2.2.2 (), (stuck_chain fuel).2.1 0 ()⟩

/-- Supplement to C13: when the RX-ready poll of `nfc_read_status` ends with the bit clear
and the `nfc_all_reset` that follows returns, `nfc_read_status` returns -1 with the status
byte set to NAND_STATUS_FAIL, in the state the reset left. -/
theorem read_status_after_reset (cfg : Cfg) (dev : Dev σ) (fuel : Nat) (s s2 s3 : σ)
    (int_st : Nat) (r : Int)
    (hpoll : read_status_poll cfg dev fuel READ_STATUS_RETRY
      (dev.outl Reg.NFC_CONF ((0x000101 ||| (1 <<< 20)) % 4294967296)
        (dev.outl Reg.NFC_CMD1 (0x70 % 4294967296)
          (dev.outl Reg.NFC_INT_ST ((dev.inl Reg.NFC_INT_ST s).1 % 4294967296 % 4294967296)
            (dev.inl Reg.NFC_INT_ST s).2))) = some (int_st, s2))
    (htimeout : int_st &&& cfg.INT_ST_RX_BUF_RDY = 0)
    (hreset : nfc_all_reset cfg dev fuel s2 = some (r, s3)) :
    nfc_read_status cfg dev (fuel + 1) s = some ((-1, cfg.NAND_STATUS_FAIL % 256), s3) := by
  rw [nfc_read_status]
  simp only [M.bind_run, CLEAR_INT_STATUS, ra_inl_some, ra_outl, Option.some_bind]
  rw [hpoll]
  simp only [Option.some_bind, M.ite_run, htimeout, if_true, M.bind_run, hreset]
  rfl

/-- Supplement to C13 at a concrete input: on a controller whose registers all read 0 the
poll times out, the one reset gives up in its own first poll, and `nfc_read_status` returns
-1 with the status byte FAIL. -/
theorem read_status_after_reset_witness :
    nfc_read_status sampleCfg deafDev 1003 () = some ((-1, 1), ()) :=
  read_status_after_reset sampleCfg deafDev 1002 () () () 0 (-1)
    (deaf_poll 1002 READ_STATUS_RETRY () (by decide) (by decide) (by decide))
    rfl (deaf_all_reset 1001 (by decide) ())

/-- C14 (code evaluated at the failing input): on `skipFlash`, whose block at byte 8 (pages 2
and 3) is marked bad, `ranand_erase(8, 8)` is asked for the one block `[8, 16)`.  It probes
page 2, skips that block, probes page 4 and erases the block at byte 16 (pages 4 and 5),
which lies outside the range, and returns 1: two blocks are visited where
`len / block_size = 1`, and the data of page 4 (bytes 64..67) is gone. -/
theorem C14_erase_leaves_requested_range :
    ((ranand_erase sampleCfg (traceLayer sampleCfg) 5 8 8 (skipFlash, [])).map
        fun r => (r.1, r.2.2, window (r.2.1.pages 2) 4, window (r.2.1.pages 4) 4))
      = some (1, [BlockOp.probe 2, BlockOp.probe 4, BlockOp.erase 4],
          [32, 33, 34, 35], [255, 255, 255, 255])
    ∧ window (skipFlash.pages 4) 4 = [64, 65, 66, 67] := by
  constructor <;> decide

/-- Supplement to C14: on an unprotected chip, when none of the `m` blocks of the
block-aligned range `[offs, offs + m * block_size)` is marked bad, `ranand_erase` returns 0
and its block-level accesses are exactly `erase_range_ops`: the probe (when compiled in) and
the erase of each block of the range, in address order, and nothing else. -/
theorem ranand_erase_stays_in_range {cfg : Cfg} (hwf : cfg.WF) (fl : Flash)
    (hwp : fl.wp = false) (offs m : Nat) (hal : offs % cfg.CFG_BLOCKSIZE = 0)
    (hm : m * cfg.CFG_BLOCKSIZE < 2147483648)
    (hfit : offs + m * cfg.CFG_BLOCKSIZE ≤ 4294967296)
    (htags : cfg.CONFIG_BADBLOCK_CHECK = true →
      ∀ i, i < m → fl.tag_ok cfg (offs + i * cfg.CFG_BLOCKSIZE)) :
    (∃ fl1, ranand_erase cfg (traceLayer cfg) (m + 1) offs ((m * cfg.CFG_BLOCKSIZE : Nat) : Int)
        (fl, []) = some (0, (fl1, erase_range_ops cfg offs m)))
    ∧ (∀ op, op ∈ erase_range_ops cfg offs m →
        ∃ i, i < m ∧ (op = BlockOp.probe
              (i32 (((offs + i * cfg.CFG_BLOCKSIZE) >>> cfg.CONFIG_PAGE_SIZE_BIT : Nat) : Int))
            ∨ op = BlockOp.erase
              (i32 (((offs + i * cfg.CFG_BLOCKSIZE) >>> cfg.CONFIG_PAGE_SIZE_BIT : Nat) : Int))))
    ∧ ((erase_range_ops cfg offs m).filter fun op =>
        match op with
        | BlockOp.erase _ => true
        | _ => false).length = m := by
  have hbs := hwf.bs_pos
  have hlt : ∀ i, i < m → (offs + i * cfg.CFG_BLOCKSIZE) % 4294967296
      = offs + i * cfg.CFG_BLOCKSIZE := by
    intro i hi
    apply Nat.mod_eq_of_lt
    have : (i + 1) * cfg.CFG_BLOCKSIZE ≤ m * cfg.CFG_BLOCKSIZE :=
      Nat.mul_le_mul_right _ (by omega)
    rw [Nat.succ_mul] at this
    omega
  refine ⟨?_, ?_, ?_⟩
  · rcases Nat.eq_zero_or_pos m with hm0 | hmpos
    · subst hm0
      refine ⟨fl, ?_⟩
      have h1 : offs &&& (cfg.CFG_BLOCKSIZE - 1) = 0 := by rw [block_mask_nat hwf]; exact hal
      unfold ranand_erase
      simp [h1, u32, ranand_erase_loop, erase_range_ops]
    · have hoffs : offs < 4294967296 := by
        have := Nat.mul_le_mul_right cfg.CFG_BLOCKSIZE hmpos
        omega
      have h1 : offs &&& (cfg.CFG_BLOCKSIZE - 1) = 0 := by rw [block_mask_nat hwf]; exact hal
      have h2 : u32 ((m * cfg.CFG_BLOCKSIZE : Nat) : Int) &&& (cfg.CFG_BLOCKSIZE - 1) = 0 := by
        have := block_mask_int hwf ((m * cfg.CFG_BLOCKSIZE : Nat) : Int)
        have e : ((m * cfg.CFG_BLOCKSIZE : Nat) : Int) % (cfg.CFG_BLOCKSIZE : Int) = 0 := by
          push_cast; exact Int.mul_emod_left _ _
        rw [e] at this
        exact_mod_cast this
      obtain ⟨fl1, h⟩ := erase_trace_loop hwf m offs 0 fl [] hal hwp hm
        (fun hc i hi => by rw [hlt i hi]; exact htags hc i hi)
      refine ⟨fl1, ?_⟩
      unfold ranand_erase
      rw [if_neg (by rw [h1, h2]; simp)]
      rw [Nat.mod_eq_of_lt hoffs, List.nil_append] at h
      exact h
  · intro op hop
    unfold erase_range_ops at hop
    rw [List.mem_flatMap] at hop
    obtain ⟨i, hi, hmem⟩ := hop
    rw [List.mem_range] at hi
    refine ⟨i, hi, ?_⟩
    rw [hlt i hi] at hmem
    unfold erase_block_ops at hmem
    rw [List.mem_append] at hmem
    rcases hmem with h | h
    · left
      split_ifs at h
      · exact List.mem_singleton.mp h
      · exact absurd h (List.not_mem_nil _)
    · right
      exact List.mem_singleton.mp h
  · have key : ∀ (k o : Nat), ((erase_range_ops cfg o k).filter fun op =>
        match op with
        | BlockOp.erase _ => true
        | _ => false).length = k := by
      intro k
      induction k with
      | zero => intro o; rfl
      | succ k ih =>
        intro o
        have hops : erase_range_ops cfg o (k + 1)
            = erase_range_ops cfg o k
              ++ erase_block_ops cfg ((o + k * cfg.CFG_BLOCKSIZE) % 4294967296) := by
          unfold erase_range_ops
          rw [List.range_succ, List.flatMap_append]
          simp
        rw [hops, List.filter_append, List.length_append, ih o]
        unfold erase_block_ops
        by_cases hc : cfg.CONFIG_BADBLOCK_CHECK = true
        · simp [hc]
        · simp [hc]
    exact key m offs

theorem ranand_erase_stays_in_range_witness :
    (∃ fl1, ranand_erase sampleCfg (traceLayer sampleCfg) 3 8 16 (blankFlash, [])
      = some (0, (fl1, [BlockOp.probe 2, BlockOp.erase 2, BlockOp.probe 4, BlockOp.erase 4]))) :=
  (ranand_erase_stays_in_range sampleCfg_wf blankFlash rfl 8 2 (by decide) (by decide)
    (by decide) (fun _ _ _ => rfl)).1

end Claims

end NandFlash
